import Mathlib

/-!
# ViennaCL kernel generator: traversal engine and SAXPY templates

A shallow embedding of `viennacl/generator/generate_utils.hpp` and
`viennacl/generator/saxpy.hpp`, and of the dense matrix-matrix products and the option
words of `viennacl/linalg/cuda/matrix_operations.hpp`.

* C++ exceptions and out-of-range accesses are results of type
  `Except (gen_error × σ) σ`; the state stored with an error is the state at the
  moment the exception is thrown.
* Mutation through pointers (`mapped_handle *`, `std::set<std::string> &`, the
  stream) is explicit state passing.
* The recursion of `traverse` is bounded by a fuel argument; running out of fuel
  is the error `gen_error.fuel_exhausted`.
-/

namespace viennacl
namespace generator

/-! ## Types declared outside the embedded sources -/

/-- Modelled from the spec: the role tag of a Position Key,
`role_tag ∈ {PARENT, LHS, RHS, LHS_LEAF}`.  The enumeration `node_type` is declared in
`viennacl/generator/forwards.h`, which is not part of the embedded sources; the four
enumerators are the ones the sources use. -/
inductive node_type where
  | PARENT_TYPE
  | LHS_NODE_TYPE
  | RHS_NODE_TYPE
  | LHS_LEAF_TYPE
  deriving DecidableEq

/-- Modelled from the spec: the family of an operator (`unary`, `binary`, or anything
else).  Declared in `viennacl/scheduler/forwards.h`; enumerators the sources never name
are `OPERATION_OTHER_TYPE_FAMILY code`. -/
inductive operation_node_type_family where
  | OPERATION_UNARY_TYPE_FAMILY
  | OPERATION_BINARY_TYPE_FAMILY
  | OPERATION_OTHER_TYPE_FAMILY (code : Nat)
  deriving DecidableEq

/-- Modelled from the spec: the operator type of a node.  Declared in
`viennacl/scheduler/forwards.h`; the named enumerators are the ones the sources use,
every other enumerator is `OPERATION_OTHER_TYPE code`. -/
inductive operation_node_type where
  | OPERATION_UNARY_ABS_TYPE
  | OPERATION_BINARY_ASSIGN_TYPE
  | OPERATION_BINARY_ADD_TYPE
  | OPERATION_BINARY_ACCESS
  | OPERATION_BINARY_PROD_TYPE
  | OPERATION_BINARY_INNER_PROD_TYPE
  | OPERATION_OTHER_TYPE (code : Nat)
  deriving DecidableEq

/-- Modelled from the spec: the `type_family` of a child reference, which says whether
the child is a sub-expression (`COMPOSITE_OPERATION_FAMILY`) or a terminal operand
(every other family).  Declared in `viennacl/scheduler/forwards.h`. -/
inductive statement_node_type_family where
  | COMPOSITE_OPERATION_FAMILY
  | TERMINAL_TYPE_FAMILY (code : Nat)
  deriving DecidableEq

/-- Modelled from the spec: one entry of a graph's flat sequence, with the fields
`traverse` reads (`scheduler::statement_node`, declared in
`viennacl/scheduler/forwards.h`). -/
structure statement_node where
  op_family_ : operation_node_type_family
  op_type_ : operation_node_type
  lhs_type_family_ : statement_node_type_family
  lhs_node_index_ : Nat
  rhs_type_family_ : statement_node_type_family
  rhs_node_index_ : Nat
  deriving DecidableEq

/-- The Position Key `std::pair<std::size_t, node_type>`. -/
abbrev index_info : Type := Nat × node_type

/-- What a generation call can end with other than a normal return. -/
inductive gen_error where
  /-- The `throw "not implemented"` of `detail::generate`. -/
  | not_implemented
  /-- The `std::out_of_range` that `mapping_type::at` throws. -/
  | key_not_found
  /-- An `operator[]` outside of the bounds of a `std::vector`. -/
  | bad_index
  /-- The fuel of the model of `traverse` is used up. -/
  | fuel_exhausted
  deriving DecidableEq

/-- The dynamic type of a mapped operand, as far as the `dynamic_cast`s of `saxpy.hpp`
tell it apart. -/
inductive mapped_dynamic_type where
  /-- A `mapped_container` that is no `mapped_handle`. -/
  | mapped_container
  /-- A `mapped_handle` that is no `mapped_matrix`. -/
  | mapped_handle
  /-- A `mapped_matrix`, itself a `mapped_handle`. -/
  | mapped_matrix (is_row_major : Bool)
  deriving DecidableEq

/-- Modelled from the spec: the Mapped Operand (`detail::mapped_container` and its
subclasses, declared in `viennacl/generator/detail.hpp`): a stable name, an element
scalar type, the mutable current access name, and the memory-access expression that it
generates for an index. -/
structure mapped_container where
  dynamic_type : mapped_dynamic_type
  name : String
  scalartype : String
  access_name : String
  memory_access : String → String

/-- The `dynamic_cast<detail::mapped_handle *>` succeeds. -/
def mapped_container.is_mapped_handle (c : mapped_container) : Bool :=
  match c.dynamic_type with
  | .mapped_container => false
  | .mapped_handle => true
  | .mapped_matrix _ => true

/-- The `dynamic_cast<detail::mapped_matrix *>` succeeds. -/
def mapped_container.is_mapped_matrix (c : mapped_container) : Bool :=
  match c.dynamic_type with
  | .mapped_matrix _ => true
  | _ => false

/-- The value of `mapped_matrix::is_row_major()`. -/
def mapped_container.is_row_major (c : mapped_container) : Bool :=
  match c.dynamic_type with
  | .mapped_matrix r => r
  | _ => false

/-- Modelled from the spec: the text an operand contributes at a reference, "the
current access name, once set by a fetch, is used by every subsequent reference to
that operand"; while the access name is empty the reference is the memory-access
expression at the index.  Stands for `generate(index, container)` and for
`mapped_handle::generate(index, stream)`, both declared in
`viennacl/generator/detail.hpp`. -/
def mapped_container.generate (c : mapped_container) (index : String) : String :=
  if c.access_name = "" then c.memory_access index else c.access_name

/-- Modelled from the spec: the Operand Mapping Table, `std::map<index_info,
shared_ptr<mapped_container>>`, as the sequence of its entries in iteration order
(ascending keys).  Every entry owns its descriptor. -/
abbrev mapping_type : Type := List (index_info × mapped_container)

/-- The lookup `mapping_type::at`; `none` stands for the `std::out_of_range` it throws. -/
def mapping_type.at : mapping_type → index_info → Option mapped_container
  | [], _ => none
  | e :: rest, key => if e.1 = key then some e.2 else mapping_type.at rest key

/-- Store a mutated descriptor back under the key it was looked up with. -/
def mapping_type.set : mapping_type → index_info → mapped_container → mapping_type
  | [], _, _ => []
  | e :: rest, key, c =>
    if e.1 = key then (e.1, c) :: rest else e :: mapping_type.set rest key c

/-- Modelled from the spec: the output text buffer
(`utils::kernel_generation_stream`, declared in `viennacl/generator/utils.hpp`).
The spec describes appending text only; the tab counter is kept and does not
contribute text. -/
structure kernel_generation_stream where
  text : String
  tab_count : Nat
  deriving DecidableEq

/-- The insertion `stream << x`. -/
def kernel_generation_stream.put (stream : kernel_generation_stream) (x : String) :
    kernel_generation_stream :=
  { stream with text := stream.text ++ x }

/-- The insertion `stream << std::endl`. -/
def kernel_generation_stream.endl (stream : kernel_generation_stream) :
    kernel_generation_stream :=
  stream.put "\n"

/-- The call `stream.inc_tab()`. -/
def kernel_generation_stream.inc_tab (stream : kernel_generation_stream) :
    kernel_generation_stream :=
  { stream with tab_count := stream.tab_count + 1 }

/-- The call `stream.dec_tab()`. -/
def kernel_generation_stream.dec_tab (stream : kernel_generation_stream) :
    kernel_generation_stream :=
  { stream with tab_count := stream.tab_count - 1 }

/-- A statement of the batch: `scheduler::statement`, of which the generator reads
`array()`. -/
structure statement where
  array : List statement_node
  deriving DecidableEq

namespace detail

/-! ## `generate_utils.hpp` -/

/-- The function `generate_value_kernel_argument` (generate_utils.hpp:41). -/
def generate_value_kernel_argument (scalartype name : String) : String :=
  scalartype ++ " " ++ name ++ ","

/-- The function `generate_pointer_kernel_argument` (generate_utils.hpp:45). -/
def generate_pointer_kernel_argument (_address_space scalartype name : String) : String :=
  "__global " ++ scalartype ++ "* " ++ name ++ ","

/-- The function `generate(operation_node_type)` (generate_utils.hpp:49); `none` is
`throw "not implemented"`. -/
def generate : operation_node_type → Option String
  | .OPERATION_UNARY_ABS_TYPE => some "abs"
  | .OPERATION_BINARY_ASSIGN_TYPE => some "="
  | .OPERATION_BINARY_ADD_TYPE => some "+"
  | .OPERATION_BINARY_ACCESS => some ""
  | _ => none

/-- The visitor concept that `traverse` is a template over: the four hooks, each a
transition of the visitor's state that may throw. -/
structure TraversalFunctor (σ : Type) where
  call_on_leaf : index_info → statement_node → List statement_node → σ →
    Except (gen_error × σ) σ
  call_on_op : operation_node_type_family → operation_node_type → σ →
    Except (gen_error × σ) σ
  call_before_expansion : σ → Except (gen_error × σ) σ
  call_after_expansion : σ → Except (gen_error × σ) σ

/-- The class `expression_generation_traversal` (generate_utils.hpp:67): the code-emission
visitor; its state is the buffer `str_`. -/
def expression_generation_traversal (index_string_ : String) (mapping_ : mapping_type) :
    TraversalFunctor kernel_generation_stream where
  call_on_leaf := fun key _node _array str_ =>
    match mapping_type.at mapping_ key with
    | none => .error (gen_error.key_not_found, str_)
    | some c => .ok (str_.put (c.generate index_string_))
  call_on_op := fun _ type str_ =>
    match generate type with
    | none => .error (gen_error.not_implemented, str_)
    | some symbol => .ok (str_.put symbol)
  call_before_expansion := fun str_ => .ok (str_.put "(")
  call_after_expansion := fun str_ => .ok (str_.put ")")

/-- The function `get_new_key` (generate_utils.hpp:81). -/
def get_new_key (type_family : statement_node_type_family) (current_index next_index : Nat)
    (node_tag : node_type) : index_info :=
  if type_family = statement_node_type_family.COMPOSITE_OPERATION_FAMILY then
    (next_index, node_type.PARENT_TYPE)
  else
    (current_index, node_tag)

/-- The function `traverse` (generate_utils.hpp:89).  The first argument bounds the depth of the
recursion. -/
def traverse {σ : Type} (array : List statement_node) (fun_ : TraversalFunctor σ)
    (deep_traversal : Bool) : Nat → index_info → σ → Except (gen_error × σ) σ
  | 0, _, s => .error (gen_error.fuel_exhausted, s)
  | fuel + 1, key, s =>
    let index := key.1
    let node_tag := key.2
    match array[index]? with
    | none => .error (gen_error.bad_index, s)
    | some element =>
      let op_type := element.op_type_
      let op_family := element.op_family_
      if node_tag = node_type.PARENT_TYPE then
        (if op_family = operation_node_type_family.OPERATION_UNARY_TYPE_FAMILY then
          fun_.call_on_op op_family op_type s >>= fun s =>
          fun_.call_before_expansion s >>= fun s =>
          traverse array fun_ deep_traversal fuel
            (get_new_key element.lhs_type_family_ index element.lhs_node_index_
              node_type.LHS_NODE_TYPE) s >>= fun s =>
          fun_.call_after_expansion s
        else pure s) >>= fun s =>
        if op_family = operation_node_type_family.OPERATION_BINARY_TYPE_FAMILY then
          if op_type = operation_node_type.OPERATION_BINARY_ACCESS then
            fun_.call_on_leaf key element array s >>= fun s =>
            if deep_traversal then
              traverse array fun_ deep_traversal fuel
                (get_new_key element.rhs_type_family_ index element.rhs_node_index_
                  node_type.RHS_NODE_TYPE) s
            else pure s
          else
            let is_binary_leaf : Bool :=
              decide (op_type = operation_node_type.OPERATION_BINARY_PROD_TYPE)
                || decide (op_type = operation_node_type.OPERATION_BINARY_INNER_PROD_TYPE)
            let recurse : Bool := !is_binary_leaf || (is_binary_leaf && deep_traversal)
            (if is_binary_leaf then fun_.call_on_leaf key element array s else pure s)
              >>= fun s =>
            if recurse then
              fun_.call_before_expansion s >>= fun s =>
              traverse array fun_ deep_traversal fuel
                (get_new_key element.lhs_type_family_ index element.lhs_node_index_
                  node_type.LHS_NODE_TYPE) s >>= fun s =>
              fun_.call_on_op op_family op_type s >>= fun s =>
              traverse array fun_ deep_traversal fuel
                (get_new_key element.rhs_type_family_ index element.rhs_node_index_
                  node_type.RHS_NODE_TYPE) s >>= fun s =>
              fun_.call_after_expansion s
            else pure s
        else pure s
      else
        fun_.call_on_leaf key element array s

/-- An invocation of a visitor hook. -/
inductive traversal_event where
  | on_leaf (key : index_info) (node : statement_node)
  | on_operator (family : operation_node_type_family) (type : operation_node_type)
  | before_expansion
  | after_expansion
  deriving DecidableEq

/-- The visitor that records every hook invocation, in order. -/
def event_recorder : TraversalFunctor (List traversal_event) where
  call_on_leaf := fun key node _ evs => .ok (evs ++ [traversal_event.on_leaf key node])
  call_on_op := fun family type evs => .ok (evs ++ [traversal_event.on_operator family type])
  call_before_expansion := fun evs => .ok (evs ++ [traversal_event.before_expansion])
  call_after_expansion := fun evs => .ok (evs ++ [traversal_event.after_expansion])

/-- The hook invocations of `traverse(array, fun, deep_traversal, key)`, within the
given recursion depth. -/
def traverse_events (array : List statement_node) (deep_traversal : Bool) (fuel : Nat)
    (key : index_info) : Except (gen_error × List traversal_event) (List traversal_event) :=
  traverse array event_recorder deep_traversal fuel key []

/-- The call `traverse(array, fun, deep_traversal, key)` returns, and `events` is the
sequence of hook invocations it made. -/
def Traverses (array : List statement_node) (deep_traversal : Bool) (key : index_info)
    (events : List traversal_event) : Prop :=
  ∃ fuel, traverse_events array deep_traversal fuel key = .ok events

/-- Put the events `s`, recorded earlier, in front of a result of the recorder. -/
def shift_events (s : List traversal_event) :
    Except (gen_error × List traversal_event) (List traversal_event) →
      Except (gen_error × List traversal_event) (List traversal_event)
  | .ok evs => .ok (s ++ evs)
  | .error p => .error (p.1, s ++ p.2)

/-- Deliver one recorded event to the hook of the visitor that it records. -/
def dispatch_event {σ : Type} (fun_ : TraversalFunctor σ) (array : List statement_node) :
    traversal_event → σ → Except (gen_error × σ) σ
  | .on_leaf key node, s => fun_.call_on_leaf key node array s
  | .on_operator family type, s => fun_.call_on_op family type s
  | .before_expansion, s => fun_.call_before_expansion s
  | .after_expansion, s => fun_.call_after_expansion s

/-- Deliver a sequence of recorded events to a visitor, in order, up to the first hook
that throws. -/
def replay_events {σ : Type} (fun_ : TraversalFunctor σ) (array : List statement_node) :
    List traversal_event → σ → Except (gen_error × σ) σ
  | [], s => .ok s
  | ev :: evs, s => dispatch_event fun_ array ev s >>= replay_events fun_ array evs

/-- Deliver the outcome of a recorded traversal to a visitor: the events in order and,
when the traversal itself failed after them, that failure. -/
def replay_result {σ : Type} (fun_ : TraversalFunctor σ) (array : List statement_node)
    (r : Except (gen_error × List traversal_event) (List traversal_event)) (s : σ) :
    Except (gen_error × σ) σ :=
  match r with
  | .ok evs => replay_events fun_ array evs s
  | .error p => replay_events fun_ array p.2 s >>= fun s' => .error (p.1, s')

end detail

/-! ## `saxpy.hpp` -/

/-- The function `fetch` (saxpy.hpp:42).  Returns the mutated handle, the mutated set
and the mutated stream. -/
def fetch (c : mapped_container) (index : String) (fetched : Finset String)
    (stream : kernel_generation_stream) :
    mapped_container × Finset String × kernel_generation_stream :=
  let new_access_name := c.name ++ "_private"
  let r : Finset String × kernel_generation_stream :=
    if c.name ∉ fetched then
      let stream := (((stream.put c.scalartype).put " ").put new_access_name).put " = "
      let stream := stream.put (c.generate index)
      let stream := (stream.put ";").endl
      (insert c.name fetched, stream)
    else (fetched, stream)
  ({ c with access_name := new_access_name }, r.1, r.2)

/-- The function `write_back` (saxpy.hpp:53).  Returns the mutated handle, the mutated
set and the mutated stream. -/
def write_back (c : mapped_container) (index : String) (fetched : Finset String)
    (stream : kernel_generation_stream) :
    mapped_container × Finset String × kernel_generation_stream :=
  let old_access_name := c.access_name
  let c : mapped_container := { c with access_name := "" }
  let r : Finset String × kernel_generation_stream :=
    if c.name ∈ fetched then
      let stream := stream.put (c.generate index)
      let stream := (((stream.put " = ").put old_access_name).put ";").endl
      (fetched.erase c.name, stream)
    else (fetched, stream)
  (c, r.1, r.2)

/-- The inner loop of the fetch pass (saxpy.hpp:92 and 163): one table, iterated from
`rbegin()` to `rend()`.  `cast` is the `dynamic_cast` of the loop body together with
the index string passed to `fetch`. -/
def fetch_table (cast : mapped_container → Option String) :
    mapping_type → Finset String → kernel_generation_stream →
      mapping_type × Finset String × kernel_generation_stream
  | [], fetched, stream => ([], fetched, stream)
  | e :: rest, fetched, stream =>
    let r := fetch_table cast rest fetched stream
    match cast e.2 with
    | some index =>
      let q := fetch e.2 index r.2.1 r.2.2
      ((e.1, q.1) :: r.1, q.2.1, q.2.2)
    | none => (e :: r.1, r.2.1, r.2.2)

/-- The fetch pass (saxpy.hpp:91 and 162): every table of `mapping_`, in order. -/
def fetch_pass (cast : mapped_container → Option String) :
    List mapping_type → Finset String → kernel_generation_stream →
      List mapping_type × Finset String × kernel_generation_stream
  | [], fetched, stream => ([], fetched, stream)
  | m :: ms, fetched, stream =>
    let r := fetch_table cast m fetched stream
    let r2 := fetch_pass cast ms r.2.1 r.2.2
    (r.1 :: r2.1, r2.2.1, r2.2.2)

/-- The emission loop (saxpy.hpp:96 and 167): statement number `i` is traversed from
the root key `(0, PARENT_TYPE)` with `mapping_[i]`, and terminated by `;`. -/
def emit_statements (fuel : Nat) (mapping_ : List mapping_type) :
    List statement → Nat → kernel_generation_stream →
      Except (gen_error × kernel_generation_stream) kernel_generation_stream
  | [], _, stream => .ok stream
  | it :: rest, i, stream =>
    match mapping_[i]? with
    | none => .error (gen_error.bad_index, stream)
    | some m =>
      detail.traverse it.array (detail.expression_generation_traversal "" m) true fuel
        (0, node_type.PARENT_TYPE) stream >>= fun stream =>
      emit_statements fuel mapping_ rest (i + 1) ((stream.put ";").endl)

/-- The write-back pass (saxpy.hpp:103 and 174): for every table, the entry at
`(0, LHS_LEAF_TYPE)`. -/
def write_back_pass (cast : mapped_container → Option String) :
    List mapping_type → Finset String → kernel_generation_stream →
      Except (gen_error × kernel_generation_stream)
        (List mapping_type × Finset String × kernel_generation_stream)
  | [], fetched, stream => .ok ([], fetched, stream)
  | m :: ms, fetched, stream =>
    match mapping_type.at m (0, node_type.LHS_LEAF_TYPE) with
    | none => .error (gen_error.key_not_found, stream)
    | some c =>
      match cast c with
      | some index =>
        let q := write_back c index fetched stream
        write_back_pass cast ms q.2.1 q.2.2 >>= fun r =>
        pure (mapping_type.set m (0, node_type.LHS_LEAF_TYPE) q.1 :: r.1, r.2.1, r.2.2)
      | none =>
        write_back_pass cast ms fetched stream >>= fun r =>
        pure (m :: r.1, r.2.1, r.2.2)

namespace vector_saxpy

/-- The cast of the vector template: `dynamic_cast<detail::mapped_handle *>`, index
`"i"` (saxpy.hpp:93 and 104). -/
def handle_cast (c : mapped_container) : Option String :=
  if c.is_mapped_handle then some "i" else none

/-- The stream when the fetch pass of `vector_saxpy::core` starts: the loop header and
the opening brace are written (saxpy.hpp:85 to 87). -/
def body_stream (stream : kernel_generation_stream) : kernel_generation_stream :=
  ((stream.put
    "for(unsigned int i = get_global_id(0) ; i < N ; i += get_global_size(0))").endl.put
      "\x7b").endl.inc_tab

/-- The method `vector_saxpy::core` (saxpy.hpp:84).  Returns the mutated `mapping_`
and the stream. -/
def core (statements_ : List statement) (mapping_ : List mapping_type) (fuel : Nat)
    (stream : kernel_generation_stream) :
    Except (gen_error × kernel_generation_stream)
      (List mapping_type × kernel_generation_stream) :=
  let stream :=
    (stream.put "for(unsigned int i = get_global_id(0) ; i < N ; i += get_global_size(0))").endl
  let stream := (stream.put "\x7b").endl
  let stream := stream.inc_tab
  let f := fetch_pass handle_cast mapping_ ∅ stream
  emit_statements fuel f.1 statements_ 0 f.2.2 >>= fun stream =>
  write_back_pass handle_cast f.1 f.2.1 stream >>= fun w =>
  let stream := w.2.2.dec_tab
  pure (w.1, (stream.put "\x7d").endl)

end vector_saxpy

namespace matrix_saxpy

/-- The method `matrix_saxpy::get_offset` (saxpy.hpp:141). -/
def get_offset (p : mapped_container) : String :=
  if p.is_row_major then "i*N + j" else "i + j*M"

/-- The cast of the matrix template: `dynamic_cast<detail::mapped_matrix *>`, index
`get_offset(p)` (saxpy.hpp:164 and 175). -/
def matrix_cast (c : mapped_container) : Option String :=
  if c.is_mapped_matrix then some (get_offset c) else none

/-- The method `matrix_saxpy::core` (saxpy.hpp:151).  Returns the mutated `mapping_`
and the stream. -/
def core (statements_ : List statement) (mapping_ : List mapping_type) (fuel : Nat)
    (stream : kernel_generation_stream) :
    Except (gen_error × kernel_generation_stream)
      (List mapping_type × kernel_generation_stream) :=
  let stream :=
    (stream.put "for(unsigned int i = get_global_id(0) ; i < M ; i += get_global_size(0))").endl
  let stream := (stream.put "\x7b").endl
  let stream := stream.inc_tab
  let stream :=
    (stream.put "for(unsigned int j = get_global_id(1) ; j < N ; j += get_global_size(1))").endl
  let stream := (stream.put "\x7b").endl
  let stream := stream.inc_tab
  let f := fetch_pass matrix_cast mapping_ ∅ stream
  emit_statements fuel f.1 statements_ 0 f.2.2 >>= fun stream =>
  write_back_pass matrix_cast f.1 f.2.1 stream >>= fun w =>
  let stream := w.2.2.dec_tab
  let stream := (stream.put "\x7d").endl
  let stream := stream.dec_tab
  pure (w.1, (stream.put "\x7d").endl)

end matrix_saxpy

/-! ## Sample operands and batches -/

/-- A vector operand named `name` with element type `float`, not fetched. -/
def sample_vector (name : String) : mapped_container where
  dynamic_type := mapped_dynamic_type.mapped_handle
  name := name
  scalartype := "float"
  access_name := ""
  memory_access := fun index => name ++ "[" ++ index ++ "]"

/-- The graph of `lhs = rhs` over two terminal operands: one assignment node. -/
def sample_assign : statement where
  array := [⟨operation_node_type_family.OPERATION_BINARY_TYPE_FAMILY,
    operation_node_type.OPERATION_BINARY_ASSIGN_TYPE,
    statement_node_type_family.TERMINAL_TYPE_FAMILY 0, 0,
    statement_node_type_family.TERMINAL_TYPE_FAMILY 0, 0⟩]

/-- The mapping table of `lhs = rhs`: the two leaves that the traversal visits and the
assignment target at `(0, LHS_LEAF_TYPE)`. -/
def sample_assign_mapping (lhs rhs : String) : mapping_type :=
  [((0, node_type.LHS_NODE_TYPE), sample_vector lhs),
   ((0, node_type.RHS_NODE_TYPE), sample_vector rhs),
   ((0, node_type.LHS_LEAF_TYPE), sample_vector lhs)]

/-- The graph of `lhs = abs(arg)` over two terminal operands: the assignment node and
the unary node at index 1. -/
def sample_abs_assign : statement where
  array := [⟨operation_node_type_family.OPERATION_BINARY_TYPE_FAMILY,
    operation_node_type.OPERATION_BINARY_ASSIGN_TYPE,
    statement_node_type_family.TERMINAL_TYPE_FAMILY 0, 0,
    statement_node_type_family.COMPOSITE_OPERATION_FAMILY, 1⟩,
    ⟨operation_node_type_family.OPERATION_UNARY_TYPE_FAMILY,
    operation_node_type.OPERATION_UNARY_ABS_TYPE,
    statement_node_type_family.TERMINAL_TYPE_FAMILY 0, 0,
    statement_node_type_family.TERMINAL_TYPE_FAMILY 0, 0⟩]

/-- An empty stream. -/
def empty_stream : kernel_generation_stream := ⟨"", 0⟩

/-! ## Vocabulary of the statements about the cache passes -/

/-- The concatenation of a sequence of emitted lines. -/
def concat_lines : List String → String
  | [] => ""
  | l :: ls => l ++ concat_lines ls

/-- The register declaration `<scalartype> <name>_private = <reference>;` with its
newline, as `fetch` writes it for the operand `c` at `index`. -/
def register_line (c : mapped_container) (index : String) : String :=
  c.scalartype ++ " " ++ (c.name ++ "_private") ++ " = " ++ c.generate index ++ ";" ++ "\n"

/-- The write-back line `<memory access> = <access name>;` with its newline, as
`write_back` writes it for the operand `c` at `index`. -/
def write_back_line (c : mapped_container) (index : String) : String :=
  c.memory_access index ++ " = " ++ c.access_name ++ ";" ++ "\n"

/-- The number of Position Keys, over all tables of the batch, under which an operand
named `n` that passes `cast` occurs. -/
def occurrences (cast : mapped_container → Option String) (mapping_ : List mapping_type)
    (n : String) : Nat :=
  (mapping_.map fun m => m.countP fun e => (cast e.2).isSome && e.2.name == n).sum

/-- The operand named `n` is the assignment target of the statement with table `m`: the
entry at `(0, LHS_LEAF_TYPE)` passes `cast` and has the name `n`. -/
def is_target (cast : mapped_container → Option String) (n : String) (m : mapping_type) :
    Bool :=
  match mapping_type.at m (0, node_type.LHS_LEAF_TYPE) with
  | some c => (cast c).isSome && c.name == n
  | none => false

/-- The descriptor `c` after the fetch pass: its access name is the register name when
it passes `cast`. -/
def fetched_operand (cast : mapped_container → Option String) (c : mapped_container) :
    mapped_container :=
  match cast c with
  | some _ => { c with access_name := c.name ++ "_private" }
  | none => c

/-- The stream in which a pass ends, whether it returns or throws. -/
def final_stream {α : Type} (stream_of : α → kernel_generation_stream) :
    Except (gen_error × kernel_generation_stream) α → kernel_generation_stream
  | .ok a => stream_of a
  | .error p => p.2

/-! ## More sample graphs, and the vocabulary of the statements about emission -/

/-- The graph of `lhs = left * right` (matrix-vector product) over three terminal
operands: the assignment node and the product node at index 1. -/
def sample_prod_assign : statement where
  array := [⟨operation_node_type_family.OPERATION_BINARY_TYPE_FAMILY,
    operation_node_type.OPERATION_BINARY_ASSIGN_TYPE,
    statement_node_type_family.TERMINAL_TYPE_FAMILY 0, 0,
    statement_node_type_family.COMPOSITE_OPERATION_FAMILY, 1⟩,
    ⟨operation_node_type_family.OPERATION_BINARY_TYPE_FAMILY,
    operation_node_type.OPERATION_BINARY_PROD_TYPE,
    statement_node_type_family.TERMINAL_TYPE_FAMILY 0, 0,
    statement_node_type_family.TERMINAL_TYPE_FAMILY 0, 0⟩]

/-- The graph of `lhs = operand[index]` (element access) over terminal operands: the
assignment node and the element-access node at index 1. -/
def sample_access_assign : statement where
  array := [⟨operation_node_type_family.OPERATION_BINARY_TYPE_FAMILY,
    operation_node_type.OPERATION_BINARY_ASSIGN_TYPE,
    statement_node_type_family.TERMINAL_TYPE_FAMILY 0, 0,
    statement_node_type_family.COMPOSITE_OPERATION_FAMILY, 1⟩,
    ⟨operation_node_type_family.OPERATION_BINARY_TYPE_FAMILY,
    operation_node_type.OPERATION_BINARY_ACCESS,
    statement_node_type_family.TERMINAL_TYPE_FAMILY 0, 0,
    statement_node_type_family.TERMINAL_TYPE_FAMILY 0, 0⟩]

/-- A graph whose root node belongs to neither the unary nor the binary operator
family. -/
def sample_unclassified : statement where
  array := [⟨operation_node_type_family.OPERATION_OTHER_TYPE_FAMILY 0,
    operation_node_type.OPERATION_OTHER_TYPE 0,
    statement_node_type_family.TERMINAL_TYPE_FAMILY 0, 0,
    statement_node_type_family.TERMINAL_TYPE_FAMILY 0, 0⟩]

/-- The graph of `lhs = left + right` over three terminal operands: the assignment node
and the addition node at index 1. -/
def sample_sum_assign : statement where
  array := [⟨operation_node_type_family.OPERATION_BINARY_TYPE_FAMILY,
    operation_node_type.OPERATION_BINARY_ASSIGN_TYPE,
    statement_node_type_family.TERMINAL_TYPE_FAMILY 0, 0,
    statement_node_type_family.COMPOSITE_OPERATION_FAMILY, 1⟩,
    ⟨operation_node_type_family.OPERATION_BINARY_TYPE_FAMILY,
    operation_node_type.OPERATION_BINARY_ADD_TYPE,
    statement_node_type_family.TERMINAL_TYPE_FAMILY 0, 0,
    statement_node_type_family.TERMINAL_TYPE_FAMILY 0, 0⟩]

/-- The graph of `lhs = left - right`: the assignment node and, at index 1, a node of
the binary family whose operator has no symbol in `detail::generate`. -/
def sample_unsupported_assign : statement where
  array := [⟨operation_node_type_family.OPERATION_BINARY_TYPE_FAMILY,
    operation_node_type.OPERATION_BINARY_ASSIGN_TYPE,
    statement_node_type_family.TERMINAL_TYPE_FAMILY 0, 0,
    statement_node_type_family.COMPOSITE_OPERATION_FAMILY, 1⟩,
    ⟨operation_node_type_family.OPERATION_BINARY_TYPE_FAMILY,
    operation_node_type.OPERATION_OTHER_TYPE 0,
    statement_node_type_family.TERMINAL_TYPE_FAMILY 0, 0,
    statement_node_type_family.TERMINAL_TYPE_FAMILY 0, 0⟩]

/-- The mapping table of a statement `a = b op c` with a binary node at index 1: the
three leaves that the traversal visits and the assignment target at
`(0, LHS_LEAF_TYPE)`. -/
def binary_assign_mapping (a b c : mapped_container) : mapping_type :=
  [((0, node_type.LHS_NODE_TYPE), a),
   ((0, node_type.LHS_LEAF_TYPE), a),
   ((1, node_type.LHS_NODE_TYPE), b),
   ((1, node_type.RHS_NODE_TYPE), c)]

/-- The grammar `E ::= leaf | '(' E op E ')' | fn '(' E ')'` of emitted expressions:
`atomic` says which texts are valid atomic expressions, the binary operator symbols are
`=` and `+`, the function name is `abs`. -/
inductive well_formed_expression (atomic : String → Prop) : String → Prop where
  | leaf (t : String) : atomic t → well_formed_expression atomic t
  | binary (l op r : String) :
      well_formed_expression atomic l → (op = "=" ∨ op = "+") →
      well_formed_expression atomic r →
      well_formed_expression atomic ("(" ++ l ++ op ++ r ++ ")")
  | unary (fn e : String) :
      fn = "abs" → well_formed_expression atomic e →
      well_formed_expression atomic (fn ++ "(" ++ e ++ ")")

/-- Modelled from the spec: a node is well formed when its operator type is tagged with
the family it belongs to, "an operator type (one of a fixed enumeration, tagged with a
family)": unary abs is unary, assignment, addition, element access and the two products
are binary, and any other operator is unary or binary. -/
def well_formed_node (node : statement_node) : Bool :=
  match node.op_type_ with
  | .OPERATION_UNARY_ABS_TYPE =>
    decide (node.op_family_ = operation_node_type_family.OPERATION_UNARY_TYPE_FAMILY)
  | .OPERATION_OTHER_TYPE _ =>
    decide (node.op_family_ = operation_node_type_family.OPERATION_UNARY_TYPE_FAMILY) ||
      decide (node.op_family_ = operation_node_type_family.OPERATION_BINARY_TYPE_FAMILY)
  | _ => decide (node.op_family_ = operation_node_type_family.OPERATION_BINARY_TYPE_FAMILY)

/-- The number of occurrences of the character `c` in the text `t`. -/
def count_char (c : Char) (t : String) : Nat :=
  t.data.count c

/-- The mapping table of `y = x[k]`: the assignment target, the element-access node at
`(1, PARENT_TYPE)` and its index operand. -/
def sample_access_mapping : mapping_type :=
  [((0, node_type.LHS_NODE_TYPE), sample_vector "y"),
   ((0, node_type.LHS_LEAF_TYPE), sample_vector "y"),
   ((1, node_type.PARENT_TYPE), sample_vector "x"),
   ((1, node_type.RHS_NODE_TYPE), sample_vector "k")]

/-- The atomic expressions of the sample `y = x[k]`: the access texts of its three
operands at the index `i`. -/
def sample_atomic (t : String) : Prop :=
  t = "y[i]" ∨ t = "x[i]" ∨ t = "k[i]"

/-- The mapping table of `y = A * x`: the leaves that a deep traversal visits, the
product node at `(1, PARENT_TYPE)` and the assignment target. -/
def sample_prod_mapping : mapping_type :=
  [((0, node_type.LHS_NODE_TYPE), sample_vector "y"),
   ((0, node_type.LHS_LEAF_TYPE), sample_vector "y"),
   ((1, node_type.PARENT_TYPE), sample_vector "Ax"),
   ((1, node_type.LHS_NODE_TYPE), sample_vector "A"),
   ((1, node_type.RHS_NODE_TYPE), sample_vector "x")]

/-- The leaf keys that the code-emission visitor looks up when it is given the events
of a traversal: the keys of the `on_leaf` events that come before the first
`on_operator` event whose operator has no symbol, at which emission stops. -/
def visited_leaf_keys : List detail.traversal_event → List index_info
  | [] => []
  | .on_leaf key _ :: evs => key :: visited_leaf_keys evs
  | .on_operator _ type :: evs =>
    if detail.generate type = none then [] else visited_leaf_keys evs
  | .before_expansion :: evs => visited_leaf_keys evs
  | .after_expansion :: evs => visited_leaf_keys evs

/-! ## Profiles of the two templates (`saxpy.hpp`) -/

namespace vector_saxpy

/-- The class `vector_saxpy::profile` (saxpy.hpp:65): the vectorization passed to
`template_base::profile`, and the three members set by the constructor. -/
structure profile where
  vectorization_ : Nat
  group_size_ : Nat
  num_groups_ : Nat
  global_decomposition_ : Bool

/-- The method `vector_saxpy::profile::set_local_sizes` (saxpy.hpp:68); the result is
the pair of the two reference arguments after the call. -/
def profile.set_local_sizes (p : profile) (_x _y : Nat) : Nat × Nat :=
  (p.group_size_, 1)

/-- The method `vector_saxpy::profile::kernel_arguments` (saxpy.hpp:72); the result is
the argument string after the call. -/
def profile.kernel_arguments (_p : profile) (arguments_string : String) : String :=
  arguments_string ++ detail.generate_value_kernel_argument "unsigned int" "N"

end vector_saxpy

namespace matrix_saxpy

/-- The class `matrix_saxpy::profile` (saxpy.hpp:119): the vectorization passed to
`template_base::profile`, and the five members set by the constructor. -/
structure profile where
  vectorization_ : Nat
  group_size1_ : Nat
  group_size2_ : Nat
  num_groups1_ : Nat
  num_groups2_ : Nat
  global_decomposition_ : Bool

/-- The method `matrix_saxpy::profile::set_local_sizes` (saxpy.hpp:122); the result is
the pair of the two reference arguments after the call. -/
def profile.set_local_sizes (p : profile) (_x _y : Nat) : Nat × Nat :=
  (p.group_size1_, p.group_size2_)

/-- The method `matrix_saxpy::profile::kernel_arguments` (saxpy.hpp:126); the result is
the argument string after the call. -/
def profile.kernel_arguments (_p : profile) (arguments_string : String) : String :=
  (arguments_string ++ detail.generate_value_kernel_argument "unsigned int" "M")
    ++ detail.generate_value_kernel_argument "unsigned int" "N"

/-- The stream when the fetch pass of `matrix_saxpy::core` starts: the two loop headers
and the two opening braces are written (saxpy.hpp:152 to 157). -/
def body_stream (stream : kernel_generation_stream) : kernel_generation_stream :=
  ((((stream.put
    "for(unsigned int i = get_global_id(0) ; i < M ; i += get_global_size(0))").endl.put
      "\x7b").endl.inc_tab.put
    "for(unsigned int j = get_global_id(1) ; j < N ; j += get_global_size(1))").endl.put
      "\x7b").endl.inc_tab

end matrix_saxpy


/-! ## Vocabulary of the statements about the tables after a generation -/

/-- The table `m` after the write-back pass: the descriptor at `(0, LHS_LEAF_TYPE)` has
an empty access name when it passes `cast`; every other entry is as before. -/
def written_back (cast : mapped_container → Option String) (m : mapping_type) :
    mapping_type :=
  match mapping_type.at m (0, node_type.LHS_LEAF_TYPE) with
  | some c =>
    match cast c with
    | some _ => mapping_type.set m (0, node_type.LHS_LEAF_TYPE) { c with access_name := "" }
    | none => m
  | none => m

/-! ## Index expressions of the generated kernel -/

/-- An index expression of the generated OpenCL C text: variables, sums and products. -/
inductive index_expr where
  | var (name : String)
  | add (a b : index_expr)
  | mul (a b : index_expr)
  deriving DecidableEq

/-- The text of an index expression, as the templates write it: ` + ` between the
summands and `*` between the factors. -/
def index_expr.render : index_expr → String
  | .var name => name
  | .add a b => a.render ++ " + " ++ b.render
  | .mul a b => a.render ++ "*" ++ b.render

/-- The value of an index expression in the generated kernel.  The loop variables `i`,
`j` and the bounds `M`, `N` are declared `unsigned int` (saxpy.hpp:72, 85, 131, 132, 152
and 155), so the arithmetic is that of 32-bit unsigned integers: every result is taken
modulo `2^32`. -/
def index_expr.value (env : String → Nat) : index_expr → Nat
  | .var name => env name % 2 ^ 32
  | .add a b => (a.value env + b.value env) % 2 ^ 32
  | .mul a b => (a.value env * b.value env) % 2 ^ 32

namespace matrix_saxpy

/-- The two index expressions whose text `matrix_saxpy::get_offset` returns
(saxpy.hpp:142 to 145). -/
def offset_expr (row_major : Bool) : index_expr :=
  if row_major then
    index_expr.add (index_expr.mul (index_expr.var "i") (index_expr.var "N"))
      (index_expr.var "j")
  else
    index_expr.add (index_expr.var "i")
      (index_expr.mul (index_expr.var "j") (index_expr.var "M"))

end matrix_saxpy

/-- A matrix operand named `name` with element type `float` and the given layout, not
fetched. -/
def sample_matrix (name : String) (row_major : Bool) : mapped_container where
  dynamic_type := mapped_dynamic_type.mapped_matrix row_major
  name := name
  scalartype := "float"
  access_name := ""
  memory_access := fun index => name ++ "[" ++ index ++ "]"

/-- The mapping table of `C = A` with `C` row-major and `A` column-major. -/
def sample_matrix_mapping : mapping_type :=
  [((0, node_type.LHS_NODE_TYPE), sample_matrix "C" true),
   ((0, node_type.RHS_NODE_TYPE), sample_matrix "A" false),
   ((0, node_type.LHS_LEAF_TYPE), sample_matrix "C" true)]

/-- The values of the kernel variables in the work item of row `i` and column `j` of a
matrix with `rows` rows and `columns` columns. -/
def sample_env (rows columns i j : Nat) : String → Nat :=
  fun name =>
    if name = "M" then rows else if name = "N" then columns
    else if name = "i" then i else if name = "j" then j else 0

/-! ## Batches that the templates can generate -/

/-- The emission of the statement `it` with the table `m` meets no obstacle within the
recursion depth `fuel`: the traversal of the graph returns, every leaf that it visits has
an entry in the table, and every operator that it visits has a symbol. -/
def emittable (fuel : Nat) (it : statement) (m : mapping_type) : Bool :=
  match detail.traverse_events it.array true fuel (0, node_type.PARENT_TYPE) with
  | .ok evs => evs.all fun ev =>
      match ev with
      | .on_leaf key _ => (mapping_type.at m key).isSome
      | .on_operator _ type => (detail.generate type).isSome
      | _ => true
  | .error _ => false

/-- The batch can be generated within the recursion depth `fuel`: every statement has a
table and is emittable with it, and every table has an entry at `(0, LHS_LEAF_TYPE)`. -/
def generable (statements_ : List statement) (mapping_ : List mapping_type) (fuel : Nat) :
    Bool :=
  decide (statements_.length ≤ mapping_.length) &&
    (List.zip statements_ mapping_).all (fun p => emittable fuel p.1 p.2) &&
    mapping_.all fun m => (mapping_type.at m (0, node_type.LHS_LEAF_TYPE)).isSome

/-! ## Vocabulary of the statements about the events of a traversal -/

namespace detail

/-- The nesting depth after the events, starting from the depth `depth`: one more after
`before_expansion`, one less after `after_expansion`; `none` when an `after_expansion`
comes at depth 0. -/
def nesting_depth : Nat → List traversal_event → Option Nat
  | depth, [] => some depth
  | depth, ev :: evs =>
    match ev with
    | .before_expansion => nesting_depth (depth + 1) evs
    | .after_expansion => if depth = 0 then none else nesting_depth (depth - 1) evs
    | .on_leaf _ _ => nesting_depth depth evs
    | .on_operator _ _ => nesting_depth depth evs

/-- The events that the recorder holds when a traversal ends, whether it returns or
throws. -/
def recorded_events :
    Except (gen_error × List traversal_event) (List traversal_event) → List traversal_event
  | .ok evs => evs
  | .error p => p.2

end detail

/-! ## The template objects (`saxpy.hpp`) -/

/-- The class `vector_saxpy` (saxpy.hpp:63): the members `statements_` and `mapping_`
that it has from `template_base`, and its own member `profile_`. -/
structure vector_saxpy where
  statements_ : List statement
  mapping_ : List mapping_type
  profile_ : vector_saxpy.profile

/-- The method `vector_saxpy::core` (saxpy.hpp:84) of a template object: it runs on the
members `statements_` and `mapping_`. -/
def vector_saxpy.core_of (t : vector_saxpy) (fuel : Nat)
    (stream : kernel_generation_stream) :
    Except (gen_error × kernel_generation_stream)
      (List mapping_type × kernel_generation_stream) :=
  vector_saxpy.core t.statements_ t.mapping_ fuel stream

/-- The class `matrix_saxpy` (saxpy.hpp:117): the members `statements_` and `mapping_`
that it has from `template_base`, and its own member `profile_`. -/
structure matrix_saxpy where
  statements_ : List statement
  mapping_ : List mapping_type
  profile_ : matrix_saxpy.profile

/-- The method `matrix_saxpy::core` (saxpy.hpp:151) of a template object: it runs on the
members `statements_` and `mapping_`. -/
def matrix_saxpy.core_of (t : matrix_saxpy) (fuel : Nat)
    (stream : kernel_generation_stream) :
    Except (gen_error × kernel_generation_stream)
      (List mapping_type × kernel_generation_stream) :=
  matrix_saxpy.core t.statements_ t.mapping_ fuel stream

end generator

namespace linalg
namespace cuda

/-! ## `viennacl/linalg/cuda/matrix_operations.hpp` -/

/-- What the functions of this file read of a dense matrix argument through
`viennacl::traits`: `size1`, `size2` and the identity of its memory handle.  The matrix
types themselves are template parameters, declared outside these sources. -/
structure dense_matrix where
  size1 : Nat
  size2 : Nat
  handle : Nat
  deriving DecidableEq

/-- The two ways in which a call of this file ends without returning: a `throw` with its
operand, and a failing `assert` with the message of the assertion. -/
inductive failure where
  | thrown (what : String)
  | assertion (message : String)
  deriving DecidableEq

/-- An argument of `prod_impl`: a matrix, or the expression
`matrix_expression<const T, const T, op_trans>` with the matrix `lhs()`. -/
inductive matrix_argument where
  | matrix (m : dense_matrix)
  | trans (lhs : dense_matrix)
  deriving DecidableEq

/-- The assertion `assert(condition && bool(message))`: no effect when `NDEBUG` is defined or
the condition holds. -/
def assert (ndebug : Bool) (condition : Bool) (message : String) : Except failure Unit :=
  if ndebug || condition then .ok () else .error (failure.assertion message)

namespace detail

/-- The function `detail::prod_slow_kernel` (matrix_operations.hpp:428): the kernel launch
is commented out, the body ends in `throw "not implemented yet"`. -/
def prod_slow_kernel {ScalarType : Type} (_A _B _C : dense_matrix)
    (_alpha _beta : ScalarType) (_kernel_name : String) : Except failure dense_matrix :=
  .error (failure.thrown "not implemented yet")

/-- The function `detail::prod_fast_kernel` (matrix_operations.hpp:465): the kernel launch
is commented out, the body ends in `throw "not implemented yet"`. -/
def prod_fast_kernel {ScalarType : Type} (_A _B _C : dense_matrix)
    (_alpha _beta : ScalarType) (_kernel_name : String) : Except failure dense_matrix :=
  .error (failure.thrown "not implemented yet")

/-- The function `detail::prod` (matrix_operations.hpp:502): the dispatch on the sizes of
`A` and `B`. -/
def prod {ScalarType : Type} (A B C : dense_matrix) (alpha beta : ScalarType)
    (fast_kernel_name slow_kernel_name : String) : Except failure dense_matrix :=
  if A.size1 < 64 ∨ A.size2 < 64 ∨ B.size1 < 64 then
    prod_slow_kernel A B C alpha beta slow_kernel_name
  else if A.size1 % 64 = 0 ∧ A.size2 % 64 = 0 ∧ B.size1 % 64 = 0 then
    prod_fast_kernel A B C alpha beta fast_kernel_name
  else
    prod_slow_kernel A B C alpha beta slow_kernel_name

end detail

/-- The four overloads of `prod_impl` for dense matrix-matrix products
(matrix_operations.hpp:545, 576, 611 and 643), selected by the kinds of the arguments
`A` and `B`; `ndebug` says whether the assertions are compiled out. -/
def prod_impl {ScalarType : Type} (ndebug : Bool) (A B : matrix_argument) (C : dense_matrix)
    (alpha beta : ScalarType) : Except failure dense_matrix :=
  match A, B with
  | .matrix A, .matrix B => do
    assert ndebug (A.size1 == C.size1)
      "Size mismatch in C = prod(A, B): size1(A) != size1(C)"
    assert ndebug (A.size2 == B.size1)
      "Size mismatch in C = prod(A, B): size2(A) != size1(B)"
    assert ndebug (B.size2 == C.size2)
      "Size mismatch in C = prod(A, B): size2(B) != size2(C)"
    assert ndebug (C.handle != A.handle && C.handle != B.handle)
      "No direct inplace matrix-matrix product possible. Introduce a temporary!"
    detail.prod A B C alpha beta "prod16_AA" "prod_AA"
  | .trans A, .matrix B => do
    assert ndebug (A.size2 == C.size1)
      "Size mismatch in C = prod(trans(A), B): size2(A) != size1(C)"
    assert ndebug (A.size1 == B.size1)
      "Size mismatch in C = prod(trans(A), B): size1(A) != size1(B)"
    assert ndebug (B.size2 == C.size2)
      "Size mismatch in C = prod(trans(A), B): size2(B) != size2(C)"
    assert ndebug (C.handle != A.handle && C.handle != B.handle)
      "No direct inplace matrix-matrix product possible. Introduce a temporary!"
    detail.prod A B C alpha beta "prod16_TA" "prod_TA"
  | .matrix A, .trans B => do
    assert ndebug (A.size1 == C.size1)
      "Size mismatch in C = prod(A, trans(B)): size1(A) != size1(C)"
    assert ndebug (A.size2 == B.size2)
      "Size mismatch in C = prod(A, trans(B)): size2(A) != size2(B)"
    assert ndebug (B.size1 == C.size2)
      "Size mismatch in C = prod(A, trans(B)): size1(B) != size2(C)"
    assert ndebug (C.handle != A.handle && C.handle != B.handle)
      "No direct inplace matrix-matrix product possible. Introduce a temporary!"
    detail.prod A B C alpha beta "prod16_AT" "prod_AT"
  | .trans A, .trans B => do
    assert ndebug (A.size2 == C.size1)
      "Size mismatch in C = prod(trans(A), trans(B)): size2(A) != size1(C)"
    assert ndebug (A.size1 == B.size2)
      "Size mismatch in C = prod(trans(A), trans(B)): size1(A) != size2(B)"
    assert ndebug (B.size1 == C.size2)
      "Size mismatch in C = prod(trans(A), trans(B)): size1(B) != size2(C)"
    assert ndebug (C.handle != A.handle && C.handle != B.handle)
      "No direct inplace matrix-matrix product possible. Introduce a temporary!"
    detail.prod A B C alpha beta "prod16_TT" "prod_TT"

/-- What a kernel launch of this file is given that the statements below are about: the
kernel and the option words, in the order of the arguments. -/
structure kernel_launch where
  kernel : String
  options : List Nat
  deriving DecidableEq

/-- The function `am` (matrix_operations.hpp:58): the option word `options_alpha`
(lines 63 to 65) and the kernel that is launched with it.  `len_alpha` is a
`std::size_t`, the arithmetic is modulo `2^64`, and the initialisation of the
`unsigned int` is modulo `2^32`. -/
def am (row_major : Bool) (len_alpha : Nat) (reciprocal_alpha flip_sign_alpha : Bool) :
    kernel_launch :=
  let options_alpha : Nat :=
    ((((if len_alpha > 1 then (len_alpha <<< 2) % 2 ^ 64 else 0)
      + (if reciprocal_alpha then 2 else 0)) % 2 ^ 64
      + (if flip_sign_alpha then 1 else 0)) % 2 ^ 64) % 2 ^ 32
  if row_major then ⟨"am_row_kernel", [options_alpha]⟩
  else ⟨"am_col_kernel", [options_alpha]⟩

/-- The function `ambm` (matrix_operations.hpp:117): the option words `options_alpha`
and `options_beta` (lines 123 to 134) and the kernel that is launched with them. -/
def ambm (row_major : Bool) (len_alpha : Nat) (reciprocal_alpha flip_sign_alpha : Bool)
    (len_beta : Nat) (reciprocal_beta flip_sign_beta : Bool) : kernel_launch :=
  let options_alpha : Nat :=
    ((((if len_alpha > 1 then (len_alpha <<< 2) % 2 ^ 64 else 0)
      + (if reciprocal_alpha then 2 else 0)) % 2 ^ 64
      + (if flip_sign_alpha then 1 else 0)) % 2 ^ 64) % 2 ^ 32
  let options_beta : Nat :=
    ((((if len_beta > 1 then (len_beta <<< 2) % 2 ^ 64 else 0)
      + (if reciprocal_beta then 2 else 0)) % 2 ^ 64
      + (if flip_sign_beta then 1 else 0)) % 2 ^ 64) % 2 ^ 32
  if row_major then ⟨"ambm_row_kernel", [options_alpha, options_beta]⟩
  else ⟨"ambm_col_kernel", [options_alpha, options_beta]⟩

/-- The function `ambm_m` (matrix_operations.hpp:202): the option words `options_alpha`
and `options_beta` (lines 208 to 219) and the kernel that is launched with them. -/
def ambm_m (row_major : Bool) (len_alpha : Nat) (reciprocal_alpha flip_sign_alpha : Bool)
    (len_beta : Nat) (reciprocal_beta flip_sign_beta : Bool) : kernel_launch :=
  let options_alpha : Nat :=
    ((((if len_alpha > 1 then (len_alpha <<< 2) % 2 ^ 64 else 0)
      + (if reciprocal_alpha then 2 else 0)) % 2 ^ 64
      + (if flip_sign_alpha then 1 else 0)) % 2 ^ 64) % 2 ^ 32
  let options_beta : Nat :=
    ((((if len_beta > 1 then (len_beta <<< 2) % 2 ^ 64 else 0)
      + (if reciprocal_beta then 2 else 0)) % 2 ^ 64
      + (if flip_sign_beta then 1 else 0)) % 2 ^ 64) % 2 ^ 32
  if row_major then ⟨"ambm_m_row_kernel", [options_alpha, options_beta]⟩
  else ⟨"ambm_m_col_kernel", [options_alpha, options_beta]⟩

/-- The function `scaled_rank_1_update` (matrix_operations.hpp:684): the option word
`options_alpha` (lines 694 to 696) and the kernel that is launched with it. -/
def scaled_rank_1_update (row_major : Bool) (len_alpha : Nat)
    (reciprocal_alpha flip_sign_alpha : Bool) : kernel_launch :=
  let options_alpha : Nat :=
    ((((if len_alpha > 1 then (len_alpha <<< 2) % 2 ^ 64 else 0)
      + (if reciprocal_alpha then 2 else 0)) % 2 ^ 64
      + (if flip_sign_alpha then 1 else 0)) % 2 ^ 64) % 2 ^ 32
  if row_major then ⟨"scaled_rank1_update_row_kernel", [options_alpha]⟩
  else ⟨"scaled_rank1_update_col_kernel", [options_alpha]⟩

/-- The option word as the statement about its encoding writes it:
`((len > 1 ? len << 2 : 0) + (reciprocal ? 2 : 0) + (flip_sign ? 1 : 0)) mod 2^32`, with
the shift and the sums in the natural numbers. -/
def option_word_spec (len : Nat) (reciprocal flip_sign : Bool) : Nat :=
  ((if len > 1 then len <<< 2 else 0) + (if reciprocal then 2 else 0)
    + (if flip_sign then 1 else 0)) % 2 ^ 32

end cuda
end linalg

namespace generator

/-! ## The text that the code-emission visitor appends for a sequence of events -/

/-- The text that the hook of `expression_generation_traversal(index_string_, str, mapping_)`
appends for one event; `none` when the hook throws: `on_leaf` at a key without entry,
`on_operator` at an operator without symbol. -/
def event_text (index_string_ : String) (mapping_ : mapping_type) :
    detail.traversal_event → Option String
  | .on_leaf key _ => (mapping_type.at mapping_ key).map fun c => c.generate index_string_
  | .on_operator _ type => detail.generate type
  | .before_expansion => some "("
  | .after_expansion => some ")"

/-- The texts of the events, in order, up to the first event whose hook throws. -/
def emitted_before_failure (index_string_ : String) (mapping_ : mapping_type) :
    List detail.traversal_event → String
  | [] => ""
  | ev :: evs =>
    match event_text index_string_ mapping_ ev with
    | some t => t ++ emitted_before_failure index_string_ mapping_ evs
    | none => ""

/-- The reference to the operand `c` that the statement about the references in emitted
statements expects: the register name `<name>_private` for a mapped handle, and the text
that the operand generates for any other operand. -/
def register_reference (c : mapped_container) (index : String) : String :=
  if c.is_mapped_handle then c.name ++ "_private" else c.generate index

/-- The text of a statement with the events `evs` and the table `m` of the batch, when
every mapped handle is referred to by its register name: the operand references, the
operator symbols and the parentheses, in the order of the events. -/
def statement_text (index_string_ : String) (m : mapping_type) :
    List detail.traversal_event → Option String
  | [] => some ""
  | ev :: evs =>
    (match ev with
      | .on_leaf key _ =>
        (mapping_type.at m key).map fun c => register_reference c index_string_
      | .on_operator _ type => detail.generate type
      | .before_expansion => some "("
      | .after_expansion => some ")").bind fun t =>
    (statement_text index_string_ m evs).map fun rest => t ++ rest

/-! ## The two cache operations -/

/-- C6: applied to a mapped handle `c` whose current access name is empty and whose name
is not in the fetched set, `fetch` appends exactly
`<c.scalartype> <c.name>_private = <memory access of c at index>;` and a newline to the
stream, inserts `c.name` into the fetched set, and sets the access name of `c` to
`<c.name>_private`. -/
theorem fetch_of_not_fetched (c : mapped_container) (index : String)
    (fetched : Finset String) (stream : kernel_generation_stream)
    (hempty : c.access_name = "") (hnew : c.name ∉ fetched) :
    fetch c index fetched stream =
      ({ c with access_name := c.name ++ "_private" },
       insert c.name fetched,
       { stream with
         text := stream.text ++
           (c.scalartype ++ " " ++ (c.name ++ "_private") ++ " = " ++ c.memory_access index
             ++ ";" ++ "\n") }) := by
  simp [fetch, hnew, mapped_container.generate, hempty, kernel_generation_stream.put,
    kernel_generation_stream.endl, String.append_assoc]

/-- Witness of C6: the vector `x`, not yet fetched, is declared as
`float x_private = x[i];`. -/
theorem fetch_of_not_fetched_witness :
    (sample_vector "x").access_name = "" ∧ (sample_vector "x").name ∉ (∅ : Finset String) ∧
      (fetch (sample_vector "x") "i" ∅ empty_stream).2.2.text = "float x_private = x[i];\n" ∧
      (fetch (sample_vector "x") "i" ∅ empty_stream).2.1 = {"x"} ∧
      (fetch (sample_vector "x") "i" ∅ empty_stream).1.access_name = "x_private" := by
  have h := fetch_of_not_fetched (sample_vector "x") "i" ∅ empty_stream rfl (by decide)
  refine ⟨rfl, by decide, ?_, ?_, ?_⟩
  · rw [h]; decide
  · rw [h]; decide
  · rw [h]; decide

/-- C7: applied to a mapped handle `c` whose name is in the fetched set and whose
current access name is `r`, `write_back` appends exactly
`<memory access of c at index> = r;` and a newline to the stream, removes `c.name` from
the fetched set, and resets the access name of `c` to the empty string. -/
theorem write_back_of_fetched (c : mapped_container) (index r : String)
    (fetched : Finset String) (stream : kernel_generation_stream)
    (hfetched : c.name ∈ fetched) (hname : c.access_name = r) :
    write_back c index fetched stream =
      ({ c with access_name := "" },
       fetched.erase c.name,
       { stream with
         text := stream.text ++ (c.memory_access index ++ " = " ++ r ++ ";" ++ "\n") }) := by
  simp [write_back, hfetched, mapped_container.generate, hname,
    kernel_generation_stream.put, kernel_generation_stream.endl, String.append_assoc]

/-- Witness of C7: the fetched vector `y` is written back as `y[i] = y_private;`. -/
theorem write_back_of_fetched_witness :
    (fetch (sample_vector "y") "i" ∅ empty_stream).1.name ∈ ({"y"} : Finset String) ∧
      (fetch (sample_vector "y") "i" ∅ empty_stream).1.access_name = "y_private" ∧
      (write_back (fetch (sample_vector "y") "i" ∅ empty_stream).1 "i" {"y"}
        empty_stream).2.2.text = "y[i] = y_private;\n" ∧
      (write_back (fetch (sample_vector "y") "i" ∅ empty_stream).1 "i" {"y"}
        empty_stream).2.1 = ∅ ∧
      (write_back (fetch (sample_vector "y") "i" ∅ empty_stream).1 "i" {"y"}
        empty_stream).1.access_name = "" := by
  have h := write_back_of_fetched (fetch (sample_vector "y") "i" ∅ empty_stream).1 "i"
    "y_private" {"y"} empty_stream (by decide) (by decide)
  refine ⟨by decide, by decide, ?_, ?_, ?_⟩
  · rw [h]; decide
  · rw [h]; decide
  · rw [h]


namespace detail

/-! ## Results of `Except` -/

theorem except_ok_bind {ε α β : Type} (a : α) (f : α → Except ε β) :
    (Except.ok a >>= f) = f a := rfl

theorem except_error_bind {ε α β : Type} (e : ε) (f : α → Except ε β) :
    ((Except.error e : Except ε α) >>= f) = Except.error e := rfl

theorem except_pure {ε α : Type} (a : α) : (pure a : Except ε α) = Except.ok a := rfl

theorem except_bind_eq_ok {ε α β : Type} (x : Except ε α) (f : α → Except ε β) (b : β) :
    (x >>= f) = Except.ok b ↔ ∃ a, x = Except.ok a ∧ f a = Except.ok b := by
  cases x with
  | error e => simp [except_error_bind]
  | ok a => simp [except_ok_bind]

/-! ## More fuel does not change a result -/

theorem traverse_succ_of_ok {σ : Type} (array : List statement_node)
    (fun_ : TraversalFunctor σ) (deep : Bool) :
    ∀ (fuel : Nat) (key : index_info) (s s' : σ),
      traverse array fun_ deep fuel key s = Except.ok s' →
      traverse array fun_ deep (fuel + 1) key s = Except.ok s' := by
  intro fuel
  induction fuel with
  | zero => intro key s s' h; simp [traverse] at h
  | succ n ih =>
    intro key s s' h
    rw [traverse] at h
    rw [traverse]
    cases hel : array[key.1]? with
    | none => simp [hel] at h
    | some element =>
      simp only [hel] at h ⊢
      split_ifs at h ⊢ <;>
        (try simp only [except_bind_eq_ok, except_pure, except_ok_bind, exists_eq_left,
          exists_eq_left', Except.ok.injEq] at h ⊢) <;>
        first
          | exact h
          | (exfalso; simp_all; done)
          | aesop

/-! ## The recorded events do not depend on the events recorded before -/

theorem recorder_on_leaf (key : index_info) (node : statement_node)
    (array : List statement_node) (evs : List traversal_event) :
    event_recorder.call_on_leaf key node array evs
      = Except.ok (evs ++ [traversal_event.on_leaf key node]) := rfl

theorem recorder_on_op (family : operation_node_type_family) (type : operation_node_type)
    (evs : List traversal_event) :
    event_recorder.call_on_op family type evs
      = Except.ok (evs ++ [traversal_event.on_operator family type]) := rfl

theorem recorder_before (evs : List traversal_event) :
    event_recorder.call_before_expansion evs
      = Except.ok (evs ++ [traversal_event.before_expansion]) := rfl

theorem recorder_after (evs : List traversal_event) :
    event_recorder.call_after_expansion evs
      = Except.ok (evs ++ [traversal_event.after_expansion]) := rfl

theorem traverse_recorder_append (array : List statement_node) (deep : Bool) :
    ∀ (fuel : Nat) (key : index_info) (s : List traversal_event),
      traverse array event_recorder deep fuel key s
        = shift_events s (traverse_events array deep fuel key) := by
  intro fuel
  induction fuel with
  | zero => intro key s; simp [traverse_events, traverse, shift_events]
  | succ n ih =>
    intro key s
    unfold traverse_events
    rw [traverse, traverse]
    cases hel : array[key.1]? with
    | none => simp [shift_events]
    | some element =>
      simp only [recorder_on_leaf, recorder_on_op, recorder_before, recorder_after,
        except_ok_bind, except_pure, List.nil_append]
      cases h1 : traverse_events array deep n (get_new_key element.lhs_type_family_ key.1
        element.lhs_node_index_ node_type.LHS_NODE_TYPE) <;>
      cases h2 : traverse_events array deep n (get_new_key element.rhs_type_family_ key.1
        element.rhs_node_index_ node_type.RHS_NODE_TYPE) <;>
      split_ifs <;>
      simp [ih _ (_ ++ _), ih _ [_], ih _ [_, _], h1, h2, shift_events, except_ok_bind,
        except_error_bind, except_pure]

theorem traverse_events_mono (array : List statement_node) (deep : Bool) (key : index_info)
    (evs : List traversal_event) (n m : Nat) (hnm : n ≤ m)
    (h : traverse_events array deep n key = Except.ok evs) :
    traverse_events array deep m key = Except.ok evs := by
  induction hnm with
  | refl => exact h
  | step _ ih => exact traverse_succ_of_ok array event_recorder deep _ key [] evs ih

theorem traverse_events_zero (array : List statement_node) (deep : Bool) (key : index_info)
    (evs : List traversal_event) :
    traverse_events array deep 0 key ≠ Except.ok evs := by
  simp [traverse_events, traverse]

theorem shift_events_eq_ok (s evs : List traversal_event)
    (r : Except (gen_error × List traversal_event) (List traversal_event)) :
    shift_events s r = Except.ok evs ↔ ∃ l, r = Except.ok l ∧ evs = s ++ l := by
  cases r with
  | error p => simp [shift_events]
  | ok l => simp [shift_events, eq_comm]

/-! ## The dispatch rules of `traverse` -/

/-- C8: at a key whose role tag is not `PARENT_TYPE` (and which indexes a node of the
graph), for every visitor and both values of the deep flag, `traverse` does exactly what
the single call `on_leaf(key, node)` does, whatever the depth left for recursion; the
hook invocations are the one event `on_leaf(key, node)`. -/
theorem traverse_leaf_rule {σ : Type} (array : List statement_node)
    (fun_ : TraversalFunctor σ) (deep : Bool) (key : index_info) (element : statement_node)
    (hnode : array[key.1]? = some element) (hrole : key.2 ≠ node_type.PARENT_TYPE) :
    (∀ (fuel : Nat) (s : σ),
        traverse array fun_ deep (fuel + 1) key s = fun_.call_on_leaf key element array s) ∧
      ∀ evs, Traverses array deep key evs ↔ evs = [traversal_event.on_leaf key element] := by
  have hstep : ∀ {τ : Type} (g : TraversalFunctor τ) (fuel : Nat) (s : τ),
      traverse array g deep (fuel + 1) key s = g.call_on_leaf key element array s := by
    intro τ g fuel s
    rw [traverse]
    simp [hnode, hrole]
  refine ⟨hstep fun_, fun evs => ⟨?_, ?_⟩⟩
  · rintro ⟨fuel, h⟩
    cases fuel with
    | zero => exact absurd h (traverse_events_zero array deep key evs)
    | succ n =>
      unfold traverse_events at h
      rw [hstep event_recorder, recorder_on_leaf] at h
      simpa [eq_comm] using h
  · rintro rfl
    refine ⟨1, ?_⟩
    unfold traverse_events
    rw [hstep event_recorder, recorder_on_leaf]
    rfl

/-- Witness of C8: in the graph of `y = x` the key `(0, LHS_NODE_TYPE)` is a leaf. -/
theorem traverse_leaf_rule_witness :
    sample_assign.array[0]? = some ⟨operation_node_type_family.OPERATION_BINARY_TYPE_FAMILY,
        operation_node_type.OPERATION_BINARY_ASSIGN_TYPE,
        statement_node_type_family.TERMINAL_TYPE_FAMILY 0, 0,
        statement_node_type_family.TERMINAL_TYPE_FAMILY 0, 0⟩ ∧
      node_type.LHS_NODE_TYPE ≠ node_type.PARENT_TYPE ∧
      Traverses sample_assign.array true (0, node_type.LHS_NODE_TYPE)
        [traversal_event.on_leaf (0, node_type.LHS_NODE_TYPE)
          ⟨operation_node_type_family.OPERATION_BINARY_TYPE_FAMILY,
            operation_node_type.OPERATION_BINARY_ASSIGN_TYPE,
            statement_node_type_family.TERMINAL_TYPE_FAMILY 0, 0,
            statement_node_type_family.TERMINAL_TYPE_FAMILY 0, 0⟩] :=
  ⟨rfl, by decide,
    ((traverse_leaf_rule sample_assign.array event_recorder true (0, node_type.LHS_NODE_TYPE)
      _ rfl (by decide)).2 _).mpr rfl⟩

theorem traverse_events_binary_step (array : List statement_node) (deep : Bool)
    (key : index_info) (element : statement_node) (n : Nat)
    (hnode : array[key.1]? = some element) (hrole : key.2 = node_type.PARENT_TYPE)
    (hfamily : element.op_family_ = operation_node_type_family.OPERATION_BINARY_TYPE_FAMILY)
    (haccess : element.op_type_ ≠ operation_node_type.OPERATION_BINARY_ACCESS)
    (hprod : element.op_type_ ≠ operation_node_type.OPERATION_BINARY_PROD_TYPE)
    (hinner : element.op_type_ ≠ operation_node_type.OPERATION_BINARY_INNER_PROD_TYPE)
    (evs : List traversal_event) :
    traverse_events array deep (n + 1) key = Except.ok evs ↔
      ∃ l r,
        traverse_events array deep n (get_new_key element.lhs_type_family_ key.1
          element.lhs_node_index_ node_type.LHS_NODE_TYPE) = Except.ok l ∧
        traverse_events array deep n (get_new_key element.rhs_type_family_ key.1
          element.rhs_node_index_ node_type.RHS_NODE_TYPE) = Except.ok r ∧
        evs = [traversal_event.before_expansion] ++ l ++
          [traversal_event.on_operator element.op_family_ element.op_type_] ++ r ++
          [traversal_event.after_expansion] := by
  unfold traverse_events
  rw [traverse]
  simp only [hnode, hrole, hfamily, haccess, hprod, hinner, recorder_on_op, recorder_before,
    recorder_after, except_ok_bind, except_pure, traverse_recorder_append, if_true,
    decide_False, Bool.or_self, Bool.not_false, Bool.true_or, if_false, reduceCtorEq,
    List.nil_append, Bool.false_eq_true]
  cases h1 : traverse_events array deep n (get_new_key element.lhs_type_family_ key.1
      element.lhs_node_index_ node_type.LHS_NODE_TYPE) <;>
    cases h2 : traverse_events array deep n (get_new_key element.rhs_type_family_ key.1
      element.rhs_node_index_ node_type.RHS_NODE_TYPE) <;>
    simp [traverse_events, shift_events, except_ok_bind, except_error_bind, eq_comm]

/-- C9: at a `PARENT_TYPE` key whose node is in the binary family with an operator that
is neither element access nor matrix-vector product nor inner product, and for both
values of the deep flag, `traverse` returns exactly when the traversals of both children
return, and its hook invocations are: `before_expansion`, the events of the left child,
`on_operator(family, type)`, the events of the right child, `after_expansion`. -/
theorem traverse_elementwise_binary_rule (array : List statement_node) (deep : Bool)
    (key : index_info) (element : statement_node)
    (hnode : array[key.1]? = some element) (hrole : key.2 = node_type.PARENT_TYPE)
    (hfamily : element.op_family_ = operation_node_type_family.OPERATION_BINARY_TYPE_FAMILY)
    (haccess : element.op_type_ ≠ operation_node_type.OPERATION_BINARY_ACCESS)
    (hprod : element.op_type_ ≠ operation_node_type.OPERATION_BINARY_PROD_TYPE)
    (hinner : element.op_type_ ≠ operation_node_type.OPERATION_BINARY_INNER_PROD_TYPE)
    (evs : List traversal_event) :
    Traverses array deep key evs ↔
      ∃ l r,
        Traverses array deep (get_new_key element.lhs_type_family_ key.1
          element.lhs_node_index_ node_type.LHS_NODE_TYPE) l ∧
        Traverses array deep (get_new_key element.rhs_type_family_ key.1
          element.rhs_node_index_ node_type.RHS_NODE_TYPE) r ∧
        evs = [traversal_event.before_expansion] ++ l ++
          [traversal_event.on_operator element.op_family_ element.op_type_] ++ r ++
          [traversal_event.after_expansion] := by
  constructor
  · rintro ⟨fuel, h⟩
    cases fuel with
    | zero => exact absurd h (traverse_events_zero array deep key evs)
    | succ n =>
      obtain ⟨l, r, hl, hr, he⟩ := (traverse_events_binary_step array deep key element n
        hnode hrole hfamily haccess hprod hinner evs).mp h
      exact ⟨l, r, ⟨n, hl⟩, ⟨n, hr⟩, he⟩
  · rintro ⟨l, r, ⟨n1, hl⟩, ⟨n2, hr⟩, he⟩
    refine ⟨max n1 n2 + 1, (traverse_events_binary_step array deep key element (max n1 n2)
      hnode hrole hfamily haccess hprod hinner evs).mpr ⟨l, r, ?_, ?_, he⟩⟩
    · exact traverse_events_mono array deep _ l n1 _ (le_max_left n1 n2) hl
    · exact traverse_events_mono array deep _ r n2 _ (le_max_right n1 n2) hr

/-- Witness of C9: the root of `y = x` is an element-wise binary node; its events are
`before_expansion`, the left leaf, the operator, the right leaf, `after_expansion`. -/
theorem traverse_elementwise_binary_rule_witness :
    Traverses sample_assign.array true (0, node_type.PARENT_TYPE)
      [traversal_event.before_expansion,
       traversal_event.on_leaf (0, node_type.LHS_NODE_TYPE)
        ⟨operation_node_type_family.OPERATION_BINARY_TYPE_FAMILY,
          operation_node_type.OPERATION_BINARY_ASSIGN_TYPE,
          statement_node_type_family.TERMINAL_TYPE_FAMILY 0, 0,
          statement_node_type_family.TERMINAL_TYPE_FAMILY 0, 0⟩,
       traversal_event.on_operator operation_node_type_family.OPERATION_BINARY_TYPE_FAMILY
        operation_node_type.OPERATION_BINARY_ASSIGN_TYPE,
       traversal_event.on_leaf (0, node_type.RHS_NODE_TYPE)
        ⟨operation_node_type_family.OPERATION_BINARY_TYPE_FAMILY,
          operation_node_type.OPERATION_BINARY_ASSIGN_TYPE,
          statement_node_type_family.TERMINAL_TYPE_FAMILY 0, 0,
          statement_node_type_family.TERMINAL_TYPE_FAMILY 0, 0⟩,
       traversal_event.after_expansion] :=
  (traverse_elementwise_binary_rule sample_assign.array true (0, node_type.PARENT_TYPE)
    ⟨operation_node_type_family.OPERATION_BINARY_TYPE_FAMILY,
      operation_node_type.OPERATION_BINARY_ASSIGN_TYPE,
      statement_node_type_family.TERMINAL_TYPE_FAMILY 0, 0,
      statement_node_type_family.TERMINAL_TYPE_FAMILY 0, 0⟩
    rfl rfl rfl (by decide) (by decide) (by decide) _).mpr
    ⟨_, _, ⟨1, rfl⟩, ⟨1, rfl⟩, rfl⟩

theorem traverse_events_unary_step (array : List statement_node) (deep : Bool)
    (key : index_info) (element : statement_node) (n : Nat)
    (hnode : array[key.1]? = some element) (hrole : key.2 = node_type.PARENT_TYPE)
    (hfamily : element.op_family_ = operation_node_type_family.OPERATION_UNARY_TYPE_FAMILY)
    (evs : List traversal_event) :
    traverse_events array deep (n + 1) key = Except.ok evs ↔
      ∃ l,
        traverse_events array deep n (get_new_key element.lhs_type_family_ key.1
          element.lhs_node_index_ node_type.LHS_NODE_TYPE) = Except.ok l ∧
        evs = [traversal_event.on_operator element.op_family_ element.op_type_,
          traversal_event.before_expansion] ++ l ++ [traversal_event.after_expansion] := by
  unfold traverse_events
  rw [traverse]
  simp only [hnode, hrole, hfamily, recorder_on_op, recorder_before,
    recorder_after, except_ok_bind, except_pure, traverse_recorder_append, if_true,
    if_false, reduceCtorEq, List.nil_append]
  cases h1 : traverse_events array deep n (get_new_key element.lhs_type_family_ key.1
      element.lhs_node_index_ node_type.LHS_NODE_TYPE) <;>
    simp [traverse_events, shift_events, except_ok_bind, except_error_bind, except_pure,
      eq_comm]

/-- C10: at a `PARENT_TYPE` key whose node is in the unary family, for both values of the
deep flag, `traverse` returns exactly when the traversal of the node's left child
returns, and its hook invocations are: `on_operator(family, type)`, `before_expansion`,
the events of the child, `after_expansion`. -/
theorem traverse_unary_rule (array : List statement_node) (deep : Bool)
    (key : index_info) (element : statement_node)
    (hnode : array[key.1]? = some element) (hrole : key.2 = node_type.PARENT_TYPE)
    (hfamily : element.op_family_ = operation_node_type_family.OPERATION_UNARY_TYPE_FAMILY)
    (evs : List traversal_event) :
    Traverses array deep key evs ↔
      ∃ l,
        Traverses array deep (get_new_key element.lhs_type_family_ key.1
          element.lhs_node_index_ node_type.LHS_NODE_TYPE) l ∧
        evs = [traversal_event.on_operator element.op_family_ element.op_type_,
          traversal_event.before_expansion] ++ l ++ [traversal_event.after_expansion] := by
  constructor
  · rintro ⟨fuel, h⟩
    cases fuel with
    | zero => exact absurd h (traverse_events_zero array deep key evs)
    | succ n =>
      obtain ⟨l, hl, he⟩ := (traverse_events_unary_step array deep key element n
        hnode hrole hfamily evs).mp h
      exact ⟨l, ⟨n, hl⟩, he⟩
  · rintro ⟨l, ⟨n, hl⟩, he⟩
    exact ⟨n + 1, (traverse_events_unary_step array deep key element n
      hnode hrole hfamily evs).mpr ⟨l, hl, he⟩⟩

/-- Witness of C10: in the graph of `y = abs(x)` the node at index 1 is unary; its events
are the operator, `before_expansion`, the leaf, `after_expansion`. -/
theorem traverse_unary_rule_witness :
    Traverses sample_abs_assign.array false (1, node_type.PARENT_TYPE)
      [traversal_event.on_operator operation_node_type_family.OPERATION_UNARY_TYPE_FAMILY
        operation_node_type.OPERATION_UNARY_ABS_TYPE,
       traversal_event.before_expansion,
       traversal_event.on_leaf (1, node_type.LHS_NODE_TYPE)
        ⟨operation_node_type_family.OPERATION_UNARY_TYPE_FAMILY,
          operation_node_type.OPERATION_UNARY_ABS_TYPE,
          statement_node_type_family.TERMINAL_TYPE_FAMILY 0, 0,
          statement_node_type_family.TERMINAL_TYPE_FAMILY 0, 0⟩,
       traversal_event.after_expansion] :=
  (traverse_unary_rule sample_abs_assign.array false (1, node_type.PARENT_TYPE)
    ⟨operation_node_type_family.OPERATION_UNARY_TYPE_FAMILY,
      operation_node_type.OPERATION_UNARY_ABS_TYPE,
      statement_node_type_family.TERMINAL_TYPE_FAMILY 0, 0,
      statement_node_type_family.TERMINAL_TYPE_FAMILY 0, 0⟩
    rfl rfl rfl _).mpr ⟨_, ⟨1, rfl⟩, rfl⟩

end detail

/-! ## The fetch pass -/

theorem put_put (s : kernel_generation_stream) (a b : String) :
    (s.put a).put b = s.put (a ++ b) := by
  simp [kernel_generation_stream.put, String.append_assoc]

theorem put_empty (s : kernel_generation_stream) : s.put "" = s := by
  simp [kernel_generation_stream.put]

theorem concat_lines_append (xs ys : List String) :
    concat_lines (xs ++ ys) = concat_lines xs ++ concat_lines ys := by
  induction xs with
  | nil => simp [concat_lines]
  | cons x xs ih => simp [concat_lines, ih, String.append_assoc]

theorem fetch_eq (c : mapped_container) (index : String) (fetched : Finset String)
    (stream : kernel_generation_stream) :
    fetch c index fetched stream =
      ({ c with access_name := c.name ++ "_private" },
       (if c.name ∈ fetched then fetched else insert c.name fetched),
       (if c.name ∈ fetched then stream else stream.put (register_line c index))) := by
  by_cases h : c.name ∈ fetched <;>
    simp [fetch, h, register_line, kernel_generation_stream.put,
      kernel_generation_stream.endl, String.append_assoc]

theorem fetch_table_spec (cast : mapped_container → Option String) :
    ∀ (m : mapping_type) (fetched : Finset String) (stream : kernel_generation_stream),
      ∃ decls : List (mapped_container × String),
        (fetch_table cast m fetched stream).2.2
            = stream.put (concat_lines (decls.map fun d => register_line d.1 d.2)) ∧
          (∀ d ∈ decls, d.1.name ∉ fetched ∧ ∃ e ∈ m, e.2 = d.1 ∧ cast e.2 = some d.2) ∧
          (decls.map fun d => d.1.name).Nodup ∧
          (∀ n, n ∈ (fetch_table cast m fetched stream).2.1 ↔
            n ∈ fetched ∨ n ∈ decls.map fun d => d.1.name) ∧
          (∀ n, n ∈ (fetch_table cast m fetched stream).2.1 ↔
            n ∈ fetched ∨ ∃ e ∈ m, (cast e.2).isSome = true ∧ e.2.name = n) := by
  intro m
  induction m with
  | nil =>
    intro fetched stream
    exact ⟨[], by simp [fetch_table, concat_lines, put_empty], by simp, by simp,
      by simp [fetch_table], by simp [fetch_table]⟩
  | cons e rest ih =>
    intro fetched stream
    obtain ⟨decls, htext, hmem, hnodup, hset, hnames⟩ := ih fetched stream
    cases hc : cast e.2 with
    | none =>
      refine ⟨decls, ?_, ?_, hnodup, ?_, ?_⟩
      · simp [fetch_table, hc, htext]
      · intro d hd
        obtain ⟨h1, e', he', h2⟩ := hmem d hd
        exact ⟨h1, e', List.mem_cons_of_mem _ he', h2⟩
      · intro n; simp [fetch_table, hc, hset]
      · intro n; simp [fetch_table, hc, hnames]
    | some index =>
      by_cases hin : e.2.name ∈ (fetch_table cast rest fetched stream).2.1
      · refine ⟨decls, ?_, ?_, hnodup, ?_, ?_⟩
        · simp [fetch_table, hc, fetch_eq, hin, htext]
        · intro d hd
          obtain ⟨h1, e', he', h2⟩ := hmem d hd
          exact ⟨h1, e', List.mem_cons_of_mem _ he', h2⟩
        · intro n; simp [fetch_table, hc, fetch_eq, hin, hset]
        · intro n
          simp only [fetch_table, hc, fetch_eq, hin, if_true, List.mem_cons, exists_eq_or_imp,
            Option.isSome_some, true_and]
          rw [hnames]
          constructor
          · rintro (h | h)
            · exact Or.inl h
            · exact Or.inr (Or.inr h)
          · rintro (h | h | h)
            · exact Or.inl h
            · exact h ▸ (hnames _).mp hin
            · exact Or.inr h
      · have hnotF : e.2.name ∉ fetched := fun h => hin ((hset _).mpr (Or.inl h))
        have hnotD : e.2.name ∉ decls.map (fun d => d.1.name) :=
          fun h => hin ((hset _).mpr (Or.inr h))
        refine ⟨decls ++ [(e.2, index)], ?_, ?_, ?_, ?_, ?_⟩
        · simp [fetch_table, hc, fetch_eq, hin, htext, put_put, concat_lines_append,
            concat_lines]
        · intro d hd
          rcases List.mem_append.mp hd with hd | hd
          · obtain ⟨h1, e', he', h2⟩ := hmem d hd
            exact ⟨h1, e', List.mem_cons_of_mem _ he', h2⟩
          · simp only [List.mem_singleton] at hd
            subst hd
            exact ⟨hnotF, e, List.mem_cons_self _ _, rfl, hc⟩
        · rw [List.map_append, List.nodup_append]
          refine ⟨hnodup, by simp, ?_⟩
          intro a ha hb
          simp only [List.map_cons, List.map_nil, List.mem_singleton] at hb
          exact hnotD (hb ▸ ha)
        · intro n
          simp only [fetch_table, hc, fetch_eq, hin, if_false, Finset.mem_insert,
            List.map_append, List.mem_append, List.map_cons, List.map_nil,
            List.mem_singleton]
          rw [hset]
          tauto
        · intro n
          simp only [fetch_table, hc, fetch_eq, hin, if_false, Finset.mem_insert,
            List.mem_cons, exists_eq_or_imp, Option.isSome_some, true_and]
          rw [hnames]
          constructor
          · rintro (h | h | h)
            · exact Or.inr (Or.inl h.symm)
            · exact Or.inl h
            · exact Or.inr (Or.inr h)
          · rintro (h | h | h)
            · exact Or.inr (Or.inl h)
            · exact Or.inl h.symm
            · exact Or.inr (Or.inr h)

theorem fetch_pass_spec (cast : mapped_container → Option String) :
    ∀ (ms : List mapping_type) (fetched : Finset String) (stream : kernel_generation_stream),
      ∃ decls : List (mapped_container × String),
        (fetch_pass cast ms fetched stream).2.2
            = stream.put (concat_lines (decls.map fun d => register_line d.1 d.2)) ∧
          (∀ d ∈ decls, d.1.name ∉ fetched ∧
            ∃ m ∈ ms, ∃ e ∈ m, e.2 = d.1 ∧ cast e.2 = some d.2) ∧
          (decls.map fun d => d.1.name).Nodup ∧
          (∀ n, n ∈ (fetch_pass cast ms fetched stream).2.1 ↔
            n ∈ fetched ∨ n ∈ decls.map fun d => d.1.name) ∧
          (∀ n, n ∈ (fetch_pass cast ms fetched stream).2.1 ↔
            n ∈ fetched ∨ ∃ m ∈ ms, ∃ e ∈ m, (cast e.2).isSome = true ∧ e.2.name = n) := by
  intro ms
  induction ms with
  | nil =>
    intro fetched stream
    exact ⟨[], by simp [fetch_pass, concat_lines, put_empty], by simp, by simp,
      by simp [fetch_pass], by simp [fetch_pass]⟩
  | cons m ms ih =>
    intro fetched stream
    obtain ⟨d1, htext1, hmem1, hnodup1, hset1, hnames1⟩ :=
      fetch_table_spec cast m fetched stream
    obtain ⟨d2, htext2, hmem2, hnodup2, hset2, hnames2⟩ :=
      ih (fetch_table cast m fetched stream).2.1 (fetch_table cast m fetched stream).2.2
    refine ⟨d1 ++ d2, ?_, ?_, ?_, ?_, ?_⟩
    · simp only [fetch_pass]
      rw [htext2, htext1, put_put, List.map_append, concat_lines_append]
    · intro d hd
      rcases List.mem_append.mp hd with hd | hd
      · obtain ⟨h1, e, he, h2⟩ := hmem1 d hd
        exact ⟨h1, m, List.mem_cons_self _ _, e, he, h2⟩
      · obtain ⟨h1, m', hm', e, he, h2⟩ := hmem2 d hd
        exact ⟨fun h => h1 ((hset1 _).mpr (Or.inl h)), m', List.mem_cons_of_mem _ hm', e, he,
          h2⟩
    · rw [List.map_append, List.nodup_append]
      refine ⟨hnodup1, hnodup2, ?_⟩
      intro a ha hb
      obtain ⟨d, hd, rfl⟩ := List.mem_map.mp hb
      exact (hmem2 d hd).1 ((hset1 _).mpr (Or.inr ha))
    · intro n
      simp only [fetch_pass, List.map_append, List.mem_append]
      rw [hset2, hset1]
      tauto
    · intro n
      simp only [fetch_pass, List.mem_cons, exists_eq_or_imp]
      rw [hnames2, hnames1]
      constructor
      · rintro ((h | h) | h)
        · exact Or.inl h
        · exact Or.inr (Or.inl h)
        · exact Or.inr (Or.inr h)
      · rintro (h | h | h)
        · exact Or.inl (Or.inl h)
        · exact Or.inl (Or.inr h)
        · exact Or.inr h

theorem fetch_table_mapping (cast : mapped_container → Option String) :
    ∀ (m : mapping_type) (fetched : Finset String) (stream : kernel_generation_stream),
      (fetch_table cast m fetched stream).1
        = m.map fun e => (e.1, fetched_operand cast e.2) := by
  intro m
  induction m with
  | nil => intro fetched stream; rfl
  | cons e rest ih =>
    intro fetched stream
    cases hc : cast e.2 with
    | none => simp [fetch_table, hc, ih, fetched_operand]
    | some index => simp [fetch_table, hc, ih, fetched_operand, fetch_eq]

theorem fetch_pass_mapping (cast : mapped_container → Option String) :
    ∀ (ms : List mapping_type) (fetched : Finset String) (stream : kernel_generation_stream),
      (fetch_pass cast ms fetched stream).1
        = ms.map fun m => m.map fun e => (e.1, fetched_operand cast e.2) := by
  intro ms
  induction ms with
  | nil => intro fetched stream; rfl
  | cons m ms ih => intro fetched stream; simp [fetch_pass, ih, fetch_table_mapping]

theorem one_le_occurrences (cast : mapped_container → Option String)
    (ms : List mapping_type) (n : String) :
    1 ≤ occurrences cast ms n ↔
      ∃ m ∈ ms, ∃ e ∈ m, (cast e.2).isSome = true ∧ e.2.name = n := by
  induction ms with
  | nil => simp [occurrences]
  | cons m ms ih =>
    have hsplit : occurrences cast (m :: ms) n
        = (m.countP fun e => (cast e.2).isSome && e.2.name == n) + occurrences cast ms n := by
      simp [occurrences]
    have hm : 1 ≤ (m.countP fun e => (cast e.2).isSome && e.2.name == n) ↔
        ∃ e ∈ m, (cast e.2).isSome = true ∧ e.2.name = n := by
      rw [Nat.succ_le_iff, List.countP_pos_iff]
      simp
    rw [hsplit]
    simp only [List.mem_cons, exists_eq_or_imp]
    rw [← ih, ← hm]
    omega

/-- C1: for every batch, the text that the fetch pass of `vector_saxpy::core` appends is
a sequence of register declarations `<scalartype> <name>_private = ...;` of mapped
handles of the batch, and every name that occurs as a mapped handle under `k ≥ 1`
Position Keys over all tables has exactly one declaration in it, whatever `k` and the
number of statements; the same holds for the fetch pass of `matrix_saxpy::core` and the
matrix operands. -/
theorem fetch_once (mapping_ : List mapping_type) (stream : kernel_generation_stream) :
    (∃ decls : List (mapped_container × String),
      (fetch_pass vector_saxpy.handle_cast mapping_ ∅ stream).2.2.text
          = stream.text ++ concat_lines (decls.map fun d => register_line d.1 d.2) ∧
        (∀ d ∈ decls, ∃ m ∈ mapping_, ∃ e ∈ m,
          e.2 = d.1 ∧ vector_saxpy.handle_cast e.2 = some d.2) ∧
        ∀ n, 1 ≤ occurrences vector_saxpy.handle_cast mapping_ n →
          (decls.map fun d => d.1.name).count n = 1) ∧
    (∃ decls : List (mapped_container × String),
      (fetch_pass matrix_saxpy.matrix_cast mapping_ ∅ stream).2.2.text
          = stream.text ++ concat_lines (decls.map fun d => register_line d.1 d.2) ∧
        (∀ d ∈ decls, ∃ m ∈ mapping_, ∃ e ∈ m,
          e.2 = d.1 ∧ matrix_saxpy.matrix_cast e.2 = some d.2) ∧
        ∀ n, 1 ≤ occurrences matrix_saxpy.matrix_cast mapping_ n →
          (decls.map fun d => d.1.name).count n = 1) := by
  have key : ∀ cast : mapped_container → Option String,
      ∃ decls : List (mapped_container × String),
        (fetch_pass cast mapping_ ∅ stream).2.2.text
            = stream.text ++ concat_lines (decls.map fun d => register_line d.1 d.2) ∧
          (∀ d ∈ decls, ∃ m ∈ mapping_, ∃ e ∈ m, e.2 = d.1 ∧ cast e.2 = some d.2) ∧
          ∀ n, 1 ≤ occurrences cast mapping_ n →
            (decls.map fun d => d.1.name).count n = 1 := by
    intro cast
    obtain ⟨decls, htext, hmem, hnodup, hset, hnames⟩ := fetch_pass_spec cast mapping_ ∅ stream
    refine ⟨decls, by rw [htext]; rfl, fun d hd => (hmem d hd).2, ?_⟩
    intro n hn
    have hin : n ∈ (fetch_pass cast mapping_ ∅ stream).2.1 :=
      (hnames n).mpr (Or.inr ((one_le_occurrences cast mapping_ n).mp hn))
    rcases (hset n).mp hin with h | h
    · simp at h
    · exact List.count_eq_one_of_mem hnodup h
  exact ⟨key _, key _⟩

/-- Witness of C1: in the batch `y = x`, `z = x` the vector `x` occurs under two keys and
is declared once; the fetch pass writes the three declarations of `y`, `x` and `z`. -/
theorem fetch_once_witness :
    occurrences vector_saxpy.handle_cast
        [sample_assign_mapping "y" "x", sample_assign_mapping "z" "x"] "x" = 2 ∧
      (fetch_pass vector_saxpy.handle_cast
        [sample_assign_mapping "y" "x", sample_assign_mapping "z" "x"] ∅ empty_stream).2.2.text
        = "float y_private = y[i];\nfloat x_private = x[i];\nfloat z_private = z[i];\n" ∧
      ∃ decls : List (mapped_container × String),
        (fetch_pass vector_saxpy.handle_cast
          [sample_assign_mapping "y" "x", sample_assign_mapping "z" "x"] ∅
            empty_stream).2.2.text
          = empty_stream.text ++ concat_lines (decls.map fun d => register_line d.1 d.2) ∧
        (decls.map fun d => d.1.name).count "x" = 1 := by
  refine ⟨by decide, by decide, ?_⟩
  obtain ⟨decls, h1, _, h3⟩ := (fetch_once
    [sample_assign_mapping "y" "x", sample_assign_mapping "z" "x"] empty_stream).1
  exact ⟨decls, h1, h3 "x" (by decide)⟩

/-! ## The write-back pass -/

theorem write_back_eq (c : mapped_container) (index : String) (fetched : Finset String)
    (stream : kernel_generation_stream) :
    write_back c index fetched stream =
      ({ c with access_name := "" },
       (if c.name ∈ fetched then fetched.erase c.name else fetched),
       (if c.name ∈ fetched then stream.put (write_back_line c index) else stream)) := by
  by_cases h : c.name ∈ fetched <;>
    simp [write_back, h, write_back_line, mapped_container.generate,
      kernel_generation_stream.put, kernel_generation_stream.endl, String.append_assoc]

theorem is_target_iff (cast : mapped_container → Option String) (n : String)
    (m : mapping_type) :
    is_target cast n m = true ↔
      ∃ c, mapping_type.at m (0, node_type.LHS_LEAF_TYPE) = some c ∧
        (cast c).isSome = true ∧ c.name = n := by
  unfold is_target
  cases mapping_type.at m (0, node_type.LHS_LEAF_TYPE) with
  | none => simp
  | some c => simp

theorem write_back_pass_spec (cast : mapped_container → Option String) :
    ∀ (ms : List mapping_type) (fetched : Finset String) (stream : kernel_generation_stream),
      ∃ wbs : List (mapped_container × String),
        final_stream (fun r => r.2.2) (write_back_pass cast ms fetched stream)
            = stream.put (concat_lines (wbs.map fun d => write_back_line d.1 d.2)) ∧
          (∀ d ∈ wbs, d.1.name ∈ fetched ∧
            ∃ m ∈ ms, mapping_type.at m (0, node_type.LHS_LEAF_TYPE) = some d.1 ∧
              cast d.1 = some d.2) ∧
          (wbs.map fun d => d.1.name).Nodup ∧
          ∀ r, write_back_pass cast ms fetched stream = Except.ok r →
            ∀ n, n ∈ fetched → (∃ m ∈ ms, is_target cast n m = true) →
              n ∈ wbs.map fun d => d.1.name := by
  intro ms
  induction ms with
  | nil =>
    intro fetched stream
    exact ⟨[], by simp [write_back_pass, final_stream, concat_lines, put_empty], by simp,
      by simp, by simp⟩
  | cons m ms ih =>
    intro fetched stream
    cases hat : mapping_type.at m (0, node_type.LHS_LEAF_TYPE) with
    | none =>
      exact ⟨[], by simp [write_back_pass, hat, final_stream, concat_lines, put_empty],
        by simp, by simp, by simp [write_back_pass, hat]⟩
    | some c =>
      cases hc : cast c with
      | none =>
        obtain ⟨wbs, htext, hmem, hnodup, hall⟩ := ih fetched stream
        refine ⟨wbs, ?_, ?_, hnodup, ?_⟩
        · rw [← htext]
          simp only [write_back_pass, hat, hc]
          cases write_back_pass cast ms fetched stream <;> rfl
        · intro d hd
          obtain ⟨h1, m', hm', h2⟩ := hmem d hd
          exact ⟨h1, m', List.mem_cons_of_mem _ hm', h2⟩
        · intro r hr n hn htgt
          simp only [write_back_pass, hat, hc] at hr
          cases hrec : write_back_pass cast ms fetched stream with
          | error p => simp [hrec, detail.except_error_bind] at hr
          | ok r' =>
            refine hall r' hrec n hn ?_
            obtain ⟨m', hm', ht⟩ := htgt
            rcases List.mem_cons.mp hm' with rfl | hm'
            · obtain ⟨c', hc1, hc2, _⟩ := (is_target_iff cast n _).mp ht
              rw [hat] at hc1
              cases hc1
              simp [hc] at hc2
            · exact ⟨m', hm', ht⟩
      | some index =>
        by_cases hin : c.name ∈ fetched
        · obtain ⟨wbs, htext, hmem, hnodup, hall⟩ :=
            ih (fetched.erase c.name) (stream.put (write_back_line c index))
          refine ⟨(c, index) :: wbs, ?_, ?_, ?_, ?_⟩
          · simp only [write_back_pass, hat, hc, write_back_eq, hin, if_true, List.map_cons,
              concat_lines]
            rw [← put_put, ← htext]
            cases write_back_pass cast ms (fetched.erase c.name)
              (stream.put (write_back_line c index)) <;> rfl
          · intro d hd
            rcases List.mem_cons.mp hd with rfl | hd
            · exact ⟨hin, m, List.mem_cons_self _ _, hat, hc⟩
            · obtain ⟨h1, m', hm', h2⟩ := hmem d hd
              exact ⟨Finset.mem_of_mem_erase h1, m', List.mem_cons_of_mem _ hm', h2⟩
          · rw [List.map_cons, List.nodup_cons]
            refine ⟨?_, hnodup⟩
            intro h
            obtain ⟨d, hd, hname⟩ := List.mem_map.mp h
            have := (hmem d hd).1
            rw [hname] at this
            exact (Finset.not_mem_erase _ _) this
          · intro r hr n hn htgt
            simp only [write_back_pass, hat, hc, write_back_eq, hin, if_true] at hr
            cases hrec : write_back_pass cast ms (fetched.erase c.name)
                (stream.put (write_back_line c index)) with
            | error p => simp [hrec, detail.except_error_bind] at hr
            | ok r' =>
              by_cases hn' : n = c.name
              · simp [hn']
              · rw [List.map_cons]
                refine List.mem_cons_of_mem _ (hall r' hrec n
                  (Finset.mem_erase.mpr ⟨hn', hn⟩) ?_)
                obtain ⟨m', hm', ht⟩ := htgt
                rcases List.mem_cons.mp hm' with rfl | hm'
                · obtain ⟨c', hc1, _, hc3⟩ := (is_target_iff cast n _).mp ht
                  rw [hat] at hc1
                  cases hc1
                  exact absurd hc3.symm hn'
                · exact ⟨m', hm', ht⟩
        · obtain ⟨wbs, htext, hmem, hnodup, hall⟩ := ih fetched stream
          refine ⟨wbs, ?_, ?_, hnodup, ?_⟩
          · rw [← htext]
            simp only [write_back_pass, hat, hc, write_back_eq, hin, if_false]
            cases write_back_pass cast ms fetched stream <;> rfl
          · intro d hd
            obtain ⟨h1, m', hm', h2⟩ := hmem d hd
            exact ⟨h1, m', List.mem_cons_of_mem _ hm', h2⟩
          · intro r hr n hn htgt
            simp only [write_back_pass, hat, hc, write_back_eq, hin, if_false] at hr
            cases hrec : write_back_pass cast ms fetched stream with
            | error p => simp [hrec, detail.except_error_bind] at hr
            | ok r' =>
              refine hall r' hrec n hn ?_
              obtain ⟨m', hm', ht⟩ := htgt
              rcases List.mem_cons.mp hm' with rfl | hm'
              · obtain ⟨c', hc1, _, hc3⟩ := (is_target_iff cast n _).mp ht
                rw [hat] at hc1
                cases hc1
                exact absurd (hc3 ▸ hn) hin
              · exact ⟨m', hm', ht⟩

/-- C3: for every batch, every cast and every state of the cache, the text that the
write-back pass appends (up to its return, or up to the exception it throws) is a
sequence of write-back lines of assignment targets of the batch in which no operand
name has more than one line, however many statements have that operand as their
target. -/
theorem write_back_at_most_once (cast : mapped_container → Option String)
    (mapping_ : List mapping_type) (fetched : Finset String)
    (stream : kernel_generation_stream) :
    ∃ wbs : List (mapped_container × String),
      (final_stream (fun r => r.2.2) (write_back_pass cast mapping_ fetched stream)).text
          = stream.text ++ concat_lines (wbs.map fun d => write_back_line d.1 d.2) ∧
        (∀ d ∈ wbs, ∃ m ∈ mapping_,
          mapping_type.at m (0, node_type.LHS_LEAF_TYPE) = some d.1 ∧ cast d.1 = some d.2) ∧
        ∀ n, (wbs.map fun d => d.1.name).count n ≤ 1 := by
  obtain ⟨wbs, htext, hmem, hnodup, _⟩ := write_back_pass_spec cast mapping_ fetched stream
  exact ⟨wbs, by rw [htext]; rfl, fun d hd => (hmem d hd).2,
    fun n => List.nodup_iff_count_le_one.mp hnodup n⟩

/-! ## Every visitor sees the recorded events -/

namespace detail

theorem replay_events_append {σ : Type} (fun_ : TraversalFunctor σ)
    (array : List statement_node) (xs ys : List traversal_event) (s : σ) :
    replay_events fun_ array (xs ++ ys) s
      = replay_events fun_ array xs s >>= replay_events fun_ array ys := by
  induction xs generalizing s with
  | nil => rfl
  | cons x xs ih =>
    simp only [List.cons_append, replay_events]
    cases dispatch_event fun_ array x s with
    | error p => rfl
    | ok a => simp [except_ok_bind, ih]

theorem replay_events_append_fun {σ : Type} (fun_ : TraversalFunctor σ)
    (array : List statement_node) (xs ys : List traversal_event) :
    replay_events fun_ array (xs ++ ys)
      = fun s => replay_events fun_ array xs s >>= replay_events fun_ array ys :=
  funext fun s => replay_events_append fun_ array xs ys s

theorem replay_events_cons_fun {σ : Type} (fun_ : TraversalFunctor σ)
    (array : List statement_node) (x : traversal_event) (xs : List traversal_event) :
    replay_events fun_ array (x :: xs)
      = fun s => dispatch_event fun_ array x s >>= replay_events fun_ array xs :=
  funext fun _ => rfl

theorem replay_events_nil_fun {σ : Type} (fun_ : TraversalFunctor σ)
    (array : List statement_node) :
    replay_events fun_ array [] = fun s => Except.ok s :=
  funext fun _ => rfl

theorem except_bind_assoc {ε α β γ : Type} (x : Except ε α) (f : α → Except ε β)
    (g : β → Except ε γ) : (x >>= f) >>= g = x >>= fun a => f a >>= g := by
  cases x <;> rfl

theorem except_bind_ok {ε α : Type} (x : Except ε α) :
    (x >>= fun a => Except.ok a) = x := by
  cases x <;> rfl

set_option maxHeartbeats 4000000 in
theorem traverse_eq_replay_result {σ : Type} (array : List statement_node)
    (fun_ : TraversalFunctor σ) (deep : Bool) :
    ∀ (fuel : Nat) (key : index_info) (s : σ),
      traverse array fun_ deep fuel key s
        = replay_result fun_ array (traverse_events array deep fuel key) s := by
  intro fuel
  induction fuel with
  | zero =>
    intro key s
    simp [traverse_events, traverse, replay_result, replay_events, except_ok_bind]
  | succ n ih =>
    intro key s
    unfold traverse_events
    rw [traverse, traverse]
    cases hel : array[key.1]? with
    | none => simp [replay_result, replay_events, except_ok_bind]
    | some element =>
      simp only [recorder_on_leaf, recorder_on_op, recorder_before, recorder_after,
        except_ok_bind, except_pure, List.nil_append, traverse_recorder_append, ih]
      cases h1 : traverse_events array deep n (get_new_key element.lhs_type_family_ key.1
        element.lhs_node_index_ node_type.LHS_NODE_TYPE) <;>
      cases h2 : traverse_events array deep n (get_new_key element.rhs_type_family_ key.1
        element.rhs_node_index_ node_type.RHS_NODE_TYPE) <;>
      split_ifs <;>
      simp [replay_result, shift_events, replay_events_append_fun, replay_events_cons_fun,
        replay_events_nil_fun, dispatch_event, except_ok_bind, except_error_bind, except_pure,
        except_bind_assoc, except_bind_ok]

theorem traverse_eq_replay {σ : Type} (array : List statement_node)
    (fun_ : TraversalFunctor σ) (deep : Bool) (fuel : Nat) (key : index_info)
    (evs : List traversal_event) (s : σ)
    (h : traverse_events array deep fuel key = Except.ok evs) :
    traverse array fun_ deep fuel key s = replay_events fun_ array evs s := by
  rw [traverse_eq_replay_result, h]
  rfl

theorem traverse_events_of_ok {σ : Type} (array : List statement_node)
    (fun_ : TraversalFunctor σ) (deep : Bool) (fuel : Nat) (key : index_info) (s s' : σ)
    (h : traverse array fun_ deep fuel key s = Except.ok s') :
    ∃ evs, traverse_events array deep fuel key = Except.ok evs ∧
      replay_events fun_ array evs s = Except.ok s' := by
  rw [traverse_eq_replay_result] at h
  cases hr : traverse_events array deep fuel key with
  | ok evs => exact ⟨evs, rfl, by simpa [hr, replay_result] using h⟩
  | error p =>
    rw [hr] at h
    simp only [replay_result] at h
    cases hq : replay_events fun_ array p.2 s <;> simp [hq, except_ok_bind, except_error_bind] at h

end detail

/-! ## Emission appends to the stream -/

theorem emission_hook_appends (index_string_ : String) (mapping_ : mapping_type)
    (array : List statement_node) (ev : detail.traversal_event)
    (s s' : kernel_generation_stream)
    (h : detail.dispatch_event (detail.expression_generation_traversal index_string_ mapping_)
      array ev s = Except.ok s') :
    ∃ x, s' = s.put x := by
  cases ev with
  | on_leaf key node =>
    simp only [detail.dispatch_event, detail.expression_generation_traversal] at h
    cases hat : mapping_type.at mapping_ key with
    | none => simp [hat] at h
    | some c => exact ⟨c.generate index_string_, by simpa [hat, eq_comm] using h⟩
  | on_operator family type =>
    simp only [detail.dispatch_event, detail.expression_generation_traversal] at h
    cases hg : detail.generate type with
    | none => simp [hg] at h
    | some symbol => exact ⟨symbol, by simpa [hg, eq_comm] using h⟩
  | before_expansion =>
    exact ⟨"(", by
      simpa [detail.dispatch_event, detail.expression_generation_traversal, eq_comm] using h⟩
  | after_expansion =>
    exact ⟨")", by
      simpa [detail.dispatch_event, detail.expression_generation_traversal, eq_comm] using h⟩

theorem emission_replay_appends (index_string_ : String) (mapping_ : mapping_type)
    (array : List statement_node) :
    ∀ (evs : List detail.traversal_event) (s s' : kernel_generation_stream),
      detail.replay_events (detail.expression_generation_traversal index_string_ mapping_)
        array evs s = Except.ok s' →
      ∃ x, s' = s.put x := by
  intro evs
  induction evs with
  | nil =>
    intro s s' h
    exact ⟨"", by simpa [detail.replay_events, put_empty, eq_comm] using h⟩
  | cons ev evs ih =>
    intro s s' h
    simp only [detail.replay_events] at h
    obtain ⟨a, ha, hb⟩ := (detail.except_bind_eq_ok _ _ _).mp h
    obtain ⟨x, rfl⟩ := emission_hook_appends index_string_ mapping_ array ev s a ha
    obtain ⟨y, rfl⟩ := ih _ _ hb
    exact ⟨x ++ y, put_put s x y⟩

theorem emit_statements_appends (fuel : Nat) (mapping_ : List mapping_type) :
    ∀ (statements_ : List statement) (i : Nat) (s s' : kernel_generation_stream),
      emit_statements fuel mapping_ statements_ i s = Except.ok s' → ∃ x, s' = s.put x := by
  intro statements_
  induction statements_ with
  | nil =>
    intro i s s' h
    exact ⟨"", by simpa [emit_statements, put_empty, eq_comm] using h⟩
  | cons it rest ih =>
    intro i s s' h
    simp only [emit_statements] at h
    cases hm : mapping_[i]? with
    | none => simp [hm] at h
    | some m =>
      simp only [hm] at h
      obtain ⟨a, ha, hb⟩ := (detail.except_bind_eq_ok _ _ _).mp h
      obtain ⟨evs, _, hrep⟩ := detail.traverse_events_of_ok _ _ _ _ _ _ _ ha
      obtain ⟨x, rfl⟩ := emission_replay_appends "" m it.array evs s a hrep
      obtain ⟨y, rfl⟩ := ih _ _ _ hb
      exact ⟨x ++ ";" ++ "\n" ++ y, by
        simp [kernel_generation_stream.put, kernel_generation_stream.endl,
          String.append_assoc]⟩

/-! ## Tables after the fetch pass -/

theorem at_mem : ∀ (m : mapping_type) (key : index_info) (c : mapped_container),
    mapping_type.at m key = some c → (key, c) ∈ m := by
  intro m
  induction m with
  | nil => intro key c h; simp [mapping_type.at] at h
  | cons e rest ih =>
    intro key c h
    simp only [mapping_type.at] at h
    by_cases hk : e.1 = key
    · simp only [hk, if_true, Option.some.injEq] at h
      have : e = (key, c) := Prod.ext hk h
      exact this ▸ List.mem_cons_self _ _
    · simp only [hk, if_false] at h
      exact List.mem_cons_of_mem _ (ih key c h)

theorem at_map (g : mapped_container → mapped_container) :
    ∀ (m : mapping_type) (key : index_info),
      mapping_type.at (m.map fun e => (e.1, g e.2)) key = (mapping_type.at m key).map g := by
  intro m
  induction m with
  | nil => intro key; rfl
  | cons e rest ih =>
    intro key
    by_cases hk : e.1 = key <;> simp [mapping_type.at, hk, ih]

theorem handle_cast_fetched_operand (c : mapped_container) :
    vector_saxpy.handle_cast (fetched_operand vector_saxpy.handle_cast c)
      = vector_saxpy.handle_cast c := by
  unfold fetched_operand
  cases h : vector_saxpy.handle_cast c with
  | none => simp [h]
  | some index =>
    simp only
    simpa [vector_saxpy.handle_cast, mapped_container.is_mapped_handle] using h

theorem handle_cast_eq_some (c : mapped_container) (index : String)
    (h : vector_saxpy.handle_cast c = some index) :
    index = "i" ∧ c.is_mapped_handle = true := by
  unfold vector_saxpy.handle_cast at h
  by_cases hc : c.is_mapped_handle = true
  · simp [hc] at h; exact ⟨h.symm, hc⟩
  · simp [hc] at h

/-! ## The kernel body of `vector_saxpy::core` -/

theorem vector_core_ok (statements_ : List statement) (mapping_ : List mapping_type)
    (fuel : Nat) (stream : kernel_generation_stream)
    (out : List mapping_type × kernel_generation_stream)
    (hcore : vector_saxpy.core statements_ mapping_ fuel stream = Except.ok out) :
    ∃ s1 w,
      emit_statements fuel
          (fetch_pass vector_saxpy.handle_cast mapping_ ∅ (vector_saxpy.body_stream stream)).1
          statements_ 0
          (fetch_pass vector_saxpy.handle_cast mapping_ ∅ (vector_saxpy.body_stream stream)).2.2
        = Except.ok s1 ∧
      write_back_pass vector_saxpy.handle_cast
          (fetch_pass vector_saxpy.handle_cast mapping_ ∅ (vector_saxpy.body_stream stream)).1
          (fetch_pass vector_saxpy.handle_cast mapping_ ∅ (vector_saxpy.body_stream stream)).2.1
          s1
        = Except.ok w ∧
      out = (w.1, (w.2.2.dec_tab.put "\x7d").endl) := by
  unfold vector_saxpy.core at hcore
  simp only [] at hcore
  obtain ⟨s1, hs1, hrest⟩ := (detail.except_bind_eq_ok _ _ _).mp hcore
  obtain ⟨w, hw, hout⟩ := (detail.except_bind_eq_ok _ _ _).mp hrest
  refine ⟨s1, w, hs1, hw, ?_⟩
  simpa [detail.except_pure, eq_comm] using hout

/-- C2: when `vector_saxpy::core` returns and the operand named `n` is the assignment
target (the mapped handle at key `(0, LHS_LEAF_TYPE)`) of a statement of the batch, in
particular of exactly one, the text of the kernel body is the loop header, then the fetch
declarations, then the emitted statements, then the write-back lines
`<memory access> = <name>_private;` of assignment targets of the batch, then the closing
brace; exactly one of the write-back lines is for `n`, so that line comes after every
fetch declaration and after every emitted statement. -/
theorem write_once (statements_ : List statement) (mapping_ : List mapping_type)
    (fuel : Nat) (stream : kernel_generation_stream)
    (out : List mapping_type × kernel_generation_stream) (n : String)
    (hcore : vector_saxpy.core statements_ mapping_ fuel stream = Except.ok out)
    (htarget : 1 ≤ mapping_.countP fun m => is_target vector_saxpy.handle_cast n m) :
    ∃ (decls : List (mapped_container × String)) (emitted : String)
      (wbs : List mapped_container),
      out.2.text = (vector_saxpy.body_stream stream).text
          ++ concat_lines (decls.map fun d => register_line d.1 d.2)
          ++ emitted
          ++ concat_lines (wbs.map fun c =>
              c.memory_access "i" ++ " = " ++ (c.name ++ "_private") ++ ";" ++ "\n")
          ++ "\x7d" ++ "\n" ∧
        (fetch_pass vector_saxpy.handle_cast mapping_ ∅ (vector_saxpy.body_stream stream)).2.2
          = (vector_saxpy.body_stream stream).put
              (concat_lines (decls.map fun d => register_line d.1 d.2)) ∧
        emit_statements fuel
            (fetch_pass vector_saxpy.handle_cast mapping_ ∅ (vector_saxpy.body_stream stream)).1
            statements_ 0
            (fetch_pass vector_saxpy.handle_cast mapping_ ∅
              (vector_saxpy.body_stream stream)).2.2
          = Except.ok ((fetch_pass vector_saxpy.handle_cast mapping_ ∅
              (vector_saxpy.body_stream stream)).2.2.put emitted) ∧
        (∀ c ∈ wbs, ∃ m ∈ mapping_, ∃ c0,
          mapping_type.at m (0, node_type.LHS_LEAF_TYPE) = some c0 ∧
            c0.is_mapped_handle = true ∧ c0.name = c.name ∧
            c0.memory_access = c.memory_access) ∧
        (wbs.map fun c => c.name).count n = 1 := by
  obtain ⟨s1, w, hemit, hwb, hout⟩ := vector_core_ok statements_ mapping_ fuel stream out hcore
  obtain ⟨decls, htext, _, _, _, hnames⟩ :=
    fetch_pass_spec vector_saxpy.handle_cast mapping_ ∅ (vector_saxpy.body_stream stream)
  obtain ⟨emitted, hs1⟩ := emit_statements_appends _ _ _ _ _ _ hemit
  obtain ⟨wbs, hwtext, hwmem, hwnodup, hwall⟩ := write_back_pass_spec vector_saxpy.handle_cast
    (fetch_pass vector_saxpy.handle_cast mapping_ ∅ (vector_saxpy.body_stream stream)).1
    (fetch_pass vector_saxpy.handle_cast mapping_ ∅ (vector_saxpy.body_stream stream)).2.1 s1
  have horigin : ∀ d ∈ wbs, d.2 = "i" ∧ d.1.access_name = d.1.name ++ "_private" ∧
      ∃ m ∈ mapping_, ∃ c0, mapping_type.at m (0, node_type.LHS_LEAF_TYPE) = some c0 ∧
        c0.is_mapped_handle = true ∧ c0.name = d.1.name ∧
        c0.memory_access = d.1.memory_access := by
    rintro ⟨d1, d2⟩ hd
    obtain ⟨_, m', hm', hat, hcast⟩ := hwmem _ hd
    simp only at hat hcast ⊢
    rw [fetch_pass_mapping] at hm'
    obtain ⟨m, hm, rfl⟩ := List.mem_map.mp hm'
    rw [at_map] at hat
    cases hat0 : mapping_type.at m (0, node_type.LHS_LEAF_TYPE) with
    | none => simp [hat0] at hat
    | some c0 =>
      simp only [hat0, Option.map_some', Option.some.injEq] at hat
      subst hat
      rw [handle_cast_fetched_operand] at hcast
      obtain ⟨hi, hh⟩ := handle_cast_eq_some c0 d2 hcast
      refine ⟨hi, ?_, m, hm, c0, hat0, hh, ?_, ?_⟩ <;>
        simp [fetched_operand, hcast]
  refine ⟨decls, emitted, wbs.map (fun d => d.1), ?_, htext, hs1 ▸ hemit, ?_, ?_⟩
  · have hw2 : w.2.2 = s1.put (concat_lines (wbs.map fun d => write_back_line d.1 d.2)) := by
      rw [← hwtext, hwb]; rfl
    have hlines : (wbs.map fun d => write_back_line d.1 d.2)
        = (wbs.map (fun d => d.1)).map fun c =>
            c.memory_access "i" ++ " = " ++ (c.name ++ "_private") ++ ";" ++ "\n" := by
      rw [List.map_map]
      refine List.map_congr_left fun d hd => ?_
      obtain ⟨hi, hacc, _⟩ := horigin d hd
      simp [write_back_line, hi, hacc]
    rw [hout, hw2, hs1, htext, hlines]
    simp [kernel_generation_stream.put, kernel_generation_stream.endl,
      kernel_generation_stream.dec_tab, String.append_assoc]
  · intro c hc
    obtain ⟨d, hd, rfl⟩ := List.mem_map.mp hc
    exact (horigin d hd).2.2
  · rw [List.map_map]
    refine List.count_eq_one_of_mem hwnodup ?_
    obtain ⟨m, hm, ht⟩ : ∃ m ∈ mapping_, is_target vector_saxpy.handle_cast n m = true := by
      have := List.countP_pos_iff.mp (Nat.succ_le_iff.mp htarget)
      simpa using this
    obtain ⟨c0, hat0, hsome, hname⟩ := (is_target_iff _ _ _).mp ht
    refine hwall w hwb n ?_ ?_
    · exact (hnames n).mpr (Or.inr ⟨m, hm, _, at_mem m _ c0 hat0, hsome, hname⟩)
    · refine ⟨m.map fun e => (e.1, fetched_operand vector_saxpy.handle_cast e.2), ?_, ?_⟩
      · rw [fetch_pass_mapping]
        exact List.mem_map_of_mem _ hm
      · refine (is_target_iff _ _ _).mpr ⟨fetched_operand vector_saxpy.handle_cast c0, ?_, ?_, ?_⟩
        · rw [at_map, hat0]; rfl
        · rw [handle_cast_fetched_operand]; exact hsome
        · rw [← hname]
          unfold fetched_operand
          cases vector_saxpy.handle_cast c0 <;> rfl

/-- Witness of C2: for the batch `y = x` the method returns, `y` is the target of the one
statement, and the kernel body ends with the single write-back line of `y`. -/
theorem write_once_witness :
    (List.countP (fun m => is_target vector_saxpy.handle_cast "y" m)
        [sample_assign_mapping "y" "x"] = 1) ∧
      ∃ out, vector_saxpy.core [sample_assign] [sample_assign_mapping "y" "x"] 2 empty_stream
          = Except.ok out ∧
        out.2.text = "for(unsigned int i = get_global_id(0) ; i < N ; i += get_global_size(0))\n\x7b\nfloat y_private = y[i];\nfloat x_private = x[i];\n(y_private=x_private);\ny[i] = y_private;\n\x7d\n" ∧
        ∃ (decls : List (mapped_container × String)) (emitted : String)
          (wbs : List mapped_container),
          out.2.text = (vector_saxpy.body_stream empty_stream).text
            ++ concat_lines (decls.map fun d => register_line d.1 d.2)
            ++ emitted
            ++ concat_lines (wbs.map fun c =>
                c.memory_access "i" ++ " = " ++ (c.name ++ "_private") ++ ";" ++ "\n")
            ++ "\x7d" ++ "\n" ∧
          (wbs.map fun c => c.name).count "y" = 1 := by
  refine ⟨by decide, ?_⟩
  have hcore : ∃ out, vector_saxpy.core [sample_assign] [sample_assign_mapping "y" "x"] 2
      empty_stream = Except.ok out := ⟨_, rfl⟩
  obtain ⟨out, hout⟩ := hcore
  have htext : (vector_saxpy.core [sample_assign] [sample_assign_mapping "y" "x"] 2
      empty_stream).toOption.map (fun r => r.2.text) = some "for(unsigned int i = get_global_id(0) ; i < N ; i += get_global_size(0))\n\x7b\nfloat y_private = y[i];\nfloat x_private = x[i];\n(y_private=x_private);\ny[i] = y_private;\n\x7d\n" := rfl
  obtain ⟨decls, emitted, wbs, h1, _, _, _, h5⟩ :=
    write_once [sample_assign] [sample_assign_mapping "y" "x"] 2 empty_stream out "y" hout
      (by decide)
  refine ⟨out, hout, ?_, decls, emitted, wbs, h1, h5⟩
  rw [hout] at htext
  simpa [Except.toOption] using htext

/-- Witness of C3: in the batch `y = x`, `y = z` the vector `y` is the target of both
statements and is written back once. -/
theorem write_back_at_most_once_witness :
    (vector_saxpy.core [sample_assign, sample_assign]
        [sample_assign_mapping "y" "x", sample_assign_mapping "y" "z"] 2
        empty_stream).toOption.map (fun r => r.2.text)
      = some "for(unsigned int i = get_global_id(0) ; i < N ; i += get_global_size(0))\n\x7b\nfloat y_private = y[i];\nfloat x_private = x[i];\nfloat z_private = z[i];\n(y_private=x_private);\n(y_private=z_private);\ny[i] = y_private;\n\x7d\n" ∧
      ∃ wbs : List (mapped_container × String),
        (final_stream (fun r => r.2.2) (write_back_pass vector_saxpy.handle_cast
          [sample_assign_mapping "y" "x", sample_assign_mapping "y" "z"] {"y", "x", "z"}
          empty_stream)).text
            = empty_stream.text ++ concat_lines (wbs.map fun d => write_back_line d.1 d.2) ∧
          (wbs.map fun d => d.1.name).count "y" ≤ 1 := by
  refine ⟨rfl, ?_⟩
  obtain ⟨wbs, h1, _, h3⟩ := write_back_at_most_once vector_saxpy.handle_cast
    [sample_assign_mapping "y" "x", sample_assign_mapping "y" "z"] {"y", "x", "z"} empty_stream
  exact ⟨wbs, h1, h3 "y"⟩

/-! ## Which operands are fetched -/

/-- Counterexample to C4 as stated: in the batch `y = x` the vector `y` occurs only as
the assignment target, under the keys `(0, LHS_NODE_TYPE)` and `(0, LHS_LEAF_TYPE)`, and
the fetch pass still fetches it; the kernel body has two register declarations, of `y`
and of `x`. -/
theorem fetch_only_reads_counterexample :
    (∀ e ∈ sample_assign_mapping "y" "x", e.2.name = "y" →
        e.1 = (0, node_type.LHS_NODE_TYPE) ∨ e.1 = (0, node_type.LHS_LEAF_TYPE)) ∧
      "y" ∈ (fetch_pass vector_saxpy.handle_cast [sample_assign_mapping "y" "x"] ∅
        (vector_saxpy.body_stream empty_stream)).2.1 ∧
      (fetch_pass vector_saxpy.handle_cast [sample_assign_mapping "y" "x"] ∅
        empty_stream).2.2.text = "float y_private = y[i];\nfloat x_private = x[i];\n" ∧
      (vector_saxpy.core [sample_assign] [sample_assign_mapping "y" "x"] 2
        empty_stream).toOption.map (fun r => r.2.text)
        = some "for(unsigned int i = get_global_id(0) ; i < N ; i += get_global_size(0))\n\x7b\nfloat y_private = y[i];\nfloat x_private = x[i];\n(y_private=x_private);\ny[i] = y_private;\n\x7d\n" ∧
      ¬ (∀ n, n ∈ (fetch_pass vector_saxpy.handle_cast [sample_assign_mapping "y" "x"] ∅
            (vector_saxpy.body_stream empty_stream)).2.1 →
          ∃ e ∈ sample_assign_mapping "y" "x", e.2.name = n ∧
            e.1 ≠ (0, node_type.LHS_NODE_TYPE) ∧ e.1 ≠ (0, node_type.LHS_LEAF_TYPE)) := by
  have hy : "y" ∈ (fetch_pass vector_saxpy.handle_cast [sample_assign_mapping "y" "x"] ∅
      (vector_saxpy.body_stream empty_stream)).2.1 := by decide
  refine ⟨by decide, hy, by decide, rfl, ?_⟩
  intro h
  obtain ⟨e, he, hname, h1, h2⟩ := h "y" hy
  have hall : ∀ e ∈ sample_assign_mapping "y" "x", e.2.name = "y" →
      e.1 = (0, node_type.LHS_NODE_TYPE) ∨ e.1 = (0, node_type.LHS_LEAF_TYPE) := by decide
  rcases hall e he hname with h | h
  · exact h1 h
  · exact h2 h

theorem handle_cast_isSome (c : mapped_container) :
    (vector_saxpy.handle_cast c).isSome = c.is_mapped_handle := by
  unfold vector_saxpy.handle_cast
  cases c.is_mapped_handle <;> rfl

/-- C4 as amended: for every batch, the fetch pass emits a register-initialising read for
exactly the operands that occur as mapped handles under some key of some mapping table,
whatever the role of the key, assignment targets included.  For the batch `y = x` the
kernel body is one loop bounded by `N`, the two fetches of `y` and `x`, the one emitted
assignment and the one write-back of `y`. -/
theorem fetch_every_handle (mapping_ : List mapping_type)
    (stream : kernel_generation_stream) :
    (∃ decls : List (mapped_container × String),
      (fetch_pass vector_saxpy.handle_cast mapping_ ∅ stream).2.2.text
          = stream.text ++ concat_lines (decls.map fun d => register_line d.1 d.2) ∧
        ∀ n, n ∈ (decls.map fun d => d.1.name) ↔
          ∃ m ∈ mapping_, ∃ e ∈ m, e.2.is_mapped_handle = true ∧ e.2.name = n) ∧
      (vector_saxpy.core [sample_assign] [sample_assign_mapping "y" "x"] 2
        empty_stream).toOption.map (fun r => r.2.text)
        = some "for(unsigned int i = get_global_id(0) ; i < N ; i += get_global_size(0))\n\x7b\nfloat y_private = y[i];\nfloat x_private = x[i];\n(y_private=x_private);\ny[i] = y_private;\n\x7d\n" := by
  refine ⟨?_, rfl⟩
  obtain ⟨decls, htext, _, _, hset, hnames⟩ :=
    fetch_pass_spec vector_saxpy.handle_cast mapping_ ∅ stream
  refine ⟨decls, by rw [htext]; rfl, fun n => ?_⟩
  have h1 := hset n
  have h2 := hnames n
  simp only [Finset.not_mem_empty, false_or, handle_cast_isSome] at h1 h2
  rw [← h1, h2]

/-! ## References in emitted statements -/

theorem fetched_operand_generate (c : mapped_container) (index : String)
    (hh : c.is_mapped_handle = true) :
    (fetched_operand vector_saxpy.handle_cast c).generate index = c.name ++ "_private" := by
  have hne : c.name ++ "_private" ≠ "" := by
    intro h
    have := congrArg String.length h
    simp only [String.length_append] at this
    have h8 : "_private".length = 8 := by decide
    rw [h8] at this
    exact absurd this (by simp)
  simp [fetched_operand, vector_saxpy.handle_cast, hh, mapped_container.generate, hne]

namespace detail

/-! ## Reducing operators and element access -/

theorem traverse_events_reducing_step (array : List statement_node) (deep : Bool)
    (key : index_info) (element : statement_node) (n : Nat)
    (hnode : array[key.1]? = some element) (hrole : key.2 = node_type.PARENT_TYPE)
    (hfamily : element.op_family_ = operation_node_type_family.OPERATION_BINARY_TYPE_FAMILY)
    (hreducing : element.op_type_ = operation_node_type.OPERATION_BINARY_PROD_TYPE ∨
      element.op_type_ = operation_node_type.OPERATION_BINARY_INNER_PROD_TYPE)
    (evs : List traversal_event) :
    traverse_events array deep (n + 1) key = Except.ok evs ↔
      (deep = false ∧ evs = [traversal_event.on_leaf key element]) ∨
      (deep = true ∧ ∃ l r,
        traverse_events array deep n (get_new_key element.lhs_type_family_ key.1
          element.lhs_node_index_ node_type.LHS_NODE_TYPE) = Except.ok l ∧
        traverse_events array deep n (get_new_key element.rhs_type_family_ key.1
          element.rhs_node_index_ node_type.RHS_NODE_TYPE) = Except.ok r ∧
        evs = [traversal_event.on_leaf key element, traversal_event.before_expansion] ++ l ++
          [traversal_event.on_operator element.op_family_ element.op_type_] ++ r ++
          [traversal_event.after_expansion]) := by
  unfold traverse_events
  rw [traverse]
  cases h1 : traverse_events array deep n (get_new_key element.lhs_type_family_ key.1
      element.lhs_node_index_ node_type.LHS_NODE_TYPE) <;>
    cases h2 : traverse_events array deep n (get_new_key element.rhs_type_family_ key.1
      element.rhs_node_index_ node_type.RHS_NODE_TYPE) <;>
    cases deep <;>
    rcases hreducing with hred | hred <;>
    simp [hnode, hrole, hfamily, hred, recorder_on_leaf, recorder_on_op, recorder_before,
      recorder_after, except_ok_bind, except_pure, except_error_bind,
      traverse_recorder_append, h1, h2, shift_events, eq_comm]

/-- C11: at a `PARENT_TYPE` key whose node is in the binary family with the operator
matrix-vector product or inner product: with `deep = false`, for every visitor,
`traverse` does exactly what the single call `on_leaf(key, node)` does, so its one event
is `on_leaf(key, node)` and no operand is visited; with `deep = true` it returns exactly
when the traversals of both operands return, and its events are `on_leaf(key, node)`,
`before_expansion`, the events of the left operand, `on_operator(family, type)`, the
events of the right operand, `after_expansion`. -/
theorem traverse_reducing_rule (array : List statement_node)
    (key : index_info) (element : statement_node)
    (hnode : array[key.1]? = some element) (hrole : key.2 = node_type.PARENT_TYPE)
    (hfamily : element.op_family_ = operation_node_type_family.OPERATION_BINARY_TYPE_FAMILY)
    (hreducing : element.op_type_ = operation_node_type.OPERATION_BINARY_PROD_TYPE ∨
      element.op_type_ = operation_node_type.OPERATION_BINARY_INNER_PROD_TYPE) :
    (∀ (σ : Type) (fun_ : TraversalFunctor σ) (fuel : Nat) (s : σ),
      traverse array fun_ false (fuel + 1) key s = fun_.call_on_leaf key element array s) ∧
    (∀ evs, Traverses array false key evs ↔ evs = [traversal_event.on_leaf key element]) ∧
    (∀ evs, Traverses array true key evs ↔
      ∃ l r,
        Traverses array true (get_new_key element.lhs_type_family_ key.1
          element.lhs_node_index_ node_type.LHS_NODE_TYPE) l ∧
        Traverses array true (get_new_key element.rhs_type_family_ key.1
          element.rhs_node_index_ node_type.RHS_NODE_TYPE) r ∧
        evs = [traversal_event.on_leaf key element, traversal_event.before_expansion] ++ l ++
          [traversal_event.on_operator element.op_family_ element.op_type_] ++ r ++
          [traversal_event.after_expansion]) := by
  refine ⟨?_, ?_, ?_⟩
  · intro σ fun_ fuel s
    rw [traverse]
    rcases hreducing with hred | hred <;>
      simp [hnode, hrole, hfamily, hred, except_pure, except_ok_bind, except_bind_ok]
  · intro evs
    constructor
    · rintro ⟨fuel, h⟩
      cases fuel with
      | zero => exact absurd h (traverse_events_zero array false key evs)
      | succ n =>
        rcases (traverse_events_reducing_step array false key element n hnode hrole hfamily
          hreducing evs).mp h with ⟨_, he⟩ | ⟨hd, _⟩
        · exact he
        · exact absurd hd (by decide)
    · intro he
      exact ⟨1, (traverse_events_reducing_step array false key element 0 hnode hrole hfamily
        hreducing evs).mpr (Or.inl ⟨rfl, he⟩)⟩
  · intro evs
    constructor
    · rintro ⟨fuel, h⟩
      cases fuel with
      | zero => exact absurd h (traverse_events_zero array true key evs)
      | succ n =>
        rcases (traverse_events_reducing_step array true key element n hnode hrole hfamily
          hreducing evs).mp h with ⟨hd, _⟩ | ⟨_, l, r, hl, hr, he⟩
        · exact absurd hd (by decide)
        · exact ⟨l, r, ⟨n, hl⟩, ⟨n, hr⟩, he⟩
    · rintro ⟨l, r, ⟨n1, hl⟩, ⟨n2, hr⟩, he⟩
      refine ⟨max n1 n2 + 1, (traverse_events_reducing_step array true key element
        (max n1 n2) hnode hrole hfamily hreducing evs).mpr (Or.inr ⟨rfl, l, r, ?_, ?_, he⟩)⟩
      · exact traverse_events_mono array true _ l n1 _ (le_max_left n1 n2) hl
      · exact traverse_events_mono array true _ r n2 _ (le_max_right n1 n2) hr

end detail

namespace detail

/-- Witness of C11: in the graph of `y = A * x` the node at index 1 is a matrix-vector
product; without `deep` its only event is `on_leaf`, with `deep` the expansion of both
operands follows. -/
theorem traverse_reducing_rule_witness :
    Traverses sample_prod_assign.array false (1, node_type.PARENT_TYPE)
      [traversal_event.on_leaf (1, node_type.PARENT_TYPE)
        ⟨operation_node_type_family.OPERATION_BINARY_TYPE_FAMILY,
          operation_node_type.OPERATION_BINARY_PROD_TYPE,
          statement_node_type_family.TERMINAL_TYPE_FAMILY 0, 0,
          statement_node_type_family.TERMINAL_TYPE_FAMILY 0, 0⟩] ∧
    Traverses sample_prod_assign.array true (1, node_type.PARENT_TYPE)
      [traversal_event.on_leaf (1, node_type.PARENT_TYPE)
        ⟨operation_node_type_family.OPERATION_BINARY_TYPE_FAMILY,
          operation_node_type.OPERATION_BINARY_PROD_TYPE,
          statement_node_type_family.TERMINAL_TYPE_FAMILY 0, 0,
          statement_node_type_family.TERMINAL_TYPE_FAMILY 0, 0⟩,
       traversal_event.before_expansion,
       traversal_event.on_leaf (1, node_type.LHS_NODE_TYPE)
        ⟨operation_node_type_family.OPERATION_BINARY_TYPE_FAMILY,
          operation_node_type.OPERATION_BINARY_PROD_TYPE,
          statement_node_type_family.TERMINAL_TYPE_FAMILY 0, 0,
          statement_node_type_family.TERMINAL_TYPE_FAMILY 0, 0⟩,
       traversal_event.on_operator operation_node_type_family.OPERATION_BINARY_TYPE_FAMILY
        operation_node_type.OPERATION_BINARY_PROD_TYPE,
       traversal_event.on_leaf (1, node_type.RHS_NODE_TYPE)
        ⟨operation_node_type_family.OPERATION_BINARY_TYPE_FAMILY,
          operation_node_type.OPERATION_BINARY_PROD_TYPE,
          statement_node_type_family.TERMINAL_TYPE_FAMILY 0, 0,
          statement_node_type_family.TERMINAL_TYPE_FAMILY 0, 0⟩,
       traversal_event.after_expansion] :=
  ⟨((traverse_reducing_rule sample_prod_assign.array (1, node_type.PARENT_TYPE)
      ⟨operation_node_type_family.OPERATION_BINARY_TYPE_FAMILY,
        operation_node_type.OPERATION_BINARY_PROD_TYPE,
        statement_node_type_family.TERMINAL_TYPE_FAMILY 0, 0,
        statement_node_type_family.TERMINAL_TYPE_FAMILY 0, 0⟩
      rfl rfl rfl (Or.inl rfl)).2.1 _).mpr rfl,
   ((traverse_reducing_rule sample_prod_assign.array (1, node_type.PARENT_TYPE)
      ⟨operation_node_type_family.OPERATION_BINARY_TYPE_FAMILY,
        operation_node_type.OPERATION_BINARY_PROD_TYPE,
        statement_node_type_family.TERMINAL_TYPE_FAMILY 0, 0,
        statement_node_type_family.TERMINAL_TYPE_FAMILY 0, 0⟩
      rfl rfl rfl (Or.inl rfl)).2.2 _).mpr ⟨_, _, ⟨1, rfl⟩, ⟨1, rfl⟩, rfl⟩⟩

theorem traverse_events_access_step (array : List statement_node) (deep : Bool)
    (key : index_info) (element : statement_node) (n : Nat)
    (hnode : array[key.1]? = some element) (hrole : key.2 = node_type.PARENT_TYPE)
    (hfamily : element.op_family_ = operation_node_type_family.OPERATION_BINARY_TYPE_FAMILY)
    (haccess : element.op_type_ = operation_node_type.OPERATION_BINARY_ACCESS)
    (evs : List traversal_event) :
    traverse_events array deep (n + 1) key = Except.ok evs ↔
      (deep = false ∧ evs = [traversal_event.on_leaf key element]) ∨
      (deep = true ∧ ∃ r,
        traverse_events array deep n (get_new_key element.rhs_type_family_ key.1
          element.rhs_node_index_ node_type.RHS_NODE_TYPE) = Except.ok r ∧
        evs = traversal_event.on_leaf key element :: r) := by
  unfold traverse_events
  rw [traverse]
  cases h2 : traverse_events array deep n (get_new_key element.rhs_type_family_ key.1
      element.rhs_node_index_ node_type.RHS_NODE_TYPE) <;>
    cases deep <;>
    simp [hnode, hrole, hfamily, haccess, recorder_on_leaf, except_ok_bind, except_pure,
      except_error_bind, traverse_recorder_append, h2, shift_events, eq_comm]

/-- C12: at a `PARENT_TYPE` key whose node is in the binary family with the operator
element access, for every visitor `traverse` calls `on_leaf(key, node)` and then, if
and only if `deep` is set, traverses the right child: no `on_operator`,
`before_expansion` or `after_expansion` is called for the node and the left child is
never visited.  Its events are `on_leaf(key, node)` alone without `deep`, and
`on_leaf(key, node)` followed by the events of the right child with `deep`. -/
theorem traverse_element_access_rule (array : List statement_node)
    (key : index_info) (element : statement_node)
    (hnode : array[key.1]? = some element) (hrole : key.2 = node_type.PARENT_TYPE)
    (hfamily : element.op_family_ = operation_node_type_family.OPERATION_BINARY_TYPE_FAMILY)
    (haccess : element.op_type_ = operation_node_type.OPERATION_BINARY_ACCESS) :
    (∀ (σ : Type) (fun_ : TraversalFunctor σ) (deep : Bool) (fuel : Nat) (s : σ),
      traverse array fun_ deep (fuel + 1) key s =
        fun_.call_on_leaf key element array s >>= fun s =>
          if deep = true then
            traverse array fun_ deep fuel (get_new_key element.rhs_type_family_ key.1
              element.rhs_node_index_ node_type.RHS_NODE_TYPE) s
          else Except.ok s) ∧
    (∀ evs, Traverses array false key evs ↔ evs = [traversal_event.on_leaf key element]) ∧
    (∀ evs, Traverses array true key evs ↔
      ∃ r,
        Traverses array true (get_new_key element.rhs_type_family_ key.1
          element.rhs_node_index_ node_type.RHS_NODE_TYPE) r ∧
        evs = traversal_event.on_leaf key element :: r) := by
  refine ⟨?_, ?_, ?_⟩
  · intro σ fun_ deep fuel s
    rw [traverse]
    simp [hnode, hrole, hfamily, haccess, except_pure, except_ok_bind]
  · intro evs
    constructor
    · rintro ⟨fuel, h⟩
      cases fuel with
      | zero => exact absurd h (traverse_events_zero array false key evs)
      | succ n =>
        rcases (traverse_events_access_step array false key element n hnode hrole hfamily
          haccess evs).mp h with ⟨_, he⟩ | ⟨hd, _⟩
        · exact he
        · exact absurd hd (by decide)
    · intro he
      exact ⟨1, (traverse_events_access_step array false key element 0 hnode hrole hfamily
        haccess evs).mpr (Or.inl ⟨rfl, he⟩)⟩
  · intro evs
    constructor
    · rintro ⟨fuel, h⟩
      cases fuel with
      | zero => exact absurd h (traverse_events_zero array true key evs)
      | succ n =>
        rcases (traverse_events_access_step array true key element n hnode hrole hfamily
          haccess evs).mp h with ⟨hd, _⟩ | ⟨_, r, hr, he⟩
        · exact absurd hd (by decide)
        · exact ⟨r, ⟨n, hr⟩, he⟩
    · rintro ⟨r, ⟨n, hr⟩, he⟩
      exact ⟨n + 1, (traverse_events_access_step array true key element n hnode hrole
        hfamily haccess evs).mpr (Or.inr ⟨rfl, r, hr, he⟩)⟩

/-- Witness of C12: in the graph of `y = x[k]` the node at index 1 is an element access;
without `deep` its only event is `on_leaf`, with `deep` the right child follows, and the
left child is not visited. -/
theorem traverse_element_access_rule_witness :
    Traverses sample_access_assign.array false (1, node_type.PARENT_TYPE)
      [traversal_event.on_leaf (1, node_type.PARENT_TYPE)
        ⟨operation_node_type_family.OPERATION_BINARY_TYPE_FAMILY,
          operation_node_type.OPERATION_BINARY_ACCESS,
          statement_node_type_family.TERMINAL_TYPE_FAMILY 0, 0,
          statement_node_type_family.TERMINAL_TYPE_FAMILY 0, 0⟩] ∧
    Traverses sample_access_assign.array true (1, node_type.PARENT_TYPE)
      [traversal_event.on_leaf (1, node_type.PARENT_TYPE)
        ⟨operation_node_type_family.OPERATION_BINARY_TYPE_FAMILY,
          operation_node_type.OPERATION_BINARY_ACCESS,
          statement_node_type_family.TERMINAL_TYPE_FAMILY 0, 0,
          statement_node_type_family.TERMINAL_TYPE_FAMILY 0, 0⟩,
       traversal_event.on_leaf (1, node_type.RHS_NODE_TYPE)
        ⟨operation_node_type_family.OPERATION_BINARY_TYPE_FAMILY,
          operation_node_type.OPERATION_BINARY_ACCESS,
          statement_node_type_family.TERMINAL_TYPE_FAMILY 0, 0,
          statement_node_type_family.TERMINAL_TYPE_FAMILY 0, 0⟩] :=
  ⟨((traverse_element_access_rule sample_access_assign.array (1, node_type.PARENT_TYPE)
      ⟨operation_node_type_family.OPERATION_BINARY_TYPE_FAMILY,
        operation_node_type.OPERATION_BINARY_ACCESS,
        statement_node_type_family.TERMINAL_TYPE_FAMILY 0, 0,
        statement_node_type_family.TERMINAL_TYPE_FAMILY 0, 0⟩
      rfl rfl rfl rfl).2.1 _).mpr rfl,
   ((traverse_element_access_rule sample_access_assign.array (1, node_type.PARENT_TYPE)
      ⟨operation_node_type_family.OPERATION_BINARY_TYPE_FAMILY,
        operation_node_type.OPERATION_BINARY_ACCESS,
        statement_node_type_family.TERMINAL_TYPE_FAMILY 0, 0,
        statement_node_type_family.TERMINAL_TYPE_FAMILY 0, 0⟩
      rfl rfl rfl rfl).2.2 _).mpr ⟨_, ⟨1, rfl⟩, rfl⟩⟩

end detail

/-! ## Operator symbols and the failures of the hooks -/

/-- C14: `detail::generate` returns `abs` for unary abs, `=` for assignment, `+` for
addition and the empty string for element access; the code-emission visitor's
`on_operator` appends exactly the symbol of its operator to the buffer,
`before_expansion` appends `(` and `after_expansion` appends `)`; in each case the new
buffer is the earlier content followed by the appended text. -/
theorem operator_symbols :
    detail.generate operation_node_type.OPERATION_UNARY_ABS_TYPE = some "abs" ∧
    detail.generate operation_node_type.OPERATION_BINARY_ASSIGN_TYPE = some "=" ∧
    detail.generate operation_node_type.OPERATION_BINARY_ADD_TYPE = some "+" ∧
    detail.generate operation_node_type.OPERATION_BINARY_ACCESS = some "" ∧
    (∀ (index_string_ : String) (mapping_ : mapping_type)
        (family : operation_node_type_family) (type : operation_node_type) (symbol : String)
        (str_ : kernel_generation_stream),
      detail.generate type = some symbol →
        (detail.expression_generation_traversal index_string_ mapping_).call_on_op family type
          str_ = Except.ok { str_ with text := str_.text ++ symbol }) ∧
    (∀ (index_string_ : String) (mapping_ : mapping_type) (str_ : kernel_generation_stream),
      (detail.expression_generation_traversal index_string_ mapping_).call_before_expansion
          str_ = Except.ok { str_ with text := str_.text ++ "(" } ∧
      (detail.expression_generation_traversal index_string_ mapping_).call_after_expansion
          str_ = Except.ok { str_ with text := str_.text ++ ")" }) := by
  refine ⟨rfl, rfl, rfl, rfl, ?_, fun _ _ _ => ⟨rfl, rfl⟩⟩
  intro index_string_ mapping_ family type symbol str_ h
  simp [detail.expression_generation_traversal, h, kernel_generation_stream.put]

/-- Witness of C14: on the buffer `(y_private` the operator of an assignment appends
`=`. -/
theorem operator_symbols_witness :
    detail.generate operation_node_type.OPERATION_BINARY_ASSIGN_TYPE = some "=" ∧
      (detail.expression_generation_traversal "" []).call_on_op
        operation_node_type_family.OPERATION_BINARY_TYPE_FAMILY
        operation_node_type.OPERATION_BINARY_ASSIGN_TYPE ⟨"(y_private", 0⟩
        = Except.ok ⟨"(y_private=", 0⟩ :=
  ⟨rfl, operator_symbols.2.2.2.2.1 "" [] operation_node_type_family.OPERATION_BINARY_TYPE_FAMILY
    operation_node_type.OPERATION_BINARY_ASSIGN_TYPE "=" ⟨"(y_private", 0⟩ rfl⟩

/-- C16: `detail::generate(type)` throws "not implemented" if and only if `type` is none
of unary abs, binary assign, binary add and binary access; for those four it returns. -/
theorem generate_not_implemented_iff (type : operation_node_type) :
    detail.generate type = none ↔
      type ∉ [operation_node_type.OPERATION_UNARY_ABS_TYPE,
        operation_node_type.OPERATION_BINARY_ASSIGN_TYPE,
        operation_node_type.OPERATION_BINARY_ADD_TYPE,
        operation_node_type.OPERATION_BINARY_ACCESS] := by
  cases type <;> simp [detail.generate]

/-- C20: the code-emission visitor's `on_leaf` throws the key-not-found error and leaves
the buffer as it was when its key has no entry in the mapping table; the write-back pass
throws the key-not-found error when a table of the batch has no entry for the key
`(0, LHS_LEAF_TYPE)`, and then `vector_saxpy::core` and `matrix_saxpy::core` do not
return. -/
theorem key_not_found_is_fatal :
    (∀ (index_string_ : String) (mapping_ : mapping_type) (key : index_info)
        (node : statement_node) (array : List statement_node)
        (str_ : kernel_generation_stream),
      mapping_type.at mapping_ key = none →
        (detail.expression_generation_traversal index_string_ mapping_).call_on_leaf key node
          array str_ = Except.error (gen_error.key_not_found, str_)) ∧
    (∀ (cast : mapped_container → Option String) (mapping_ : List mapping_type)
        (fetched : Finset String) (stream : kernel_generation_stream),
      (∃ m ∈ mapping_, mapping_type.at m (0, node_type.LHS_LEAF_TYPE) = none) →
        ∃ stream', write_back_pass cast mapping_ fetched stream
          = Except.error (gen_error.key_not_found, stream')) ∧
    (∀ (statements_ : List statement) (mapping_ : List mapping_type) (fuel : Nat)
        (stream : kernel_generation_stream),
      (∃ m ∈ mapping_, mapping_type.at m (0, node_type.LHS_LEAF_TYPE) = none) →
        (∀ out, vector_saxpy.core statements_ mapping_ fuel stream ≠ Except.ok out) ∧
        (∀ out, matrix_saxpy.core statements_ mapping_ fuel stream ≠ Except.ok out)) := by
  have hpass : ∀ (cast : mapped_container → Option String) (mapping_ : List mapping_type)
      (fetched : Finset String) (stream : kernel_generation_stream),
      (∃ m ∈ mapping_, mapping_type.at m (0, node_type.LHS_LEAF_TYPE) = none) →
        ∃ stream', write_back_pass cast mapping_ fetched stream
          = Except.error (gen_error.key_not_found, stream') := by
    intro cast mapping_
    induction mapping_ with
    | nil => intro fetched stream h; simp at h
    | cons m ms ih =>
      intro fetched stream h
      cases hat : mapping_type.at m (0, node_type.LHS_LEAF_TYPE) with
      | none => exact ⟨stream, by simp [write_back_pass, hat]⟩
      | some c =>
        have hrest : ∃ m' ∈ ms, mapping_type.at m' (0, node_type.LHS_LEAF_TYPE) = none := by
          obtain ⟨m', hm', hnone⟩ := h
          rcases List.mem_cons.mp hm' with rfl | hm'
          · rw [hat] at hnone; cases hnone
          · exact ⟨m', hm', hnone⟩
        cases hc : cast c with
        | none =>
          obtain ⟨stream', hs⟩ := ih fetched stream hrest
          exact ⟨stream', by simp [write_back_pass, hat, hc, hs, detail.except_error_bind]⟩
        | some index =>
          obtain ⟨stream', hs⟩ := ih (write_back c index fetched stream).2.1
            (write_back c index fetched stream).2.2 hrest
          exact ⟨stream', by simp [write_back_pass, hat, hc, hs, detail.except_error_bind]⟩
  have hfetched : ∀ (cast : mapped_container → Option String) (mapping_ : List mapping_type)
      (fetched : Finset String) (stream : kernel_generation_stream),
      (∃ m ∈ mapping_, mapping_type.at m (0, node_type.LHS_LEAF_TYPE) = none) →
      ∃ m ∈ (fetch_pass cast mapping_ fetched stream).1,
        mapping_type.at m (0, node_type.LHS_LEAF_TYPE) = none := by
    intro cast mapping_ fetched stream h
    obtain ⟨m, hm, hnone⟩ := h
    refine ⟨m.map fun e => (e.1, fetched_operand cast e.2), ?_, ?_⟩
    · rw [fetch_pass_mapping]; exact List.mem_map_of_mem _ hm
    · rw [at_map, hnone]; rfl
  refine ⟨?_, hpass, ?_⟩
  · intro index_string_ mapping_ key node array str_ h
    simp [detail.expression_generation_traversal, h]
  · intro statements_ mapping_ fuel stream h
    constructor
    · intro out hout
      unfold vector_saxpy.core at hout
      simp only [] at hout
      obtain ⟨s1, _, hrest⟩ := (detail.except_bind_eq_ok _ _ _).mp hout
      obtain ⟨w, hw, _⟩ := (detail.except_bind_eq_ok _ _ _).mp hrest
      obtain ⟨stream', hs⟩ := hpass vector_saxpy.handle_cast _ _ s1
        (hfetched vector_saxpy.handle_cast mapping_ ∅ _ h)
      rw [hs] at hw
      cases hw
    · intro out hout
      unfold matrix_saxpy.core at hout
      simp only [] at hout
      obtain ⟨s1, _, hrest⟩ := (detail.except_bind_eq_ok _ _ _).mp hout
      obtain ⟨w, hw, _⟩ := (detail.except_bind_eq_ok _ _ _).mp hrest
      obtain ⟨stream', hs⟩ := hpass matrix_saxpy.matrix_cast _ _ s1
        (hfetched matrix_saxpy.matrix_cast mapping_ ∅ _ h)
      rw [hs] at hw
      cases hw

/-- Witness of C20: a table with the two leaves of `y = x` and no entry for
`(0, LHS_LEAF_TYPE)` makes the write-back pass throw, and `on_leaf` throws on the empty
table without changing the buffer. -/
theorem key_not_found_is_fatal_witness :
    (detail.expression_generation_traversal "" []).call_on_leaf (0, node_type.LHS_NODE_TYPE)
        ⟨operation_node_type_family.OPERATION_BINARY_TYPE_FAMILY,
          operation_node_type.OPERATION_BINARY_ASSIGN_TYPE,
          statement_node_type_family.TERMINAL_TYPE_FAMILY 0, 0,
          statement_node_type_family.TERMINAL_TYPE_FAMILY 0, 0⟩ [] ⟨"(", 0⟩
      = Except.error (gen_error.key_not_found, ⟨"(", 0⟩) ∧
    ∃ stream', write_back_pass vector_saxpy.handle_cast
        [[((0, node_type.LHS_NODE_TYPE), sample_vector "y"),
          ((0, node_type.RHS_NODE_TYPE), sample_vector "x")]] {"y", "x"} empty_stream
      = Except.error (gen_error.key_not_found, stream') :=
  ⟨key_not_found_is_fatal.1 "" [] _ _ _ _ rfl,
   key_not_found_is_fatal.2.1 vector_saxpy.handle_cast _ _ _
    ⟨_, List.mem_singleton.mpr rfl, rfl⟩⟩

/-! ## A node outside both operator families -/

/-- C17, the behaviour of the code: at a `PARENT_TYPE` key whose node belongs to neither
the unary nor the binary family, `traverse` returns normally for every visitor, with the
visitor's state unchanged and no hook called; no error is raised. -/
theorem detail.traverse_unclassified_returns {σ : Type} (array : List statement_node)
    (fun_ : detail.TraversalFunctor σ) (deep : Bool) (key : index_info)
    (element : statement_node)
    (hnode : array[key.1]? = some element) (hrole : key.2 = node_type.PARENT_TYPE)
    (hunary : element.op_family_ ≠ operation_node_type_family.OPERATION_UNARY_TYPE_FAMILY)
    (hbinary : element.op_family_ ≠ operation_node_type_family.OPERATION_BINARY_TYPE_FAMILY) :
    (∀ (fuel : Nat) (s : σ), detail.traverse array fun_ deep (fuel + 1) key s = Except.ok s) ∧
      detail.Traverses array deep key [] := by
  have hstep : ∀ {τ : Type} (g : detail.TraversalFunctor τ) (fuel : Nat) (s : τ),
      detail.traverse array g deep (fuel + 1) key s = Except.ok s := by
    intro τ g fuel s
    rw [detail.traverse]
    simp [hnode, hrole, hunary, hbinary, detail.except_pure, detail.except_ok_bind]
  exact ⟨hstep fun_, ⟨1, hstep detail.event_recorder 0 []⟩⟩

/-- The failing input of C17: emitting the graph whose root is in neither family returns
normally and appends nothing. -/
theorem detail.traverse_unclassified_returns_witness :
    detail.traverse sample_unclassified.array (detail.expression_generation_traversal "" [])
        true 1 (0, node_type.PARENT_TYPE) empty_stream = Except.ok empty_stream ∧
      detail.Traverses sample_unclassified.array true (0, node_type.PARENT_TYPE) [] :=
  ⟨(detail.traverse_unclassified_returns sample_unclassified.array
      (detail.expression_generation_traversal "" []) true (0, node_type.PARENT_TYPE) _ rfl rfl
      (by decide) (by decide)).1 0 empty_stream,
   (detail.traverse_unclassified_returns sample_unclassified.array
      (detail.expression_generation_traversal "" []) true (0, node_type.PARENT_TYPE) _ rfl rfl
      (by decide) (by decide)).2⟩

/-! ## The buffer after a failed emission -/

theorem emission_hook_error (index_string_ : String) (mapping_ : mapping_type)
    (array : List statement_node) (ev : detail.traversal_event)
    (s sf : kernel_generation_stream) (e : gen_error)
    (h : detail.dispatch_event (detail.expression_generation_traversal index_string_ mapping_)
      array ev s = Except.error (e, sf)) :
    sf = s ∧ (e = gen_error.key_not_found ∨ e = gen_error.not_implemented) := by
  cases ev with
  | on_leaf key node =>
    simp only [detail.dispatch_event, detail.expression_generation_traversal] at h
    cases hat : mapping_type.at mapping_ key with
    | none => simp [hat] at h; exact ⟨h.2.symm, Or.inl h.1.symm⟩
    | some c => simp [hat] at h
  | on_operator family type =>
    simp only [detail.dispatch_event, detail.expression_generation_traversal] at h
    cases hg : detail.generate type with
    | none => simp [hg] at h; exact ⟨h.2.symm, Or.inr h.1.symm⟩
    | some symbol => simp [hg] at h
  | before_expansion =>
    simp [detail.dispatch_event, detail.expression_generation_traversal] at h
  | after_expansion =>
    simp [detail.dispatch_event, detail.expression_generation_traversal] at h

theorem emission_replay_error (index_string_ : String) (mapping_ : mapping_type)
    (array : List statement_node) :
    ∀ (evs : List detail.traversal_event) (s sf : kernel_generation_stream) (e : gen_error),
      detail.replay_events (detail.expression_generation_traversal index_string_ mapping_)
        array evs s = Except.error (e, sf) →
      (∃ x, sf = s.put x) ∧ (e = gen_error.key_not_found ∨ e = gen_error.not_implemented) := by
  intro evs
  induction evs with
  | nil => intro s sf e h; simp [detail.replay_events] at h
  | cons ev evs ih =>
    intro s sf e h
    simp only [detail.replay_events] at h
    cases hd : detail.dispatch_event
        (detail.expression_generation_traversal index_string_ mapping_) array ev s with
    | error p =>
      rw [hd, detail.except_error_bind] at h
      cases h
      obtain ⟨h1, h2⟩ := emission_hook_error index_string_ mapping_ array ev s sf e hd
      exact ⟨⟨"", by rw [h1, put_empty]⟩, h2⟩
    | ok a =>
      rw [hd, detail.except_ok_bind] at h
      obtain ⟨x, rfl⟩ := emission_hook_appends index_string_ mapping_ array ev s a hd
      obtain ⟨⟨y, hy⟩, he⟩ := ih _ _ _ h
      exact ⟨⟨x ++ y, by rw [hy, put_put]⟩, he⟩

theorem emission_error_appends (index_string_ : String) (mapping_ : mapping_type)
    (array : List statement_node) (deep : Bool) (fuel : Nat) (key : index_info)
    (s sf : kernel_generation_stream) (e : gen_error)
    (h : detail.traverse array (detail.expression_generation_traversal index_string_ mapping_)
      deep fuel key s = Except.error (e, sf)) :
    ∃ x, sf = s.put x := by
  rw [detail.traverse_eq_replay_result] at h
  cases hr : detail.traverse_events array deep fuel key with
  | ok evs =>
    rw [hr] at h
    exact (emission_replay_error index_string_ mapping_ array evs s sf e h).1
  | error p =>
    rw [hr] at h
    simp only [detail.replay_result] at h
    cases hq : detail.replay_events
        (detail.expression_generation_traversal index_string_ mapping_) array p.2 s with
    | error q =>
      rw [hq, detail.except_error_bind] at h
      cases h
      exact (emission_replay_error index_string_ mapping_ array p.2 s sf e hq).1
    | ok a =>
      rw [hq, detail.except_ok_bind] at h
      cases h
      exact emission_replay_appends index_string_ mapping_ array p.2 s sf hq

/-- Counterexample to C18 as stated: emitting `y = x - z`, whose operator at node 1 has
no symbol, into the buffer `// kernel` fails with "not implemented", and the buffer then
holds `// kernel(y[i]=(x[i]`: the text of the failed statement emitted before the
failure stays appended. -/
theorem no_partial_output_counterexample :
    detail.traverse sample_unsupported_assign.array
        (detail.expression_generation_traversal "i"
          (binary_assign_mapping (sample_vector "y") (sample_vector "x") (sample_vector "z")))
        true 3 (0, node_type.PARENT_TYPE) ⟨"// kernel", 0⟩
      = Except.error (gen_error.not_implemented, ⟨"// kernel(y[i]=(x[i]", 0⟩) ∧
    vector_saxpy.core [sample_unsupported_assign]
        [binary_assign_mapping (sample_vector "y") (sample_vector "x") (sample_vector "z")] 3
        empty_stream
      = Except.error (gen_error.not_implemented,
          ⟨"for(unsigned int i = get_global_id(0) ; i < N ; i += get_global_size(0))\n\x7b\nfloat z_private = z[i];\nfloat x_private = x[i];\nfloat y_private = y[i];\n(y_private=(x_private", 1⟩) ∧
    ¬ (∀ (array : List statement_node) (mapping_ : mapping_type) (fuel : Nat)
        (str_ sf : kernel_generation_stream),
        detail.traverse array (detail.expression_generation_traversal "i" mapping_) true fuel
            (0, node_type.PARENT_TYPE) str_ = Except.error (gen_error.not_implemented, sf) →
          sf = str_) := by
  have h : detail.traverse sample_unsupported_assign.array
        (detail.expression_generation_traversal "i"
          (binary_assign_mapping (sample_vector "y") (sample_vector "x") (sample_vector "z")))
        true 3 (0, node_type.PARENT_TYPE) ⟨"// kernel", 0⟩
      = Except.error (gen_error.not_implemented, ⟨"// kernel(y[i]=(x[i]", 0⟩) := rfl
  refine ⟨h, rfl, fun hall => ?_⟩
  have := hall _ _ _ _ _ h
  exact absurd this (by decide)

/-! ## Parenthesization of a sum -/

theorem sum_assign_events (fuel : Nat) (hfuel : 3 ≤ fuel) :
    detail.traverse_events sample_sum_assign.array true fuel (0, node_type.PARENT_TYPE)
      = Except.ok
        [detail.traversal_event.before_expansion,
         detail.traversal_event.on_leaf (0, node_type.LHS_NODE_TYPE)
          ⟨operation_node_type_family.OPERATION_BINARY_TYPE_FAMILY,
            operation_node_type.OPERATION_BINARY_ASSIGN_TYPE,
            statement_node_type_family.TERMINAL_TYPE_FAMILY 0, 0,
            statement_node_type_family.COMPOSITE_OPERATION_FAMILY, 1⟩,
         detail.traversal_event.on_operator
          operation_node_type_family.OPERATION_BINARY_TYPE_FAMILY
          operation_node_type.OPERATION_BINARY_ASSIGN_TYPE,
         detail.traversal_event.before_expansion,
         detail.traversal_event.on_leaf (1, node_type.LHS_NODE_TYPE)
          ⟨operation_node_type_family.OPERATION_BINARY_TYPE_FAMILY,
            operation_node_type.OPERATION_BINARY_ADD_TYPE,
            statement_node_type_family.TERMINAL_TYPE_FAMILY 0, 0,
            statement_node_type_family.TERMINAL_TYPE_FAMILY 0, 0⟩,
         detail.traversal_event.on_operator
          operation_node_type_family.OPERATION_BINARY_TYPE_FAMILY
          operation_node_type.OPERATION_BINARY_ADD_TYPE,
         detail.traversal_event.on_leaf (1, node_type.RHS_NODE_TYPE)
          ⟨operation_node_type_family.OPERATION_BINARY_TYPE_FAMILY,
            operation_node_type.OPERATION_BINARY_ADD_TYPE,
            statement_node_type_family.TERMINAL_TYPE_FAMILY 0, 0,
            statement_node_type_family.TERMINAL_TYPE_FAMILY 0, 0⟩,
         detail.traversal_event.after_expansion,
         detail.traversal_event.after_expansion] :=
  detail.traverse_events_mono _ _ _ _ 3 fuel hfuel rfl

/-- C13: for the statement `a = b + c` over three mapped handles, the fetch pass leaves
one table, and with that table the code-emission traversal from the root key
`(0, PARENT_TYPE)` with `deep = true` appends exactly
`(<a>_private=(<b>_private+<c>_private))` to the buffer, whatever the buffer held and
whatever the index string; so emitting the same graph with the same mapping again
appends the same text again. -/
theorem parenthesization (a b c : mapped_container)
    (ha : a.is_mapped_handle = true) (hb : b.is_mapped_handle = true)
    (hc : c.is_mapped_handle = true) (stream : kernel_generation_stream) :
    ∃ m', (fetch_pass vector_saxpy.handle_cast [binary_assign_mapping a b c] ∅ stream).1
        = [m'] ∧
      ∀ (index_string_ : String) (fuel : Nat) (str_ : kernel_generation_stream), 3 ≤ fuel →
        detail.traverse sample_sum_assign.array
          (detail.expression_generation_traversal index_string_ m') true fuel
          (0, node_type.PARENT_TYPE) str_
        = Except.ok (str_.put ("(" ++ (a.name ++ "_private") ++ "=" ++
            ("(" ++ (b.name ++ "_private") ++ "+" ++ (c.name ++ "_private") ++ ")") ++ ")")) := by
  refine ⟨(binary_assign_mapping a b c).map fun e =>
    (e.1, fetched_operand vector_saxpy.handle_cast e.2), ?_, ?_⟩
  · rw [fetch_pass_mapping]; rfl
  · intro index_string_ fuel str_ hfuel
    rw [detail.traverse_eq_replay _ _ _ _ _ _ _ (sum_assign_events fuel hfuel)]
    simp [-String.reduceAppend, detail.replay_events, detail.dispatch_event,
      detail.expression_generation_traversal, at_map, mapping_type.at, binary_assign_mapping,
      fetched_operand_generate, ha, hb, hc, detail.generate, detail.except_ok_bind,
      kernel_generation_stream.put, String.append_assoc]

/-- Witness of C13: for the vectors `a`, `b`, `c` the emitted text is
`(a_private=(b_private+c_private))`, and a second emission gives the same text. -/
theorem parenthesization_witness :
    ∃ m', (fetch_pass vector_saxpy.handle_cast
        [binary_assign_mapping (sample_vector "a") (sample_vector "b") (sample_vector "c")] ∅
        (vector_saxpy.body_stream empty_stream)).1 = [m'] ∧
      (detail.traverse sample_sum_assign.array (detail.expression_generation_traversal "" m')
          true 3 (0, node_type.PARENT_TYPE) empty_stream
        = Except.ok ⟨"(a_private=(b_private+c_private))", 0⟩) ∧
      (detail.traverse sample_sum_assign.array (detail.expression_generation_traversal "" m')
          true 3 (0, node_type.PARENT_TYPE) ⟨"(a_private=(b_private+c_private));\n", 0⟩
        = Except.ok
          ⟨"(a_private=(b_private+c_private));\n(a_private=(b_private+c_private))", 0⟩) := by
  obtain ⟨m', h1, h2⟩ := parenthesization (sample_vector "a") (sample_vector "b")
    (sample_vector "c") rfl rfl rfl (vector_saxpy.body_stream empty_stream)
  refine ⟨m', h1, ?_, ?_⟩
  · rw [h2 "" 3 empty_stream (le_refl 3)]; rfl
  · rw [h2 "" 3 _ (le_refl 3)]; rfl

namespace detail

/-! ## Inversion of a recorded traversal -/

theorem traverse_events_leaf_step (array : List statement_node) (deep : Bool)
    (key : index_info) (element : statement_node) (n : Nat)
    (hnode : array[key.1]? = some element) (hrole : key.2 ≠ node_type.PARENT_TYPE)
    (evs : List traversal_event) :
    traverse_events array deep (n + 1) key = Except.ok evs ↔
      evs = [traversal_event.on_leaf key element] := by
  unfold traverse_events
  rw [traverse]
  simp [hnode, hrole, recorder_on_leaf, eq_comm]

theorem traverse_events_other_step (array : List statement_node) (deep : Bool)
    (key : index_info) (element : statement_node) (n : Nat)
    (hnode : array[key.1]? = some element) (hrole : key.2 = node_type.PARENT_TYPE)
    (hunary : element.op_family_ ≠ operation_node_type_family.OPERATION_UNARY_TYPE_FAMILY)
    (hbinary : element.op_family_ ≠ operation_node_type_family.OPERATION_BINARY_TYPE_FAMILY)
    (evs : List traversal_event) :
    traverse_events array deep (n + 1) key = Except.ok evs ↔ evs = [] := by
  unfold traverse_events
  rw [traverse]
  simp [hnode, hrole, hunary, hbinary, except_pure, except_ok_bind, eq_comm]

theorem traverse_events_inv (array : List statement_node) (deep : Bool) (n : Nat)
    (key : index_info) (evs : List traversal_event)
    (h : traverse_events array deep (n + 1) key = Except.ok evs) :
    ∃ element, array[key.1]? = some element ∧
      ((key.2 ≠ node_type.PARENT_TYPE ∧ evs = [traversal_event.on_leaf key element]) ∨
       (key.2 = node_type.PARENT_TYPE ∧
        element.op_family_ = operation_node_type_family.OPERATION_UNARY_TYPE_FAMILY ∧
        ∃ l,
          traverse_events array deep n (get_new_key element.lhs_type_family_ key.1
            element.lhs_node_index_ node_type.LHS_NODE_TYPE) = Except.ok l ∧
          evs = [traversal_event.on_operator element.op_family_ element.op_type_,
            traversal_event.before_expansion] ++ l ++ [traversal_event.after_expansion]) ∨
       (key.2 = node_type.PARENT_TYPE ∧
        element.op_family_ = operation_node_type_family.OPERATION_BINARY_TYPE_FAMILY ∧
        element.op_type_ = operation_node_type.OPERATION_BINARY_ACCESS ∧
        ((deep = false ∧ evs = [traversal_event.on_leaf key element]) ∨
         (deep = true ∧ ∃ r,
          traverse_events array deep n (get_new_key element.rhs_type_family_ key.1
            element.rhs_node_index_ node_type.RHS_NODE_TYPE) = Except.ok r ∧
          evs = traversal_event.on_leaf key element :: r))) ∨
       (key.2 = node_type.PARENT_TYPE ∧
        element.op_family_ = operation_node_type_family.OPERATION_BINARY_TYPE_FAMILY ∧
        (element.op_type_ = operation_node_type.OPERATION_BINARY_PROD_TYPE ∨
          element.op_type_ = operation_node_type.OPERATION_BINARY_INNER_PROD_TYPE) ∧
        ((deep = false ∧ evs = [traversal_event.on_leaf key element]) ∨
         (deep = true ∧ ∃ l r,
          traverse_events array deep n (get_new_key element.lhs_type_family_ key.1
            element.lhs_node_index_ node_type.LHS_NODE_TYPE) = Except.ok l ∧
          traverse_events array deep n (get_new_key element.rhs_type_family_ key.1
            element.rhs_node_index_ node_type.RHS_NODE_TYPE) = Except.ok r ∧
          evs = [traversal_event.on_leaf key element, traversal_event.before_expansion] ++ l
            ++ [traversal_event.on_operator element.op_family_ element.op_type_] ++ r ++
            [traversal_event.after_expansion]))) ∨
       (key.2 = node_type.PARENT_TYPE ∧
        element.op_family_ = operation_node_type_family.OPERATION_BINARY_TYPE_FAMILY ∧
        element.op_type_ ≠ operation_node_type.OPERATION_BINARY_ACCESS ∧
        element.op_type_ ≠ operation_node_type.OPERATION_BINARY_PROD_TYPE ∧
        element.op_type_ ≠ operation_node_type.OPERATION_BINARY_INNER_PROD_TYPE ∧
        ∃ l r,
          traverse_events array deep n (get_new_key element.lhs_type_family_ key.1
            element.lhs_node_index_ node_type.LHS_NODE_TYPE) = Except.ok l ∧
          traverse_events array deep n (get_new_key element.rhs_type_family_ key.1
            element.rhs_node_index_ node_type.RHS_NODE_TYPE) = Except.ok r ∧
          evs = [traversal_event.before_expansion] ++ l ++
            [traversal_event.on_operator element.op_family_ element.op_type_] ++ r ++
            [traversal_event.after_expansion]) ∨
       (key.2 = node_type.PARENT_TYPE ∧
        element.op_family_ ≠ operation_node_type_family.OPERATION_UNARY_TYPE_FAMILY ∧
        element.op_family_ ≠ operation_node_type_family.OPERATION_BINARY_TYPE_FAMILY ∧
        evs = [])) := by
  cases hnode : array[key.1]? with
  | none =>
    unfold traverse_events at h
    rw [traverse] at h
    simp [hnode] at h
  | some element =>
    refine ⟨element, rfl, ?_⟩
    by_cases hrole : key.2 = node_type.PARENT_TYPE
    · by_cases hunary :
          element.op_family_ = operation_node_type_family.OPERATION_UNARY_TYPE_FAMILY
      · exact Or.inr (Or.inl ⟨hrole, hunary,
          (traverse_events_unary_step array deep key element n hnode hrole hunary evs).mp h⟩)
      · by_cases hbinary :
            element.op_family_ = operation_node_type_family.OPERATION_BINARY_TYPE_FAMILY
        · by_cases haccess : element.op_type_ = operation_node_type.OPERATION_BINARY_ACCESS
          · exact Or.inr (Or.inr (Or.inl ⟨hrole, hbinary, haccess,
              (traverse_events_access_step array deep key element n hnode hrole hbinary
                haccess evs).mp h⟩))
          · by_cases hred :
                element.op_type_ = operation_node_type.OPERATION_BINARY_PROD_TYPE ∨
                element.op_type_ = operation_node_type.OPERATION_BINARY_INNER_PROD_TYPE
            · exact Or.inr (Or.inr (Or.inr (Or.inl ⟨hrole, hbinary, hred,
                (traverse_events_reducing_step array deep key element n hnode hrole hbinary
                  hred evs).mp h⟩)))
            · have hprod := fun hp => hred (Or.inl hp)
              have hinner := fun hp => hred (Or.inr hp)
              exact Or.inr (Or.inr (Or.inr (Or.inr (Or.inl ⟨hrole, hbinary, haccess, hprod,
                hinner, (traverse_events_binary_step array deep key element n hnode hrole
                  hbinary haccess hprod hinner evs).mp h⟩))))
        · exact Or.inr (Or.inr (Or.inr (Or.inr (Or.inr ⟨hrole, hunary, hbinary,
            (traverse_events_other_step array deep key element n hnode hrole hunary hbinary
              evs).mp h⟩))))
    · exact Or.inl ⟨hrole,
        (traverse_events_leaf_step array deep key element n hnode hrole evs).mp h⟩

theorem traverse_events_unique (array : List statement_node) (deep : Bool) (key : index_info)
    (n m : Nat) (evs evs' : List traversal_event)
    (h : traverse_events array deep n key = Except.ok evs)
    (h' : traverse_events array deep m key = Except.ok evs') : evs = evs' := by
  have h1 := traverse_events_mono array deep key evs n (max n m) (le_max_left n m) h
  have h2 := traverse_events_mono array deep key evs' m (max n m) (le_max_right n m) h'
  rw [h1] at h2
  exact Except.ok.inj h2

theorem replay_events_append_ok {σ : Type} (fun_ : TraversalFunctor σ)
    (array : List statement_node) (xs ys : List traversal_event) (s s' : σ) :
    replay_events fun_ array (xs ++ ys) s = Except.ok s' ↔
      ∃ a, replay_events fun_ array xs s = Except.ok a ∧
        replay_events fun_ array ys a = Except.ok s' := by
  rw [replay_events_append, except_bind_eq_ok]

end detail

/-! ## The emitted text as an expression -/

theorem replay_cons_ok {σ : Type} (fun_ : detail.TraversalFunctor σ)
    (array : List statement_node) (ev : detail.traversal_event)
    (evs : List detail.traversal_event) (s s' : σ) :
    detail.replay_events fun_ array (ev :: evs) s = Except.ok s' ↔
      ∃ a, detail.dispatch_event fun_ array ev s = Except.ok a ∧
        detail.replay_events fun_ array evs a = Except.ok s' := by
  simp only [detail.replay_events]
  exact detail.except_bind_eq_ok _ _ _

theorem replay_nil_ok {σ : Type} (fun_ : detail.TraversalFunctor σ)
    (array : List statement_node) (s s' : σ) :
    detail.replay_events fun_ array [] s = Except.ok s' ↔ s' = s := by
  simp [detail.replay_events, eq_comm]

theorem emission_leaf_ok (index_string_ : String) (mapping_ : mapping_type)
    (array : List statement_node) (key : index_info) (node : statement_node)
    (s a : kernel_generation_stream) :
    detail.dispatch_event (detail.expression_generation_traversal index_string_ mapping_)
        array (detail.traversal_event.on_leaf key node) s = Except.ok a ↔
      ∃ c, mapping_type.at mapping_ key = some c ∧ a = s.put (c.generate index_string_) := by
  simp only [detail.dispatch_event, detail.expression_generation_traversal]
  cases mapping_type.at mapping_ key with
  | none => simp
  | some c => simp [eq_comm]

theorem emission_op_ok (index_string_ : String) (mapping_ : mapping_type)
    (array : List statement_node) (family : operation_node_type_family)
    (type : operation_node_type) (s a : kernel_generation_stream) :
    detail.dispatch_event (detail.expression_generation_traversal index_string_ mapping_)
        array (detail.traversal_event.on_operator family type) s = Except.ok a ↔
      ∃ symbol, detail.generate type = some symbol ∧ a = s.put symbol := by
  simp only [detail.dispatch_event, detail.expression_generation_traversal]
  cases detail.generate type with
  | none => simp
  | some symbol => simp [eq_comm]

theorem emission_before_ok (index_string_ : String) (mapping_ : mapping_type)
    (array : List statement_node) (s a : kernel_generation_stream) :
    detail.dispatch_event (detail.expression_generation_traversal index_string_ mapping_)
        array detail.traversal_event.before_expansion s = Except.ok a ↔ a = s.put "(" := by
  simp [detail.dispatch_event, detail.expression_generation_traversal, eq_comm]

theorem emission_after_ok (index_string_ : String) (mapping_ : mapping_type)
    (array : List statement_node) (s a : kernel_generation_stream) :
    detail.dispatch_event (detail.expression_generation_traversal index_string_ mapping_)
        array detail.traversal_event.after_expansion s = Except.ok a ↔ a = s.put ")" := by
  simp [detail.dispatch_event, detail.expression_generation_traversal, eq_comm]

theorem emission_events_well_formed (atomic : String → Prop) (array : List statement_node)
    (mapping_ : mapping_type) (index_string_ : String) (deep : Bool)
    (hgraph : ∀ node ∈ array, well_formed_node node = true)
    (hno_access : ∀ node ∈ array,
      node.op_type_ ≠ operation_node_type.OPERATION_BINARY_ACCESS)
    (hatomic : ∀ key c, mapping_type.at mapping_ key = some c →
      atomic (c.generate index_string_)) :
    ∀ (fuel : Nat) (key : index_info) (evs : List detail.traversal_event),
      detail.traverse_events array deep fuel key = Except.ok evs →
      ∀ (s s' : kernel_generation_stream),
        detail.replay_events (detail.expression_generation_traversal index_string_ mapping_)
          array evs s = Except.ok s' →
        ∃ t, s' = s.put t ∧ well_formed_expression atomic t := by
  intro fuel
  induction fuel with
  | zero => intro key evs h; exact absurd h (detail.traverse_events_zero array deep key evs)
  | succ n ih =>
    intro key evs h s s' hrep
    obtain ⟨element, hnode, hcases⟩ := detail.traverse_events_inv array deep n key evs h
    have hmem : element ∈ array := List.getElem?_mem hnode
    have hwf := hgraph element hmem
    rcases hcases with ⟨_, rfl⟩ | ⟨_, hunary, l, hl, rfl⟩ | ⟨_, _, haccess, _⟩ |
      ⟨_, hbinary, hred, ⟨_, rfl⟩ | ⟨_, l, r, hl, hr, rfl⟩⟩ |
      ⟨_, hbinary, haccess, hprod, hinner, l, r, hl, hr, rfl⟩ | ⟨_, hunary, hbinary, _⟩
    · -- a leaf position
      obtain ⟨a, ha, hrest⟩ := (replay_cons_ok _ _ _ _ _ _).mp hrep
      obtain ⟨c, hc, rfl⟩ := (emission_leaf_ok _ _ _ _ _ _ _).mp ha
      rw [replay_nil_ok] at hrest
      exact ⟨_, hrest, well_formed_expression.leaf _ (hatomic key c hc)⟩
    · -- a unary node
      simp only [List.cons_append, List.nil_append] at hrep
      obtain ⟨a, ha, hrep⟩ := (replay_cons_ok _ _ _ _ _ _).mp hrep
      obtain ⟨symbol, hsym, rfl⟩ := (emission_op_ok _ _ _ _ _ _ _).mp ha
      obtain ⟨b, hb, hrep⟩ := (replay_cons_ok _ _ _ _ _ _).mp hrep
      rw [emission_before_ok] at hb
      subst hb
      obtain ⟨c, hc, hrep⟩ := (detail.replay_events_append_ok _ _ _ _ _ _).mp hrep
      obtain ⟨t, rfl, ht⟩ := ih _ l hl _ _ hc
      obtain ⟨d, hd, hrep⟩ := (replay_cons_ok _ _ _ _ _ _).mp hrep
      rw [emission_after_ok] at hd
      subst hd
      rw [replay_nil_ok] at hrep
      have hfn : symbol = "abs" := by
        cases htype : element.op_type_ <;>
          simp_all [well_formed_node, detail.generate]
      refine ⟨symbol ++ "(" ++ t ++ ")", ?_, well_formed_expression.unary _ _ hfn ht⟩
      rw [hrep]
      simp [kernel_generation_stream.put, String.append_assoc]
    · exact absurd haccess (hno_access element hmem)
    · -- a reducing node that is not expanded
      obtain ⟨a, ha, hrest⟩ := (replay_cons_ok _ _ _ _ _ _).mp hrep
      obtain ⟨c, hc, rfl⟩ := (emission_leaf_ok _ _ _ _ _ _ _).mp ha
      rw [replay_nil_ok] at hrest
      exact ⟨_, hrest, well_formed_expression.leaf _ (hatomic key c hc)⟩
    · -- a reducing node that is expanded: its operator has no symbol
      exfalso
      simp only [List.cons_append, List.nil_append, List.append_assoc] at hrep
      obtain ⟨a, _, hrep⟩ := (replay_cons_ok _ _ _ _ _ _).mp hrep
      obtain ⟨b, _, hrep⟩ := (replay_cons_ok _ _ _ _ _ _).mp hrep
      obtain ⟨c, _, hrep⟩ := (detail.replay_events_append_ok _ _ _ _ _ _).mp hrep
      obtain ⟨d, hd, _⟩ := (replay_cons_ok _ _ _ _ _ _).mp hrep
      obtain ⟨symbol, hsym, _⟩ := (emission_op_ok _ _ _ _ _ _ _).mp hd
      rcases hred with hred | hred <;> simp [hred, detail.generate] at hsym
    · -- an element-wise binary node
      simp only [List.cons_append, List.nil_append, List.append_assoc] at hrep
      obtain ⟨a, ha, hrep⟩ := (replay_cons_ok _ _ _ _ _ _).mp hrep
      rw [emission_before_ok] at ha
      subst ha
      obtain ⟨b, hb, hrep⟩ := (detail.replay_events_append_ok _ _ _ _ _ _).mp hrep
      obtain ⟨tl, rfl, htl⟩ := ih _ l hl _ _ hb
      obtain ⟨c, hc, hrep⟩ := (replay_cons_ok _ _ _ _ _ _).mp hrep
      obtain ⟨symbol, hsym, rfl⟩ := (emission_op_ok _ _ _ _ _ _ _).mp hc
      obtain ⟨d, hd, hrep⟩ := (detail.replay_events_append_ok _ _ _ _ _ _).mp hrep
      obtain ⟨tr, rfl, htr⟩ := ih _ r hr _ _ hd
      obtain ⟨e, he, hrep⟩ := (replay_cons_ok _ _ _ _ _ _).mp hrep
      rw [emission_after_ok] at he
      subst he
      rw [replay_nil_ok] at hrep
      have hop : symbol = "=" ∨ symbol = "+" := by
        cases htype : element.op_type_ <;>
          simp_all [well_formed_node, detail.generate]
      refine ⟨"(" ++ tl ++ symbol ++ tr ++ ")", ?_,
        well_formed_expression.binary _ _ _ htl hop htr⟩
      rw [hrep]
      simp [kernel_generation_stream.put, String.append_assoc]
    · -- a node outside both families is not well formed
      exfalso
      cases htype : element.op_type_ <;>
        simp_all [well_formed_node]

theorem count_char_append (c : Char) (a b : String) :
    count_char c (a ++ b) = count_char c a + count_char c b := by
  simp [count_char, String.data_append]

theorem well_formed_bracket_count (t : String)
    (h : well_formed_expression sample_atomic t) :
    count_char '[' t = count_char '=' t + count_char '+' t + 1 := by
  induction h with
  | leaf t ht =>
    rcases ht with rfl | rfl | rfl <;> decide
  | binary l op r _ hop _ ihl ihr =>
    have e1 : count_char '[' "(" = 0 := by decide
    have e2 : count_char '[' ")" = 0 := by decide
    have e3 : count_char '=' "(" = 0 := by decide
    have e4 : count_char '=' ")" = 0 := by decide
    have e5 : count_char '+' "(" = 0 := by decide
    have e6 : count_char '+' ")" = 0 := by decide
    rcases hop with rfl | rfl
    · have f1 : count_char '[' "=" = 0 := by decide
      have f2 : count_char '=' "=" = 1 := by decide
      have f3 : count_char '+' "=" = 0 := by decide
      simp only [count_char_append, e1, e2, e3, e4, e5, e6, f1, f2, f3]
      omega
    · have f1 : count_char '[' "+" = 0 := by decide
      have f2 : count_char '=' "+" = 0 := by decide
      have f3 : count_char '+' "+" = 1 := by decide
      simp only [count_char_append, e1, e2, e3, e4, e5, e6, f1, f2, f3]
      omega
  | unary fn e hfn _ ih =>
    subst hfn
    have e1 : count_char '[' "(" = 0 := by decide
    have e2 : count_char '[' ")" = 0 := by decide
    have e3 : count_char '=' "(" = 0 := by decide
    have e4 : count_char '=' ")" = 0 := by decide
    have e5 : count_char '+' "(" = 0 := by decide
    have e6 : count_char '+' ")" = 0 := by decide
    have f1 : count_char '[' "abs" = 0 := by decide
    have f2 : count_char '=' "abs" = 0 := by decide
    have f3 : count_char '+' "abs" = 0 := by decide
    simp only [count_char_append, e1, e2, e3, e4, e5, e6, f1, f2, f3]
    omega

/-- Counterexample to C15 as stated: the graph of `y = x[k]` is well formed, every
operand of its table has a valid atomic access text, and emission from the root with
`deep = true` completes, but the emitted text `(y[i]=x[i]k[i])` is not an expression of
the grammar: the text of the element-access node is followed directly by the text of
its index operand. -/
theorem valid_expression_counterexample :
    (∀ node ∈ sample_access_assign.array, well_formed_node node = true) ∧
    (∀ key c, mapping_type.at sample_access_mapping key = some c →
      sample_atomic (c.generate "i")) ∧
    detail.traverse sample_access_assign.array
        (detail.expression_generation_traversal "i" sample_access_mapping) true 3
        (0, node_type.PARENT_TYPE) empty_stream
      = Except.ok ⟨"(y[i]=x[i]k[i])", 0⟩ ∧
    ¬ well_formed_expression sample_atomic "(y[i]=x[i]k[i])" := by
  refine ⟨by decide, ?_, rfl, ?_⟩
  · intro key c h
    simp only [sample_access_mapping, mapping_type.at] at h
    split_ifs at h <;> simp only [Option.some.injEq, reduceCtorEq] at h <;> subst h
    · exact Or.inl rfl
    · exact Or.inl rfl
    · exact Or.inr (Or.inl rfl)
    · exact Or.inr (Or.inr rfl)
  · intro h
    have := well_formed_bracket_count _ h
    exact absurd this (by decide)

/-- C15 as amended: for every graph whose nodes are well formed and none of which is an
element-access node, and for every mapping table whose operands all have a valid atomic
access text, whenever emission (`traverse` with the code-emission visitor, from any key,
with either value of `deep`) completes, the text it appended is a well-formed expression
of the grammar `E ::= leaf | '(' E op E ')' | fn '(' E ')'`. -/
theorem emitted_text_well_formed (atomic : String → Prop) (array : List statement_node)
    (mapping_ : mapping_type) (index_string_ : String) (deep : Bool) (fuel : Nat)
    (key : index_info) (str_ str' : kernel_generation_stream)
    (hgraph : ∀ node ∈ array, well_formed_node node = true)
    (hno_access : ∀ node ∈ array,
      node.op_type_ ≠ operation_node_type.OPERATION_BINARY_ACCESS)
    (hatomic : ∀ key c, mapping_type.at mapping_ key = some c →
      atomic (c.generate index_string_))
    (hemit : detail.traverse array
      (detail.expression_generation_traversal index_string_ mapping_) deep fuel key str_
        = Except.ok str') :
    ∃ t, str'.text = str_.text ++ t ∧ well_formed_expression atomic t := by
  obtain ⟨evs, hevs, hrep⟩ := detail.traverse_events_of_ok _ _ _ _ _ _ _ hemit
  obtain ⟨t, rfl, ht⟩ := emission_events_well_formed atomic array mapping_ index_string_ deep
    hgraph hno_access hatomic fuel key evs hevs str_ str' hrep
  exact ⟨t, rfl, ht⟩

/-- Witness of C15 as amended: the text `(a[i]=(b[i]+c[i]))` emitted for `a = b + c` is
an expression of the grammar over the access texts of the three operands. -/
theorem emitted_text_well_formed_witness :
    detail.traverse sample_sum_assign.array
        (detail.expression_generation_traversal "i"
          (binary_assign_mapping (sample_vector "a") (sample_vector "b") (sample_vector "c")))
        true 3 (0, node_type.PARENT_TYPE) empty_stream
      = Except.ok ⟨"(a[i]=(b[i]+c[i]))", 0⟩ ∧
    ∃ t, ("(a[i]=(b[i]+c[i]))" : String) = "" ++ t ∧
      well_formed_expression (fun t => t = "a[i]" ∨ t = "b[i]" ∨ t = "c[i]") t := by
  refine ⟨rfl, ?_⟩
  refine emitted_text_well_formed (fun t => t = "a[i]" ∨ t = "b[i]" ∨ t = "c[i]")
    sample_sum_assign.array
    (binary_assign_mapping (sample_vector "a") (sample_vector "b") (sample_vector "c")) "i"
    true 3 (0, node_type.PARENT_TYPE) empty_stream ⟨"(a[i]=(b[i]+c[i]))", 0⟩
    (by decide) (by decide) ?_ rfl
  intro key c h
  simp only [binary_assign_mapping, mapping_type.at] at h
  split_ifs at h <;> simp only [Option.some.injEq, reduceCtorEq] at h <;> subst h
  · exact Or.inl rfl
  · exact Or.inl rfl
  · exact Or.inr (Or.inl rfl)
  · exact Or.inr (Or.inr rfl)

/-! ## Reducing operators under deep emission -/

theorem detail.reducing_leaf_is_expanded (array : List statement_node) :
    ∀ (fuel : Nat) (key : index_info) (evs : List detail.traversal_event),
      detail.traverse_events array true fuel key = Except.ok evs →
      ∀ (k : index_info) (node : statement_node),
        detail.traversal_event.on_leaf k node ∈ evs → k.2 = node_type.PARENT_TYPE →
        (node.op_type_ = operation_node_type.OPERATION_BINARY_PROD_TYPE ∨
          node.op_type_ = operation_node_type.OPERATION_BINARY_INNER_PROD_TYPE) →
        ∃ family, detail.traversal_event.on_operator family node.op_type_ ∈ evs := by
  intro fuel
  induction fuel with
  | zero => intro key evs h; exact absurd h (detail.traverse_events_zero array true key evs)
  | succ n ih =>
    intro key evs h k node hmem hk hred
    obtain ⟨element, hnode, hcases⟩ := detail.traverse_events_inv array true n key evs h
    rcases hcases with ⟨hrole, rfl⟩ | ⟨_, _, l, hl, rfl⟩ |
      ⟨_, _, haccess, ⟨hd, _⟩ | ⟨_, r, hr, rfl⟩⟩ |
      ⟨_, _, _, ⟨hd, _⟩ | ⟨_, l, r, hl, hr, rfl⟩⟩ |
      ⟨_, _, _, _, _, l, r, hl, hr, rfl⟩ | ⟨_, _, _, rfl⟩
    · simp only [List.mem_singleton, detail.traversal_event.on_leaf.injEq] at hmem
      exact absurd (hmem.1 ▸ hk) hrole
    · simp at hmem
      obtain ⟨family, hf⟩ := ih _ l hl k node hmem hk hred
      exact ⟨family, by simp [hf]⟩
    · exact absurd hd (by decide)
    · simp only [List.mem_cons, detail.traversal_event.on_leaf.injEq] at hmem
      rcases hmem with ⟨_, rfl⟩ | hmem
      · rcases hred with hred | hred <;> rw [haccess] at hred <;> cases hred
      · obtain ⟨family, hf⟩ := ih _ r hr k node hmem hk hred
        exact ⟨family, by simp [hf]⟩
    · exact absurd hd (by decide)
    · simp at hmem
      rcases hmem with ⟨_, rfl⟩ | hmem | hmem
      · exact ⟨node.op_family_, by simp⟩
      · obtain ⟨family, hf⟩ := ih _ l hl k node hmem hk hred
        exact ⟨family, by simp [hf]⟩
      · obtain ⟨family, hf⟩ := ih _ r hr k node hmem hk hred
        exact ⟨family, by simp [hf]⟩
    · simp at hmem
      rcases hmem with hmem | hmem
      · obtain ⟨family, hf⟩ := ih _ l hl k node hmem hk hred
        exact ⟨family, by simp [hf]⟩
      · obtain ⟨family, hf⟩ := ih _ r hr k node hmem hk hred
        exact ⟨family, by simp [hf]⟩
    · simp at hmem

theorem replay_cons_of_ok {σ : Type} (fun_ : detail.TraversalFunctor σ)
    (array : List statement_node) (ev : detail.traversal_event)
    (evs : List detail.traversal_event) (s a : σ)
    (h : detail.dispatch_event fun_ array ev s = Except.ok a) :
    detail.replay_events fun_ array (ev :: evs) s = detail.replay_events fun_ array evs a := by
  simp only [detail.replay_events, h, detail.except_ok_bind]

theorem replay_cons_of_error {σ : Type} (fun_ : detail.TraversalFunctor σ)
    (array : List statement_node) (ev : detail.traversal_event)
    (evs : List detail.traversal_event) (s : σ) (p : gen_error × σ)
    (h : detail.dispatch_event fun_ array ev s = Except.error p) :
    detail.replay_events fun_ array (ev :: evs) s = Except.error p := by
  simp only [detail.replay_events, h, detail.except_error_bind]

theorem emission_replay_not_implemented (index_string_ : String) (mapping_ : mapping_type)
    (array : List statement_node) :
    ∀ (evs : List detail.traversal_event) (s : kernel_generation_stream),
      (∃ family type, detail.generate type = none ∧
        detail.traversal_event.on_operator family type ∈ evs) →
      (∀ key ∈ visited_leaf_keys evs, mapping_type.at mapping_ key ≠ none) →
      ∃ sf, detail.replay_events
        (detail.expression_generation_traversal index_string_ mapping_) array evs s
          = Except.error (gen_error.not_implemented, sf) := by
  intro evs
  induction evs with
  | nil => intro s h; simp at h
  | cons ev evs ih =>
    intro s hbad hkeys
    obtain ⟨family, type, hgen, hmem⟩ := hbad
    cases ev with
    | on_leaf key node =>
      have hrest : detail.traversal_event.on_operator family type ∈ evs := by
        simpa using hmem
      cases hat : mapping_type.at mapping_ key with
      | none => exact absurd hat (hkeys key (by simp [visited_leaf_keys]))
      | some c =>
        obtain ⟨sf, hsf⟩ := ih (s.put (c.generate index_string_))
          ⟨family, type, hgen, hrest⟩
          (fun k hk => hkeys k (by simp [visited_leaf_keys, hk]))
        exact ⟨sf, by
          rw [replay_cons_of_ok _ _ _ _ _ _
            ((emission_leaf_ok _ _ _ _ _ _ _).mpr ⟨c, hat, rfl⟩), hsf]⟩
    | on_operator family' type' =>
      cases hg : detail.generate type' with
      | none =>
        refine ⟨s, replay_cons_of_error _ _ _ _ _ _ ?_⟩
        simp [detail.dispatch_event, detail.expression_generation_traversal, hg]
      | some symbol =>
        have hrest : detail.traversal_event.on_operator family type ∈ evs := by
          rcases List.mem_cons.mp hmem with heq | hmem
          · exfalso
            cases heq
            rw [hgen] at hg
            cases hg
          · exact hmem
        obtain ⟨sf, hsf⟩ := ih (s.put symbol) ⟨family, type, hgen, hrest⟩
          (fun k hk => hkeys k (by simp [visited_leaf_keys, hg, hk]))
        exact ⟨sf, by
          rw [replay_cons_of_ok _ _ _ _ _ _
            ((emission_op_ok _ _ _ _ _ _ _).mpr ⟨symbol, hg, rfl⟩), hsf]⟩
    | before_expansion =>
      have hrest : detail.traversal_event.on_operator family type ∈ evs := by
        simpa using hmem
      obtain ⟨sf, hsf⟩ := ih (s.put "(") ⟨family, type, hgen, hrest⟩
        (fun k hk => hkeys k (by simp [visited_leaf_keys, hk]))
      exact ⟨sf, by
        rw [replay_cons_of_ok _ _ _ _ _ _ ((emission_before_ok _ _ _ _ _).mpr rfl), hsf]⟩
    | after_expansion =>
      have hrest : detail.traversal_event.on_operator family type ∈ evs := by
        simpa using hmem
      obtain ⟨sf, hsf⟩ := ih (s.put ")") ⟨family, type, hgen, hrest⟩
        (fun k hk => hkeys k (by simp [visited_leaf_keys, hk]))
      exact ⟨sf, by
        rw [replay_cons_of_ok _ _ _ _ _ _ ((emission_after_ok _ _ _ _ _).mpr rfl), hsf]⟩

theorem emission_replay_never_ok (index_string_ : String) (mapping_ : mapping_type)
    (array : List statement_node) :
    ∀ (evs : List detail.traversal_event) (s s' : kernel_generation_stream),
      (∃ family type, detail.generate type = none ∧
        detail.traversal_event.on_operator family type ∈ evs) →
      detail.replay_events (detail.expression_generation_traversal index_string_ mapping_)
        array evs s ≠ Except.ok s' := by
  intro evs
  induction evs with
  | nil => intro s s' h; simp at h
  | cons ev evs ih =>
    intro s s' hbad hok
    obtain ⟨family, type, hgen, hmem⟩ := hbad
    obtain ⟨a, ha, hrest⟩ := (replay_cons_ok _ _ _ _ _ _).mp hok
    rcases List.mem_cons.mp hmem with heq | hmem
    · subst heq
      obtain ⟨symbol, hsym, _⟩ := (emission_op_ok _ _ _ _ _ _ _).mp ha
      rw [hgen] at hsym
      cases hsym
    · exact ih a s' ⟨family, type, hgen, hmem⟩ hrest

/-- C19: when the traversal of a graph from the key `key0` with `deep = true` returns
and visits a matrix-vector-product or inner-product node (it calls `on_leaf` on a
`PARENT_TYPE` key whose node has one of these operators), the code-emission traversal
never completes, whatever the recursion depth allowed; and when every leaf key that
emission visits is present in the mapping table, emission fails with the "not
implemented" signal. -/
theorem reduction_under_deep_emission (array : List statement_node)
    (mapping_ : mapping_type) (index_string_ : String) (key0 : index_info)
    (evs : List detail.traversal_event) (k : index_info) (node : statement_node)
    (hreturns : detail.Traverses array true key0 evs)
    (hvisits : detail.traversal_event.on_leaf k node ∈ evs)
    (hparent : k.2 = node_type.PARENT_TYPE)
    (hreducing : node.op_type_ = operation_node_type.OPERATION_BINARY_PROD_TYPE ∨
      node.op_type_ = operation_node_type.OPERATION_BINARY_INNER_PROD_TYPE) :
    (∀ (fuel : Nat) (str_ str' : kernel_generation_stream),
      detail.traverse array (detail.expression_generation_traversal index_string_ mapping_)
        true fuel key0 str_ ≠ Except.ok str') ∧
    ((∀ key ∈ visited_leaf_keys evs, mapping_type.at mapping_ key ≠ none) →
      ∃ fuel, ∀ str_ : kernel_generation_stream, ∃ sf,
        detail.traverse array (detail.expression_generation_traversal index_string_ mapping_)
          true fuel key0 str_ = Except.error (gen_error.not_implemented, sf)) := by
  obtain ⟨fuel0, h0⟩ := hreturns
  obtain ⟨family, hop⟩ :=
    detail.reducing_leaf_is_expanded array fuel0 key0 evs h0 k node hvisits hparent hreducing
  have hgen : detail.generate node.op_type_ = none := by
    rcases hreducing with h | h <;> rw [h] <;> rfl
  constructor
  · intro fuel str_ str' hok
    obtain ⟨evs', hevs', hrep⟩ := detail.traverse_events_of_ok _ _ _ _ _ _ _ hok
    have heq := detail.traverse_events_unique array true key0 fuel fuel0 evs' evs hevs' h0
    subst heq
    exact emission_replay_never_ok index_string_ mapping_ array evs' str_ str'
      ⟨family, node.op_type_, hgen, hop⟩ hrep
  · intro hkeys
    refine ⟨fuel0, fun str_ => ?_⟩
    obtain ⟨sf, hsf⟩ := emission_replay_not_implemented index_string_ mapping_ array evs str_
      ⟨family, node.op_type_, hgen, hop⟩ hkeys
    exact ⟨sf, by rw [detail.traverse_eq_replay _ _ _ _ _ _ _ h0, hsf]⟩

/-- Witness of C19: the deep traversal of `y = A * x` visits the product node at
`(1, PARENT_TYPE)`, all its leaf keys are mapped, and emission fails with "not
implemented". -/
theorem reduction_under_deep_emission_witness :
    (detail.traverse sample_prod_assign.array
        (detail.expression_generation_traversal "i" sample_prod_mapping) true 3
        (0, node_type.PARENT_TYPE) empty_stream
      = Except.error (gen_error.not_implemented, ⟨"(y[i]=Ax[i](A[i]", 0⟩)) ∧
    ∃ fuel, ∀ str_ : kernel_generation_stream, ∃ sf,
      detail.traverse sample_prod_assign.array
        (detail.expression_generation_traversal "i" sample_prod_mapping) true fuel
        (0, node_type.PARENT_TYPE) str_ = Except.error (gen_error.not_implemented, sf) := by
  refine ⟨rfl, (reduction_under_deep_emission sample_prod_assign.array sample_prod_mapping "i"
    (0, node_type.PARENT_TYPE)
    [detail.traversal_event.before_expansion,
     detail.traversal_event.on_leaf (0, node_type.LHS_NODE_TYPE)
      ⟨operation_node_type_family.OPERATION_BINARY_TYPE_FAMILY,
        operation_node_type.OPERATION_BINARY_ASSIGN_TYPE,
        statement_node_type_family.TERMINAL_TYPE_FAMILY 0, 0,
        statement_node_type_family.COMPOSITE_OPERATION_FAMILY, 1⟩,
     detail.traversal_event.on_operator operation_node_type_family.OPERATION_BINARY_TYPE_FAMILY
      operation_node_type.OPERATION_BINARY_ASSIGN_TYPE,
     detail.traversal_event.on_leaf (1, node_type.PARENT_TYPE)
      ⟨operation_node_type_family.OPERATION_BINARY_TYPE_FAMILY,
        operation_node_type.OPERATION_BINARY_PROD_TYPE,
        statement_node_type_family.TERMINAL_TYPE_FAMILY 0, 0,
        statement_node_type_family.TERMINAL_TYPE_FAMILY 0, 0⟩,
     detail.traversal_event.before_expansion,
     detail.traversal_event.on_leaf (1, node_type.LHS_NODE_TYPE)
      ⟨operation_node_type_family.OPERATION_BINARY_TYPE_FAMILY,
        operation_node_type.OPERATION_BINARY_PROD_TYPE,
        statement_node_type_family.TERMINAL_TYPE_FAMILY 0, 0,
        statement_node_type_family.TERMINAL_TYPE_FAMILY 0, 0⟩,
     detail.traversal_event.on_operator operation_node_type_family.OPERATION_BINARY_TYPE_FAMILY
      operation_node_type.OPERATION_BINARY_PROD_TYPE,
     detail.traversal_event.on_leaf (1, node_type.RHS_NODE_TYPE)
      ⟨operation_node_type_family.OPERATION_BINARY_TYPE_FAMILY,
        operation_node_type.OPERATION_BINARY_PROD_TYPE,
        statement_node_type_family.TERMINAL_TYPE_FAMILY 0, 0,
        statement_node_type_family.TERMINAL_TYPE_FAMILY 0, 0⟩,
     detail.traversal_event.after_expansion,
     detail.traversal_event.after_expansion]
    (1, node_type.PARENT_TYPE)
    ⟨operation_node_type_family.OPERATION_BINARY_TYPE_FAMILY,
      operation_node_type.OPERATION_BINARY_PROD_TYPE,
      statement_node_type_family.TERMINAL_TYPE_FAMILY 0, 0,
      statement_node_type_family.TERMINAL_TYPE_FAMILY 0, 0⟩
    ⟨3, rfl⟩ (by decide) rfl (Or.inl rfl)).2 ?_⟩
  intro key h
  simp [visited_leaf_keys, detail.generate] at h
  rcases h with rfl | rfl | rfl <;> simp [sample_prod_mapping, mapping_type.at]

/-! ## Profiles -/

/-- C26: `vector_saxpy::profile::set_local_sizes` returns `(group_size, 1)` and
`matrix_saxpy::profile::set_local_sizes` returns `(group_size1, group_size2)`, the
values given at construction, whatever the vectorization, the numbers of groups, the
decomposition flag and the values that the two arguments held before. -/
theorem set_local_sizes_shape :
    (∀ (v gs ng x y : Nat) (d : Bool),
      (vector_saxpy.profile.mk v gs ng d).set_local_sizes x y = (gs, 1)) ∧
    (∀ (v gs1 gs2 ng1 ng2 x y : Nat) (d : Bool),
      (matrix_saxpy.profile.mk v gs1 gs2 ng1 ng2 d).set_local_sizes x y = (gs1, gs2)) :=
  ⟨fun _ _ _ _ _ _ => rfl, fun _ _ _ _ _ _ _ _ => rfl⟩

/-- C27: the vector profile's `kernel_arguments` appends exactly `unsigned int N,` to
the argument string and the matrix profile's appends exactly
`unsigned int M,unsigned int N,`; the earlier content of the string stays in front; and
`generate_value_kernel_argument(t, n)` is `t`, one space, `n` and a comma. -/
theorem kernel_arguments_size_bounds :
    (∀ (p : vector_saxpy.profile) (arguments_string : String),
      p.kernel_arguments arguments_string = arguments_string ++ "unsigned int N,") ∧
    (∀ (p : matrix_saxpy.profile) (arguments_string : String),
      p.kernel_arguments arguments_string
        = arguments_string ++ "unsigned int M,unsigned int N,") ∧
    (∀ t n : String, detail.generate_value_kernel_argument t n = t ++ " " ++ n ++ ",") := by
  refine ⟨fun p a => ?_, fun p a => ?_, fun _ _ => rfl⟩
  · have h : detail.generate_value_kernel_argument "unsigned int" "N" = "unsigned int N," := by
      decide
    simp only [vector_saxpy.profile.kernel_arguments, h]
  · have h1 : detail.generate_value_kernel_argument "unsigned int" "M" = "unsigned int M," := by
      decide
    have h2 : detail.generate_value_kernel_argument "unsigned int" "N" = "unsigned int N," := by
      decide
    have h3 : ("unsigned int M," : String) ++ "unsigned int N,"
        = "unsigned int M,unsigned int N," := by decide
    simp only [matrix_saxpy.profile.kernel_arguments, h1, h2, String.append_assoc, h3]

/-! ## More on `fetch` and `get_new_key` -/

/-- C28: for a mapped handle `c` whose name is already in the fetched set, `fetch`
appends nothing to the stream and leaves the fetched set unchanged, and still sets the
access name of `c` to `<c.name>_private`; and for every handle, fetched or not, applying
`fetch` a second time to what the first application left changes neither the stream nor
the fetched set nor the handle. -/
theorem fetch_of_fetched (c : mapped_container) (index : String) (fetched : Finset String)
    (stream : kernel_generation_stream) :
    (c.name ∈ fetched →
      fetch c index fetched stream
        = ({ c with access_name := c.name ++ "_private" }, fetched, stream)) ∧
    fetch (fetch c index fetched stream).1 index (fetch c index fetched stream).2.1
        (fetch c index fetched stream).2.2
      = fetch c index fetched stream := by
  constructor
  · intro h
    simp [fetch_eq, h]
  · by_cases h : c.name ∈ fetched <;> simp [fetch_eq, h]

/-- Witness of C28: the vector `x`, already fetched, is not declared again, and gets its
register name. -/
theorem fetch_of_fetched_witness :
    (fetch (sample_vector "x") "i" {"x"} ⟨"float x_private = x[i];\n", 1⟩).2.2
        = ⟨"float x_private = x[i];\n", 1⟩ ∧
      (fetch (sample_vector "x") "i" {"x"} ⟨"float x_private = x[i];\n", 1⟩).2.1 = {"x"} ∧
      (fetch (sample_vector "x") "i" {"x"} ⟨"float x_private = x[i];\n", 1⟩).1.access_name
        = "x_private" := by
  have h := (fetch_of_fetched (sample_vector "x") "i" {"x"}
    ⟨"float x_private = x[i];\n", 1⟩).1 (by decide)
  rw [h]
  exact ⟨rfl, rfl, by decide⟩

/-- C29: `get_new_key(type_family, current_index, next_index, tag)` is
`(next_index, PARENT_TYPE)` when the type family of the child is the composite family,
and `(current_index, tag)` for every other family: an interior child is keyed by its own
index with the role `PARENT_TYPE`, a terminal child by the index of its parent and its
role. -/
theorem get_new_key_rule (current_index next_index : Nat) (tag : node_type) :
    detail.get_new_key statement_node_type_family.COMPOSITE_OPERATION_FAMILY current_index
        next_index tag = (next_index, node_type.PARENT_TYPE) ∧
    ∀ type_family, type_family ≠ statement_node_type_family.COMPOSITE_OPERATION_FAMILY →
      detail.get_new_key type_family current_index next_index tag = (current_index, tag) := by
  refine ⟨by simp [detail.get_new_key], fun type_family h => by simp [detail.get_new_key, h]⟩

/-- Witness of C29: a terminal right child of the node at index 3 has the key
`(3, RHS_NODE_TYPE)`, whatever the index field of the child holds. -/
theorem get_new_key_rule_witness :
    detail.get_new_key (statement_node_type_family.TERMINAL_TYPE_FAMILY 2) 3 7
        node_type.RHS_NODE_TYPE = (3, node_type.RHS_NODE_TYPE) ∧
      detail.get_new_key statement_node_type_family.COMPOSITE_OPERATION_FAMILY 3 7
        node_type.RHS_NODE_TYPE = (7, node_type.PARENT_TYPE) :=
  ⟨(get_new_key_rule 3 7 node_type.RHS_NODE_TYPE).2 _ (by decide),
   (get_new_key_rule 3 7 node_type.RHS_NODE_TYPE).1⟩

/-! ## Termination of the traversal -/

theorem detail.traverse_events_node_ok (array : List statement_node) (deep : Bool)
    (fuel : Nat) (key : index_info) (element : statement_node)
    (hnode : array[key.1]? = some element)
    (hleft : ∃ l, detail.traverse_events array deep fuel
        (detail.get_new_key element.lhs_type_family_ key.1 element.lhs_node_index_
          node_type.LHS_NODE_TYPE) = Except.ok l ∧
      ∀ k node, detail.traversal_event.on_leaf k node ∈ l → array[k.1]? = some node)
    (hright : ∃ r, detail.traverse_events array deep fuel
        (detail.get_new_key element.rhs_type_family_ key.1 element.rhs_node_index_
          node_type.RHS_NODE_TYPE) = Except.ok r ∧
      ∀ k node, detail.traversal_event.on_leaf k node ∈ r → array[k.1]? = some node) :
    ∃ evs, detail.traverse_events array deep (fuel + 1) key = Except.ok evs ∧
      ∀ k node, detail.traversal_event.on_leaf k node ∈ evs → array[k.1]? = some node := by
  obtain ⟨l, hl, hpl⟩ := hleft
  obtain ⟨r, hr, hpr⟩ := hright
  by_cases hrole : key.2 = node_type.PARENT_TYPE
  · by_cases hunary :
        element.op_family_ = operation_node_type_family.OPERATION_UNARY_TYPE_FAMILY
    · refine ⟨_, (detail.traverse_events_unary_step array deep key element fuel hnode hrole
        hunary _).mpr ⟨l, hl, rfl⟩, ?_⟩
      intro k node hmem
      simp at hmem
      exact hpl k node hmem
    · by_cases hbinary :
          element.op_family_ = operation_node_type_family.OPERATION_BINARY_TYPE_FAMILY
      · by_cases haccess : element.op_type_ = operation_node_type.OPERATION_BINARY_ACCESS
        · cases deep with
          | false =>
            refine ⟨_, (detail.traverse_events_access_step array false key element fuel hnode
              hrole hbinary haccess _).mpr (Or.inl ⟨rfl, rfl⟩), ?_⟩
            intro k node hmem
            simp at hmem
            obtain ⟨rfl, rfl⟩ := hmem
            exact hnode
          | true =>
            refine ⟨_, (detail.traverse_events_access_step array true key element fuel hnode
              hrole hbinary haccess _).mpr (Or.inr ⟨rfl, r, hr, rfl⟩), ?_⟩
            intro k node hmem
            simp at hmem
            rcases hmem with ⟨rfl, rfl⟩ | hmem
            · exact hnode
            · exact hpr k node hmem
        · by_cases hred :
              element.op_type_ = operation_node_type.OPERATION_BINARY_PROD_TYPE ∨
              element.op_type_ = operation_node_type.OPERATION_BINARY_INNER_PROD_TYPE
          · cases deep with
            | false =>
              refine ⟨_, (detail.traverse_events_reducing_step array false key element fuel
                hnode hrole hbinary hred _).mpr (Or.inl ⟨rfl, rfl⟩), ?_⟩
              intro k node hmem
              simp at hmem
              obtain ⟨rfl, rfl⟩ := hmem
              exact hnode
            | true =>
              refine ⟨_, (detail.traverse_events_reducing_step array true key element fuel
                hnode hrole hbinary hred _).mpr (Or.inr ⟨rfl, l, r, hl, hr, rfl⟩), ?_⟩
              intro k node hmem
              simp at hmem
              rcases hmem with ⟨rfl, rfl⟩ | hmem | hmem
              · exact hnode
              · exact hpl k node hmem
              · exact hpr k node hmem
          · have hprod := fun hp => hred (Or.inl hp)
            have hinner := fun hp => hred (Or.inr hp)
            refine ⟨_, (detail.traverse_events_binary_step array deep key element fuel hnode
              hrole hbinary haccess hprod hinner _).mpr ⟨l, r, hl, hr, rfl⟩, ?_⟩
            intro k node hmem
            simp at hmem
            rcases hmem with hmem | hmem
            · exact hpl k node hmem
            · exact hpr k node hmem
      · exact ⟨[], (detail.traverse_events_other_step array deep key element fuel hnode hrole
          hunary hbinary _).mpr rfl, by simp⟩
  · refine ⟨_, (detail.traverse_events_leaf_step array deep key element fuel hnode hrole
      _).mpr rfl, ?_⟩
    intro k node hmem
    simp at hmem
    obtain ⟨rfl, rfl⟩ := hmem
    exact hnode

theorem detail.traverse_events_ranked (array : List statement_node) (deep : Bool)
    (rank : Nat → Nat)
    (hgraph : ∀ index node, array[index]? = some node →
      (node.lhs_type_family_ = statement_node_type_family.COMPOSITE_OPERATION_FAMILY →
        node.lhs_node_index_ < array.length ∧ rank node.lhs_node_index_ < rank index) ∧
      (node.rhs_type_family_ = statement_node_type_family.COMPOSITE_OPERATION_FAMILY →
        node.rhs_node_index_ < array.length ∧ rank node.rhs_node_index_ < rank index)) :
    ∀ (n : Nat) (key : index_info), key.1 < array.length → rank key.1 < n →
      ∃ evs, detail.traverse_events array deep (n + 1) key = Except.ok evs ∧
        ∀ k node, detail.traversal_event.on_leaf k node ∈ evs → array[k.1]? = some node := by
  intro n
  induction n with
  | zero => intro key _ h; exact absurd h (Nat.not_lt_zero _)
  | succ n ih =>
    intro key hkey hrank
    obtain ⟨element, hnode⟩ : ∃ element, array[key.1]? = some element :=
      ⟨array[key.1], List.getElem?_eq_getElem hkey⟩
    have hchild : ∀ (family : statement_node_type_family) (child : Nat) (tag : node_type),
        tag ≠ node_type.PARENT_TYPE →
        (family = statement_node_type_family.COMPOSITE_OPERATION_FAMILY →
          child < array.length ∧ rank child < rank key.1) →
        ∃ l, detail.traverse_events array deep (n + 1)
            (detail.get_new_key family key.1 child tag) = Except.ok l ∧
          ∀ k node, detail.traversal_event.on_leaf k node ∈ l → array[k.1]? = some node := by
      intro family child tag htag hcomp
      by_cases hf : family = statement_node_type_family.COMPOSITE_OPERATION_FAMILY
      · obtain ⟨hlt, hr⟩ := hcomp hf
        have hkeyeq : detail.get_new_key family key.1 child tag
            = (child, node_type.PARENT_TYPE) := by simp [detail.get_new_key, hf]
        rw [hkeyeq]
        exact ih (child, node_type.PARENT_TYPE) hlt (by simp only; omega)
      · have hkeyeq : detail.get_new_key family key.1 child tag = (key.1, tag) := by
          simp [detail.get_new_key, hf]
        rw [hkeyeq]
        refine ⟨_, (detail.traverse_events_leaf_step array deep (key.1, tag) element n hnode
          htag _).mpr rfl, ?_⟩
        intro k node hmem
        simp at hmem
        obtain ⟨rfl, rfl⟩ := hmem
        exact hnode
    exact detail.traverse_events_node_ok array deep (n + 1) key element hnode
      (hchild _ _ _ (by decide) (hgraph key.1 element hnode).1)
      (hchild _ _ _ (by decide) (hgraph key.1 element hnode).2)

/-- C30: for every graph whose composite child references are in range and acyclic,
that is, decrease a rank of the node indices (for instance every composite child index
is greater than the index of its parent), `traverse` started at any key whose index is in
range returns for either value of `deep` within the recursion depth `rank + 2`: the
recorded traversal returns its events, every node passed to `on_leaf` is the node found
in the sequence at the index of its key, and with every visitor `traverse` is the delivery
of those events to the hooks, so that it ends with an error only when a hook throws. -/
theorem traverse_terminates (array : List statement_node) (deep : Bool) (rank : Nat → Nat)
    (key : index_info)
    (hgraph : ∀ index node, array[index]? = some node →
      (node.lhs_type_family_ = statement_node_type_family.COMPOSITE_OPERATION_FAMILY →
        node.lhs_node_index_ < array.length ∧ rank node.lhs_node_index_ < rank index) ∧
      (node.rhs_type_family_ = statement_node_type_family.COMPOSITE_OPERATION_FAMILY →
        node.rhs_node_index_ < array.length ∧ rank node.rhs_node_index_ < rank index))
    (hkey : key.1 < array.length) :
    ∃ evs, detail.traverse_events array deep (rank key.1 + 2) key = Except.ok evs ∧
      (∀ k node, detail.traversal_event.on_leaf k node ∈ evs → array[k.1]? = some node) ∧
      ∀ (σ : Type) (fun_ : detail.TraversalFunctor σ) (s : σ),
        detail.traverse array fun_ deep (rank key.1 + 2) key s
          = detail.replay_events fun_ array evs s := by
  obtain ⟨evs, hevs, hleaf⟩ :=
    detail.traverse_events_ranked array deep rank hgraph (rank key.1 + 1) key hkey
      (Nat.lt_succ_self _)
  exact ⟨evs, hevs, hleaf, fun σ fun_ s => detail.traverse_eq_replay array fun_ deep _ key evs s
    hevs⟩

/-- Witness of C30: in the graph of `a = b + c` the one composite child, at index 1, is
below node 0 for the rank `2 - index`; the traversal from the root returns. -/
theorem traverse_terminates_witness :
    ∃ evs, detail.traverse_events sample_sum_assign.array true ((2 - 0) + 2)
        (0, node_type.PARENT_TYPE) = Except.ok evs ∧
      (∀ k node, detail.traversal_event.on_leaf k node ∈ evs →
        sample_sum_assign.array[k.1]? = some node) ∧
      ∀ (σ : Type) (fun_ : detail.TraversalFunctor σ) (s : σ),
        detail.traverse sample_sum_assign.array fun_ true ((2 - 0) + 2)
            (0, node_type.PARENT_TYPE) s
          = detail.replay_events fun_ sample_sum_assign.array evs s := by
  refine traverse_terminates sample_sum_assign.array true (fun index => 2 - index)
    (0, node_type.PARENT_TYPE) ?_ (by decide)
  intro index node h
  match index, h with
  | 0, h =>
    simp only [sample_sum_assign, List.getElem?_cons_zero, Option.some.injEq] at h
    subst h
    exact ⟨fun hf => absurd hf (by decide), fun _ => ⟨by decide, by decide⟩⟩
  | 1, h =>
    simp only [sample_sum_assign, List.getElem?_cons_succ, List.getElem?_cons_zero,
      Option.some.injEq] at h
    subst h
    exact ⟨fun hf => absurd hf (by decide), fun hf => absurd hf (by decide)⟩
  | n + 2, h =>
    simp [sample_sum_assign] at h

/-! ## The emitted text does not depend on the buffer -/

theorem emission_hook_uniform (index_string_ : String) (mapping_ : mapping_type)
    (array : List statement_node) (ev : detail.traversal_event)
    (s a : kernel_generation_stream)
    (h : detail.dispatch_event (detail.expression_generation_traversal index_string_ mapping_)
      array ev s = Except.ok a) :
    ∃ x, a = s.put x ∧ ∀ s2 : kernel_generation_stream,
      detail.dispatch_event (detail.expression_generation_traversal index_string_ mapping_)
        array ev s2 = Except.ok (s2.put x) := by
  cases ev with
  | on_leaf key node =>
    obtain ⟨c, hc, rfl⟩ := (emission_leaf_ok _ _ _ _ _ _ _).mp h
    exact ⟨_, rfl, fun s2 => (emission_leaf_ok _ _ _ _ _ _ _).mpr ⟨c, hc, rfl⟩⟩
  | on_operator family type =>
    obtain ⟨symbol, hsym, rfl⟩ := (emission_op_ok _ _ _ _ _ _ _).mp h
    exact ⟨_, rfl, fun s2 => (emission_op_ok _ _ _ _ _ _ _).mpr ⟨symbol, hsym, rfl⟩⟩
  | before_expansion =>
    rw [emission_before_ok] at h
    exact ⟨_, h, fun s2 => (emission_before_ok _ _ _ _ _).mpr rfl⟩
  | after_expansion =>
    rw [emission_after_ok] at h
    exact ⟨_, h, fun s2 => (emission_after_ok _ _ _ _ _).mpr rfl⟩

theorem emission_replay_uniform (index_string_ : String) (mapping_ : mapping_type)
    (array : List statement_node) :
    ∀ (evs : List detail.traversal_event) (s s' : kernel_generation_stream),
      detail.replay_events (detail.expression_generation_traversal index_string_ mapping_)
        array evs s = Except.ok s' →
      ∃ t, s' = s.put t ∧ ∀ s2 : kernel_generation_stream,
        detail.replay_events (detail.expression_generation_traversal index_string_ mapping_)
          array evs s2 = Except.ok (s2.put t) := by
  intro evs
  induction evs with
  | nil =>
    intro s s' h
    rw [replay_nil_ok] at h
    exact ⟨"", by rw [h, put_empty], fun s2 => by rw [put_empty]; rfl⟩
  | cons ev evs ih =>
    intro s s' h
    obtain ⟨a, ha, hrest⟩ := (replay_cons_ok _ _ _ _ _ _).mp h
    obtain ⟨x, rfl, hx⟩ := emission_hook_uniform index_string_ mapping_ array ev s a ha
    obtain ⟨y, rfl, hy⟩ := ih _ _ hrest
    refine ⟨x ++ y, put_put s x y, fun s2 => ?_⟩
    rw [replay_cons_of_ok _ _ _ _ _ _ (hx s2), hy (s2.put x), put_put]

theorem emission_uniform (index_string_ : String) (mapping_ : mapping_type)
    (array : List statement_node) (deep : Bool) (fuel : Nat) (key : index_info)
    (s s' : kernel_generation_stream)
    (h : detail.traverse array (detail.expression_generation_traversal index_string_ mapping_)
      deep fuel key s = Except.ok s') :
    ∃ t, s' = s.put t ∧
      ∀ (fuel2 : Nat) (s2 s2' : kernel_generation_stream),
        (detail.traverse array
          (detail.expression_generation_traversal index_string_ mapping_) deep fuel key s2
            = Except.ok (s2.put t)) ∧
        (detail.traverse array
          (detail.expression_generation_traversal index_string_ mapping_) deep fuel2 key s2
            = Except.ok s2' → s2' = s2.put t) := by
  obtain ⟨evs, hevs, hrep⟩ := detail.traverse_events_of_ok _ _ _ _ _ _ _ h
  obtain ⟨t, rfl, ht⟩ := emission_replay_uniform index_string_ mapping_ array evs s s' hrep
  refine ⟨t, rfl, fun fuel2 s2 s2' => ⟨?_, fun h2 => ?_⟩⟩
  · rw [detail.traverse_eq_replay _ _ _ _ _ _ _ hevs]
    exact ht s2
  · obtain ⟨evs2, hevs2, hrep2⟩ := detail.traverse_events_of_ok _ _ _ _ _ _ _ h2
    have heq := detail.traverse_events_unique array deep key fuel2 fuel evs2 evs hevs2 hevs
    subst heq
    rw [ht s2] at hrep2
    exact (Except.ok.inj hrep2).symm

/-- The text of a batch of emitted statements: every statement text with its
terminator. -/
theorem emit_statements_texts (fuel : Nat) (mapping_ : List mapping_type) :
    ∀ (statements_ : List statement) (i : Nat) (s s' : kernel_generation_stream),
      emit_statements fuel mapping_ statements_ i s = Except.ok s' →
      ∃ texts : List String,
        texts.length = statements_.length ∧
        s' = s.put (concat_lines (texts.map fun t => t ++ ";" ++ "\n")) ∧
        ∀ (j : Nat) (it : statement) (t : String),
          statements_[j]? = some it → texts[j]? = some t →
          ∃ m, mapping_[i + j]? = some m ∧
            ∀ (fuel2 : Nat) (s2 s2' : kernel_generation_stream),
              (detail.traverse it.array (detail.expression_generation_traversal "" m) true
                fuel (0, node_type.PARENT_TYPE) s2 = Except.ok (s2.put t)) ∧
              (detail.traverse it.array (detail.expression_generation_traversal "" m) true
                fuel2 (0, node_type.PARENT_TYPE) s2 = Except.ok s2' → s2' = s2.put t) := by
  intro statements_
  induction statements_ with
  | nil =>
    intro i s s' h
    refine ⟨[], rfl, ?_, ?_⟩
    · simp only [emit_statements, Except.ok.injEq] at h
      simp [concat_lines, put_empty, h]
    · intro j it t hj; simp at hj
  | cons it rest ih =>
    intro i s s' h
    simp only [emit_statements] at h
    cases hm : mapping_[i]? with
    | none => simp [hm] at h
    | some m =>
      simp only [hm] at h
      obtain ⟨a, ha, hb⟩ := (detail.except_bind_eq_ok _ _ _).mp h
      obtain ⟨t, rfl, ht⟩ := emission_uniform "" m it.array true fuel
        (0, node_type.PARENT_TYPE) s a ha
      obtain ⟨texts, hlen, hs', hall⟩ := ih (i + 1) _ s' hb
      refine ⟨t :: texts, by simp [hlen], ?_, ?_⟩
      · rw [hs']
        simp [concat_lines, kernel_generation_stream.put, kernel_generation_stream.endl,
          String.append_assoc]
      · intro j it' t' hj ht'
        cases j with
        | zero =>
          simp only [List.getElem?_cons_zero, Option.some.injEq] at hj ht'
          subst hj ht'
          exact ⟨m, by simpa using hm, ht⟩
        | succ j =>
          simp only [List.getElem?_cons_succ] at hj ht'
          obtain ⟨m', hm', hrest⟩ := hall j it' t' hj ht'
          exact ⟨m', by rw [← hm']; congr 1; omega, hrest⟩

/-! ## The passes do not depend on the buffer -/

theorem fetch_table_uniform (cast : mapped_container → Option String) :
    ∀ (m : mapping_type) (fetched : Finset String),
      ∃ (t : String) (fetched2 : Finset String), ∀ stream : kernel_generation_stream,
        (fetch_table cast m fetched stream).2 = (fetched2, stream.put t) := by
  intro m
  induction m with
  | nil => intro fetched; exact ⟨"", fetched, fun stream => by simp [fetch_table, put_empty]⟩
  | cons e rest ih =>
    intro fetched
    obtain ⟨t, fetched2, h⟩ := ih fetched
    cases hc : cast e.2 with
    | none => exact ⟨t, fetched2, fun stream => by simp [fetch_table, hc, h]⟩
    | some index =>
      by_cases hin : e.2.name ∈ fetched2
      · exact ⟨t, fetched2, fun stream => by simp [fetch_table, hc, fetch_eq, h, hin]⟩
      · exact ⟨t ++ register_line e.2 index, insert e.2.name fetched2, fun stream => by
          simp [fetch_table, hc, fetch_eq, h, hin, put_put]⟩

theorem fetch_pass_uniform (cast : mapped_container → Option String) :
    ∀ (ms : List mapping_type) (fetched : Finset String),
      ∃ (t : String) (fetched2 : Finset String), ∀ stream : kernel_generation_stream,
        (fetch_pass cast ms fetched stream).2 = (fetched2, stream.put t) := by
  intro ms
  induction ms with
  | nil => intro fetched; exact ⟨"", fetched, fun stream => by simp [fetch_pass, put_empty]⟩
  | cons m ms ih =>
    intro fetched
    obtain ⟨t1, f1, h1⟩ := fetch_table_uniform cast m fetched
    obtain ⟨t2, f2, h2⟩ := ih f1
    refine ⟨t1 ++ t2, f2, fun stream => ?_⟩
    have e1 : (fetch_table cast m fetched stream).2.1 = f1 := by rw [h1]
    have e2 : (fetch_table cast m fetched stream).2.2 = stream.put t1 := by rw [h1]
    simp only [fetch_pass, e1, e2]
    rw [show ((fetch_pass cast ms f1 (stream.put t1)).2.1,
        (fetch_pass cast ms f1 (stream.put t1)).2.2) = (fetch_pass cast ms f1 (stream.put t1)).2
        from rfl, h2, put_put]

theorem write_back_pass_uniform (cast : mapped_container → Option String) :
    ∀ (ms : List mapping_type) (fetched : Finset String) (stream : kernel_generation_stream)
      (w : List mapping_type × Finset String × kernel_generation_stream),
      write_back_pass cast ms fetched stream = Except.ok w →
      w.1 = ms.map (written_back cast) ∧
      ∃ t, w.2.2 = stream.put t ∧ ∀ stream2 : kernel_generation_stream,
        write_back_pass cast ms fetched stream2 = Except.ok (w.1, w.2.1, stream2.put t) := by
  intro ms
  induction ms with
  | nil =>
    intro fetched stream w h
    simp only [write_back_pass, Except.ok.injEq] at h
    subst h
    exact ⟨rfl, "", by simp [put_empty], fun stream2 => by simp [write_back_pass, put_empty]⟩
  | cons m ms ih =>
    intro fetched stream w h
    cases hat : mapping_type.at m (0, node_type.LHS_LEAF_TYPE) with
    | none => simp [write_back_pass, hat] at h
    | some c =>
      cases hc : cast c with
      | none =>
        simp only [write_back_pass, hat, hc] at h
        obtain ⟨r, hr, hw⟩ := (detail.except_bind_eq_ok _ _ _).mp h
        simp only [detail.except_pure, Except.ok.injEq] at hw
        subst hw
        obtain ⟨hmap, t, ht, hall⟩ := ih fetched stream r hr
        refine ⟨by simp [written_back, hat, hc, hmap], t, ht, fun stream2 => ?_⟩
        simp only [write_back_pass, hat, hc, hall stream2, detail.except_ok_bind,
          detail.except_pure]
      | some index =>
        simp only [write_back_pass, hat, hc] at h
        obtain ⟨r, hr, hw⟩ := (detail.except_bind_eq_ok _ _ _).mp h
        simp only [detail.except_pure, Except.ok.injEq] at hw
        subst hw
        rw [write_back_eq] at hr
        obtain ⟨hmap, t, ht, hall⟩ := ih _ _ r hr
        by_cases hin : c.name ∈ fetched
        · simp only [hin, if_true] at ht hall
          refine ⟨by simp [written_back, hat, hc, hmap, write_back_eq],
            write_back_line c index ++ t, by rw [ht, put_put], fun stream2 => ?_⟩
          simp only [write_back_pass, hat, hc, write_back_eq, hin, if_true, hall,
            detail.except_ok_bind, detail.except_pure, put_put]
        · simp only [hin, if_false] at ht hall
          refine ⟨by simp [written_back, hat, hc, hmap, write_back_eq], t, ht,
            fun stream2 => ?_⟩
          simp only [write_back_pass, hat, hc, write_back_eq, hin, if_false, hall,
            detail.except_ok_bind, detail.except_pure]

/-! ## The structure of a kernel body -/

theorem matrix_cast_fetched_operand (c : mapped_container) :
    matrix_saxpy.matrix_cast (fetched_operand matrix_saxpy.matrix_cast c)
      = matrix_saxpy.matrix_cast c := by
  unfold fetched_operand
  cases h : matrix_saxpy.matrix_cast c with
  | none => simp [h]
  | some index =>
    simp only
    simpa [matrix_saxpy.matrix_cast, matrix_saxpy.get_offset,
      mapped_container.is_mapped_matrix, mapped_container.is_row_major] using h

theorem matrix_core_ok (statements_ : List statement) (mapping_ : List mapping_type)
    (fuel : Nat) (stream : kernel_generation_stream)
    (out : List mapping_type × kernel_generation_stream)
    (hcore : matrix_saxpy.core statements_ mapping_ fuel stream = Except.ok out) :
    ∃ s1 w,
      emit_statements fuel
          (fetch_pass matrix_saxpy.matrix_cast mapping_ ∅ (matrix_saxpy.body_stream stream)).1
          statements_ 0
          (fetch_pass matrix_saxpy.matrix_cast mapping_ ∅ (matrix_saxpy.body_stream stream)).2.2
        = Except.ok s1 ∧
      write_back_pass matrix_saxpy.matrix_cast
          (fetch_pass matrix_saxpy.matrix_cast mapping_ ∅ (matrix_saxpy.body_stream stream)).1
          (fetch_pass matrix_saxpy.matrix_cast mapping_ ∅ (matrix_saxpy.body_stream stream)).2.1
          s1
        = Except.ok w ∧
      out = (w.1, (((w.2.2.dec_tab.put "\x7d").endl).dec_tab.put "\x7d").endl) := by
  unfold matrix_saxpy.core at hcore
  simp only [] at hcore
  obtain ⟨s1, hs1, hrest⟩ := (detail.except_bind_eq_ok _ _ _).mp hcore
  obtain ⟨w, hw, hout⟩ := (detail.except_bind_eq_ok _ _ _).mp hrest
  refine ⟨s1, w, hs1, hw, ?_⟩
  simpa [detail.except_pure, eq_comm] using hout

theorem body_structure (cast : mapped_container → Option String)
    (hcast : ∀ c, cast (fetched_operand cast c) = cast c)
    (statements_ : List statement) (mapping_ : List mapping_type) (fuel : Nat)
    (s0 s1 : kernel_generation_stream)
    (w : List mapping_type × Finset String × kernel_generation_stream)
    (hemit : emit_statements fuel (fetch_pass cast mapping_ ∅ s0).1 statements_ 0
      (fetch_pass cast mapping_ ∅ s0).2.2 = Except.ok s1)
    (hwb : write_back_pass cast (fetch_pass cast mapping_ ∅ s0).1
      (fetch_pass cast mapping_ ∅ s0).2.1 s1 = Except.ok w) :
    ∃ (decls : List (mapped_container × String)) (texts : List String)
      (wbs : List (mapped_container × String)),
      w.2.2 = s0.put (concat_lines (decls.map fun d => register_line d.1 d.2)
          ++ concat_lines (texts.map fun t => t ++ ";" ++ "\n")
          ++ concat_lines (wbs.map fun d => write_back_line d.1 d.2)) ∧
      (∀ d ∈ decls, ∃ m ∈ mapping_, ∃ e ∈ m, e.2 = d.1 ∧ cast e.2 = some d.2) ∧
      (∀ m ∈ mapping_, ∀ e ∈ m, (cast e.2).isSome = true →
        (decls.map fun d => d.1.name).count e.2.name = 1) ∧
      texts.length = statements_.length ∧
      (∀ (j : Nat) (it : statement) (t : String),
        statements_[j]? = some it → texts[j]? = some t →
        ∃ m, mapping_[j]? = some m ∧ ∀ s2 : kernel_generation_stream,
          detail.traverse it.array
            (detail.expression_generation_traversal ""
              (m.map fun e => (e.1, fetched_operand cast e.2)))
            true fuel (0, node_type.PARENT_TYPE) s2 = Except.ok (s2.put t)) ∧
      (∀ d ∈ wbs, ∃ m ∈ mapping_, ∃ c,
        mapping_type.at m (0, node_type.LHS_LEAF_TYPE) = some c ∧ cast c = some d.2 ∧
          d.1 = fetched_operand cast c) := by
  obtain ⟨decls, hdtext, hdmem, hdnodup, hdset, hdnames⟩ := fetch_pass_spec cast mapping_ ∅ s0
  obtain ⟨texts, hlen, hs1, hall⟩ := emit_statements_texts fuel _ statements_ 0 _ s1 hemit
  obtain ⟨wbs, hwtext, hwmem, _, _⟩ :=
    write_back_pass_spec cast (fetch_pass cast mapping_ ∅ s0).1
      (fetch_pass cast mapping_ ∅ s0).2.1 s1
  rw [hwb] at hwtext
  simp only [final_stream] at hwtext
  refine ⟨decls, texts, wbs, ?_, fun d hd => (hdmem d hd).2, ?_, hlen, ?_, ?_⟩
  · rw [hwtext, hs1, hdtext, put_put, put_put, String.append_assoc]
  · intro m hm e he hsome
    have hin : e.2.name ∈ (fetch_pass cast mapping_ ∅ s0).2.1 :=
      (hdnames _).mpr (Or.inr ⟨m, hm, e, he, hsome, rfl⟩)
    rcases (hdset _).mp hin with h | h
    · simp at h
    · exact List.count_eq_one_of_mem hdnodup h
  · intro j it t hj ht
    obtain ⟨m', hm', htr⟩ := hall j it t hj ht
    rw [fetch_pass_mapping, Nat.zero_add, List.getElem?_map] at hm'
    cases hm : mapping_[j]? with
    | none => simp [hm] at hm'
    | some m =>
      simp only [hm, Option.map_some', Option.some.injEq] at hm'
      subst hm'
      exact ⟨m, rfl, fun s2 => (htr 0 s2 s2).1⟩
  · intro d hd
    obtain ⟨_, m', hm', hat, hc⟩ := hwmem d hd
    rw [fetch_pass_mapping] at hm'
    obtain ⟨m, hm, rfl⟩ := List.mem_map.mp hm'
    rw [at_map] at hat
    cases hc0 : mapping_type.at m (0, node_type.LHS_LEAF_TYPE) with
    | none => simp [hc0] at hat
    | some c =>
      simp only [hc0, Option.map_some', Option.some.injEq] at hat
      refine ⟨m, hm, c, hc0, ?_, hat.symm⟩
      rw [← hat, hcast] at hc
      exact hc

theorem vector_body_structure (statements_ : List statement)
    (mapping_ : List mapping_type) (fuel : Nat) (stream : kernel_generation_stream)
    (out : List mapping_type × kernel_generation_stream)
    (hcore : vector_saxpy.core statements_ mapping_ fuel stream = Except.ok out) :
    ∃ (decls : List (mapped_container × String)) (texts : List String)
      (wbs : List (mapped_container × String)),
      out.2.text = stream.text
          ++ "for(unsigned int i = get_global_id(0) ; i < N ; i += get_global_size(0))"
          ++ "\n" ++ "\x7b" ++ "\n"
          ++ concat_lines (decls.map fun d => register_line d.1 d.2)
          ++ concat_lines (texts.map fun t => t ++ ";" ++ "\n")
          ++ concat_lines (wbs.map fun d => write_back_line d.1 d.2)
          ++ "\x7d" ++ "\n" ∧
      out.2.tab_count = stream.tab_count ∧
      (∀ d ∈ decls, ∃ m ∈ mapping_, ∃ e ∈ m,
        e.2 = d.1 ∧ vector_saxpy.handle_cast e.2 = some d.2) ∧
      (∀ m ∈ mapping_, ∀ e ∈ m, e.2.is_mapped_handle = true →
        (decls.map fun d => d.1.name).count e.2.name = 1) ∧
      texts.length = statements_.length ∧
      (∀ (j : Nat) (it : statement) (t : String),
        statements_[j]? = some it → texts[j]? = some t →
        ∃ m, mapping_[j]? = some m ∧ ∀ s2 : kernel_generation_stream,
          detail.traverse it.array
            (detail.expression_generation_traversal ""
              (m.map fun e => (e.1, fetched_operand vector_saxpy.handle_cast e.2)))
            true fuel (0, node_type.PARENT_TYPE) s2 = Except.ok (s2.put t)) ∧
      (∀ d ∈ wbs, ∃ m ∈ mapping_, ∃ c,
        mapping_type.at m (0, node_type.LHS_LEAF_TYPE) = some c ∧
          vector_saxpy.handle_cast c = some d.2 ∧
          d.1 = fetched_operand vector_saxpy.handle_cast c) := by
  obtain ⟨s1, w, hemit, hwb, rfl⟩ := vector_core_ok _ _ _ _ _ hcore
  obtain ⟨decls, texts, wbs, htext, hd, hdall, hlen, ht, hw⟩ :=
    body_structure vector_saxpy.handle_cast handle_cast_fetched_operand statements_ mapping_
      fuel _ s1 w hemit hwb
  refine ⟨decls, texts, wbs, ?_, ?_, hd, ?_, hlen, ht, hw⟩
  · simp only [htext, vector_saxpy.body_stream, kernel_generation_stream.put,
      kernel_generation_stream.endl, kernel_generation_stream.inc_tab,
      kernel_generation_stream.dec_tab, String.append_assoc]
  · simp only [htext, vector_saxpy.body_stream, kernel_generation_stream.put,
      kernel_generation_stream.endl, kernel_generation_stream.inc_tab,
      kernel_generation_stream.dec_tab, Nat.add_sub_cancel]
  · intro m hm e he hh
    exact hdall m hm e he (by simp [vector_saxpy.handle_cast, hh])

theorem matrix_body_structure (statements_ : List statement)
    (mapping_ : List mapping_type) (fuel : Nat) (stream : kernel_generation_stream)
    (out : List mapping_type × kernel_generation_stream)
    (hcore : matrix_saxpy.core statements_ mapping_ fuel stream = Except.ok out) :
    ∃ (decls : List (mapped_container × String)) (texts : List String)
      (wbs : List (mapped_container × String)),
      out.2.text = stream.text
          ++ "for(unsigned int i = get_global_id(0) ; i < M ; i += get_global_size(0))"
          ++ "\n" ++ "\x7b" ++ "\n"
          ++ "for(unsigned int j = get_global_id(1) ; j < N ; j += get_global_size(1))"
          ++ "\n" ++ "\x7b" ++ "\n"
          ++ concat_lines (decls.map fun d => register_line d.1 d.2)
          ++ concat_lines (texts.map fun t => t ++ ";" ++ "\n")
          ++ concat_lines (wbs.map fun d => write_back_line d.1 d.2)
          ++ "\x7d" ++ "\n" ++ "\x7d" ++ "\n" ∧
      out.2.tab_count = stream.tab_count ∧
      (∀ d ∈ decls, ∃ m ∈ mapping_, ∃ e ∈ m,
        e.2 = d.1 ∧ matrix_saxpy.matrix_cast e.2 = some d.2) ∧
      (∀ m ∈ mapping_, ∀ e ∈ m, e.2.is_mapped_matrix = true →
        (decls.map fun d => d.1.name).count e.2.name = 1) ∧
      texts.length = statements_.length ∧
      (∀ (j : Nat) (it : statement) (t : String),
        statements_[j]? = some it → texts[j]? = some t →
        ∃ m, mapping_[j]? = some m ∧ ∀ s2 : kernel_generation_stream,
          detail.traverse it.array
            (detail.expression_generation_traversal ""
              (m.map fun e => (e.1, fetched_operand matrix_saxpy.matrix_cast e.2)))
            true fuel (0, node_type.PARENT_TYPE) s2 = Except.ok (s2.put t)) ∧
      (∀ d ∈ wbs, ∃ m ∈ mapping_, ∃ c,
        mapping_type.at m (0, node_type.LHS_LEAF_TYPE) = some c ∧
          matrix_saxpy.matrix_cast c = some d.2 ∧
          d.1 = fetched_operand matrix_saxpy.matrix_cast c) := by
  obtain ⟨s1, w, hemit, hwb, rfl⟩ := matrix_core_ok _ _ _ _ _ hcore
  obtain ⟨decls, texts, wbs, htext, hd, hdall, hlen, ht, hw⟩ :=
    body_structure matrix_saxpy.matrix_cast matrix_cast_fetched_operand statements_ mapping_
      fuel _ s1 w hemit hwb
  refine ⟨decls, texts, wbs, ?_, ?_, hd, ?_, hlen, ht, hw⟩
  · simp only [htext, matrix_saxpy.body_stream, kernel_generation_stream.put,
      kernel_generation_stream.endl, kernel_generation_stream.inc_tab,
      kernel_generation_stream.dec_tab, String.append_assoc]
  · simp only [htext, matrix_saxpy.body_stream, kernel_generation_stream.put,
      kernel_generation_stream.endl, kernel_generation_stream.inc_tab,
      kernel_generation_stream.dec_tab, Nat.add_sub_cancel]
  · intro m hm e he hh
    exact hdall m hm e he (by simp [matrix_saxpy.matrix_cast, hh])

/-! ## Batches for which the templates return -/

theorem emission_replay_returns (index_string_ : String) (mapping_ : mapping_type)
    (array : List statement_node) :
    ∀ (evs : List detail.traversal_event),
      (evs.all fun ev =>
        match ev with
        | .on_leaf key _ => (mapping_type.at mapping_ key).isSome
        | .on_operator _ type => (detail.generate type).isSome
        | _ => true) = true →
      ∀ s : kernel_generation_stream, ∃ s',
        detail.replay_events (detail.expression_generation_traversal index_string_ mapping_)
          array evs s = Except.ok s' := by
  intro evs
  induction evs with
  | nil => intro _ s; exact ⟨s, rfl⟩
  | cons ev evs ih =>
    intro h s
    simp only [List.all_cons, Bool.and_eq_true] at h
    have hstep : ∃ a, detail.dispatch_event
        (detail.expression_generation_traversal index_string_ mapping_) array ev s
          = Except.ok a := by
      cases ev with
      | on_leaf key node =>
        obtain ⟨c, hc⟩ := Option.isSome_iff_exists.mp h.1
        exact ⟨_, (emission_leaf_ok _ _ _ _ _ _ _).mpr ⟨c, hc, rfl⟩⟩
      | on_operator family type =>
        obtain ⟨symbol, hsym⟩ := Option.isSome_iff_exists.mp h.1
        exact ⟨_, (emission_op_ok _ _ _ _ _ _ _).mpr ⟨symbol, hsym, rfl⟩⟩
      | before_expansion => exact ⟨_, (emission_before_ok _ _ _ _ _).mpr rfl⟩
      | after_expansion => exact ⟨_, (emission_after_ok _ _ _ _ _).mpr rfl⟩
    obtain ⟨a, ha⟩ := hstep
    obtain ⟨s', hs'⟩ := ih h.2 a
    exact ⟨s', by rw [replay_cons_of_ok _ _ _ _ _ _ ha, hs']⟩

theorem emittable_map (g : mapped_container → mapped_container) (fuel : Nat)
    (it : statement) (m : mapping_type) :
    emittable fuel it (m.map fun e => (e.1, g e.2)) = emittable fuel it m := by
  unfold emittable
  cases detail.traverse_events it.array true fuel (0, node_type.PARENT_TYPE) with
  | error p => rfl
  | ok evs =>
    simp only
    congr 1
    funext ev
    cases ev <;> simp [at_map]

theorem emittable_returns (fuel : Nat) (it : statement) (m : mapping_type)
    (h : emittable fuel it m = true) (index_string_ : String)
    (s : kernel_generation_stream) :
    ∃ s', detail.traverse it.array (detail.expression_generation_traversal index_string_ m)
      true fuel (0, node_type.PARENT_TYPE) s = Except.ok s' := by
  unfold emittable at h
  cases hevs : detail.traverse_events it.array true fuel (0, node_type.PARENT_TYPE) with
  | error p => simp [hevs] at h
  | ok evs =>
    simp only [hevs] at h
    rw [detail.traverse_eq_replay _ _ _ _ _ _ _ hevs]
    exact emission_replay_returns index_string_ m it.array evs h s

theorem emit_statements_returns (fuel : Nat) :
    ∀ (statements_ : List statement) (tables : List mapping_type) (rest : List mapping_type)
      (s : kernel_generation_stream),
      statements_.length ≤ rest.length →
      (List.zip statements_ rest).all (fun p => emittable fuel p.1 p.2) = true →
      ∀ (i : Nat), tables.drop i = rest →
      ∃ s', emit_statements fuel tables statements_ i s = Except.ok s' := by
  intro statements_
  induction statements_ with
  | nil => intro tables rest s _ _ i _; exact ⟨s, rfl⟩
  | cons it more ih =>
    intro tables rest s hlen hall i hdrop
    cases rest with
    | nil => simp at hlen
    | cons m rest =>
      simp only [List.zip_cons_cons, List.all_cons, Bool.and_eq_true] at hall
      have hi : tables[i]? = some m := by
        have := congrArg (fun l => l[0]?) hdrop
        simpa using this
      have hdrop2 : tables.drop (i + 1) = rest := by
        have := congrArg List.tail hdrop
        simpa using this
      obtain ⟨a, ha⟩ := emittable_returns fuel it m hall.1 "" s
      obtain ⟨s', hs'⟩ := ih tables rest ((a.put ";").endl)
        (by simpa using hlen) hall.2 (i + 1) hdrop2
      refine ⟨s', ?_⟩
      simp only [emit_statements, hi, ha, detail.except_ok_bind, hs']

theorem write_back_pass_returns (cast : mapped_container → Option String) :
    ∀ (ms : List mapping_type),
      (ms.all fun m => (mapping_type.at m (0, node_type.LHS_LEAF_TYPE)).isSome) = true →
      ∀ (fetched : Finset String) (stream : kernel_generation_stream),
        ∃ w, write_back_pass cast ms fetched stream = Except.ok w := by
  intro ms
  induction ms with
  | nil => intro _ fetched stream; exact ⟨_, rfl⟩
  | cons m ms ih =>
    intro h fetched stream
    simp only [List.all_cons, Bool.and_eq_true] at h
    obtain ⟨c, hc⟩ := Option.isSome_iff_exists.mp h.1
    cases hcast : cast c with
    | none =>
      obtain ⟨w, hw⟩ := ih h.2 fetched stream
      exact ⟨_, by simp only [write_back_pass, hc, hcast, hw, detail.except_ok_bind]; rfl⟩
    | some index =>
      obtain ⟨w, hw⟩ := ih h.2 (write_back c index fetched stream).2.1
        (write_back c index fetched stream).2.2
      exact ⟨_, by simp only [write_back_pass, hc, hcast, hw, detail.except_ok_bind]; rfl⟩

theorem body_returns (cast : mapped_container → Option String)
    (statements_ : List statement) (mapping_ : List mapping_type) (fuel : Nat)
    (h : generable statements_ mapping_ fuel = true) (s0 : kernel_generation_stream) :
    ∃ s1 w,
      emit_statements fuel (fetch_pass cast mapping_ ∅ s0).1 statements_ 0
        (fetch_pass cast mapping_ ∅ s0).2.2 = Except.ok s1 ∧
      write_back_pass cast (fetch_pass cast mapping_ ∅ s0).1
        (fetch_pass cast mapping_ ∅ s0).2.1 s1 = Except.ok w := by
  unfold generable at h
  simp only [Bool.and_eq_true, decide_eq_true_eq] at h
  obtain ⟨⟨hlen, hemit⟩, htarget⟩ := h
  have htab := fetch_pass_mapping cast mapping_ ∅ s0
  obtain ⟨s1, hs1⟩ := emit_statements_returns fuel statements_
    (fetch_pass cast mapping_ ∅ s0).1 (fetch_pass cast mapping_ ∅ s0).1
    (fetch_pass cast mapping_ ∅ s0).2.2 (by rw [htab]; simpa using hlen)
    (by
      rw [htab, List.zip_map_right, List.all_map]
      rw [List.all_eq_true] at hemit ⊢
      intro p hp
      simpa [emittable_map] using hemit p hp)
    0 rfl
  obtain ⟨w, hw⟩ := write_back_pass_returns cast (fetch_pass cast mapping_ ∅ s0).1
    (by
      rw [htab, List.all_map]
      rw [List.all_eq_true] at htarget ⊢
      intro m hm
      simpa [at_map] using htarget m hm)
    (fetch_pass cast mapping_ ∅ s0).2.1 s1
  exact ⟨s1, w, hs1, hw⟩

theorem vector_core_returns (statements_ : List statement) (mapping_ : List mapping_type)
    (fuel : Nat) (stream : kernel_generation_stream)
    (h : generable statements_ mapping_ fuel = true) :
    ∃ out, vector_saxpy.core statements_ mapping_ fuel stream = Except.ok out := by
  obtain ⟨s1, w, h1, h2⟩ := body_returns vector_saxpy.handle_cast statements_ mapping_ fuel h
    (vector_saxpy.body_stream stream)
  refine ⟨(w.1, (w.2.2.dec_tab.put "\x7d").endl), ?_⟩
  unfold vector_saxpy.core
  simp only []
  unfold vector_saxpy.body_stream at h1 h2
  rw [h1, detail.except_ok_bind, h2, detail.except_ok_bind]
  rfl

theorem matrix_core_returns (statements_ : List statement) (mapping_ : List mapping_type)
    (fuel : Nat) (stream : kernel_generation_stream)
    (h : generable statements_ mapping_ fuel = true) :
    ∃ out, matrix_saxpy.core statements_ mapping_ fuel stream = Except.ok out := by
  obtain ⟨s1, w, h1, h2⟩ := body_returns matrix_saxpy.matrix_cast statements_ mapping_ fuel h
    (matrix_saxpy.body_stream stream)
  refine ⟨(w.1, (((w.2.2.dec_tab.put "\x7d").endl).dec_tab.put "\x7d").endl), ?_⟩
  unfold matrix_saxpy.core
  simp only []
  unfold matrix_saxpy.body_stream at h1 h2
  rw [h1, detail.except_ok_bind, h2, detail.except_ok_bind]
  rfl

/-- C22: for every batch that can be generated (every statement has its table, its
traversal meets no unsupported operator and no missing key, every table has its target
entry) `vector_saxpy::core` returns; and whenever it returns, the text it appended is, in
this order, the loop header
`for(unsigned int i = get_global_id(0) ; i < N ; i += get_global_size(0))` and a line
break, an opening brace and a line break, the register declarations of the fetch pass
(one for every name of a mapped handle of the batch), then for each statement of the
batch, in batch order, the text of one deep traversal from the root `(0, PARENT_TYPE)`
with the statement's own table as the fetch pass left it, followed by `;` and a line
break, then the write-back lines of assignment targets, then the closing brace and a line
break; the tab counter is as before the call. -/
theorem vector_kernel_structure (statements_ : List statement)
    (mapping_ : List mapping_type) (fuel : Nat) (stream : kernel_generation_stream) :
    (generable statements_ mapping_ fuel = true →
      ∃ out, vector_saxpy.core statements_ mapping_ fuel stream = Except.ok out) ∧
    ∀ out, vector_saxpy.core statements_ mapping_ fuel stream = Except.ok out →
    ∃ (decls : List (mapped_container × String)) (texts : List String)
      (wbs : List (mapped_container × String)),
      out.2.text = stream.text
          ++ "for(unsigned int i = get_global_id(0) ; i < N ; i += get_global_size(0))"
          ++ "\n" ++ "\x7b" ++ "\n"
          ++ concat_lines (decls.map fun d => register_line d.1 d.2)
          ++ concat_lines (texts.map fun t => t ++ ";" ++ "\n")
          ++ concat_lines (wbs.map fun d => write_back_line d.1 d.2)
          ++ "\x7d" ++ "\n" ∧
      out.2.tab_count = stream.tab_count ∧
      (∀ d ∈ decls, ∃ m ∈ mapping_, ∃ e ∈ m,
        e.2 = d.1 ∧ vector_saxpy.handle_cast e.2 = some d.2) ∧
      (∀ m ∈ mapping_, ∀ e ∈ m, e.2.is_mapped_handle = true →
        (decls.map fun d => d.1.name).count e.2.name = 1) ∧
      texts.length = statements_.length ∧
      (∀ (j : Nat) (it : statement) (t : String),
        statements_[j]? = some it → texts[j]? = some t →
        ∃ m, mapping_[j]? = some m ∧ ∀ s2 : kernel_generation_stream,
          detail.traverse it.array
            (detail.expression_generation_traversal ""
              (m.map fun e => (e.1, fetched_operand vector_saxpy.handle_cast e.2)))
            true fuel (0, node_type.PARENT_TYPE) s2 = Except.ok (s2.put t)) ∧
      (∀ d ∈ wbs, ∃ m ∈ mapping_, ∃ c,
        mapping_type.at m (0, node_type.LHS_LEAF_TYPE) = some c ∧
          vector_saxpy.handle_cast c = some d.2 ∧
          d.1 = fetched_operand vector_saxpy.handle_cast c) :=
  ⟨vector_core_returns statements_ mapping_ fuel stream,
    fun out hcore => vector_body_structure statements_ mapping_ fuel stream out hcore⟩

theorem sample_vector_core_text :
    (vector_saxpy.core [sample_assign, sample_assign]
      [sample_assign_mapping "y" "x", sample_assign_mapping "z" "x"] 2
      empty_stream).toOption.map (fun r => r.2.text) = some "for(unsigned int i = get_global_id(0) ; i < N ; i += get_global_size(0))\n\x7b\nfloat y_private = y[i];\nfloat x_private = x[i];\nfloat z_private = z[i];\n(y_private=x_private);\n(z_private=x_private);\ny[i] = y_private;\nz[i] = z_private;\n\x7d\n" :=
  rfl

/-- Witness of C22: the batch `y = x`, `z = x` can be generated, the method returns, and
the kernel body is the loop header, the brace, three declarations, the two statements in
batch order, the two write-back lines and the closing brace. -/
theorem vector_kernel_structure_witness :
    generable [sample_assign, sample_assign]
        [sample_assign_mapping "y" "x", sample_assign_mapping "z" "x"] 2 = true ∧
    ∃ out, vector_saxpy.core [sample_assign, sample_assign]
        [sample_assign_mapping "y" "x", sample_assign_mapping "z" "x"] 2 empty_stream
          = Except.ok out ∧
      out.2.text = "for(unsigned int i = get_global_id(0) ; i < N ; i += get_global_size(0))\n\x7b\nfloat y_private = y[i];\nfloat x_private = x[i];\nfloat z_private = z[i];\n(y_private=x_private);\n(z_private=x_private);\ny[i] = y_private;\nz[i] = z_private;\n\x7d\n" ∧
      ∃ (decls : List (mapped_container × String)) (texts : List String)
        (wbs : List (mapped_container × String)),
        out.2.text = empty_stream.text
            ++ "for(unsigned int i = get_global_id(0) ; i < N ; i += get_global_size(0))"
            ++ "\n" ++ "\x7b" ++ "\n"
            ++ concat_lines (decls.map fun d => register_line d.1 d.2)
            ++ concat_lines (texts.map fun t => t ++ ";" ++ "\n")
            ++ concat_lines (wbs.map fun d => write_back_line d.1 d.2)
            ++ "\x7d" ++ "\n" ∧
          texts.length = 2 := by
  have hgen : generable [sample_assign, sample_assign]
      [sample_assign_mapping "y" "x", sample_assign_mapping "z" "x"] 2 = true := by decide
  obtain ⟨out, hout⟩ := (vector_kernel_structure [sample_assign, sample_assign]
    [sample_assign_mapping "y" "x", sample_assign_mapping "z" "x"] 2 empty_stream).1 hgen
  have htext := sample_vector_core_text
  obtain ⟨decls, texts, wbs, h1, _, _, _, h5, _⟩ :=
    (vector_kernel_structure [sample_assign, sample_assign]
      [sample_assign_mapping "y" "x", sample_assign_mapping "z" "x"] 2 empty_stream).2
        out hout
  refine ⟨hgen, out, hout, ?_, decls, texts, wbs, h1, h5⟩
  rw [hout] at htext
  simpa [Except.toOption] using htext

/-- C23: for every batch that can be generated `matrix_saxpy::core` returns; and whenever
it returns, the text it appended is the outer loop header over `i` (start
`get_global_id(0)`, bound `M`, stride `get_global_size(0)`) and an opening brace, the
inner loop header over `j` (start `get_global_id(1)`, bound `N`, stride
`get_global_size(1)`) and an opening brace, then the register declarations of the fetch
pass, then one emitted expression with its terminator per statement in batch order, then
the write-back lines, then the two closing braces; the tab counter is as before the
call. -/
theorem matrix_kernel_structure (statements_ : List statement)
    (mapping_ : List mapping_type) (fuel : Nat) (stream : kernel_generation_stream) :
    (generable statements_ mapping_ fuel = true →
      ∃ out, matrix_saxpy.core statements_ mapping_ fuel stream = Except.ok out) ∧
    ∀ out, matrix_saxpy.core statements_ mapping_ fuel stream = Except.ok out →
    ∃ (decls : List (mapped_container × String)) (texts : List String)
      (wbs : List (mapped_container × String)),
      out.2.text = stream.text
          ++ "for(unsigned int i = get_global_id(0) ; i < M ; i += get_global_size(0))"
          ++ "\n" ++ "\x7b" ++ "\n"
          ++ "for(unsigned int j = get_global_id(1) ; j < N ; j += get_global_size(1))"
          ++ "\n" ++ "\x7b" ++ "\n"
          ++ concat_lines (decls.map fun d => register_line d.1 d.2)
          ++ concat_lines (texts.map fun t => t ++ ";" ++ "\n")
          ++ concat_lines (wbs.map fun d => write_back_line d.1 d.2)
          ++ "\x7d" ++ "\n" ++ "\x7d" ++ "\n" ∧
      out.2.tab_count = stream.tab_count ∧
      (∀ d ∈ decls, ∃ m ∈ mapping_, ∃ e ∈ m,
        e.2 = d.1 ∧ matrix_saxpy.matrix_cast e.2 = some d.2) ∧
      (∀ m ∈ mapping_, ∀ e ∈ m, e.2.is_mapped_matrix = true →
        (decls.map fun d => d.1.name).count e.2.name = 1) ∧
      texts.length = statements_.length ∧
      (∀ (j : Nat) (it : statement) (t : String),
        statements_[j]? = some it → texts[j]? = some t →
        ∃ m, mapping_[j]? = some m ∧ ∀ s2 : kernel_generation_stream,
          detail.traverse it.array
            (detail.expression_generation_traversal ""
              (m.map fun e => (e.1, fetched_operand matrix_saxpy.matrix_cast e.2)))
            true fuel (0, node_type.PARENT_TYPE) s2 = Except.ok (s2.put t)) ∧
      (∀ d ∈ wbs, ∃ m ∈ mapping_, ∃ c,
        mapping_type.at m (0, node_type.LHS_LEAF_TYPE) = some c ∧
          matrix_saxpy.matrix_cast c = some d.2 ∧
          d.1 = fetched_operand matrix_saxpy.matrix_cast c) :=
  ⟨matrix_core_returns statements_ mapping_ fuel stream,
    fun out hcore => matrix_body_structure statements_ mapping_ fuel stream out hcore⟩

set_option maxRecDepth 4000 in
theorem sample_matrix_core_text :
    (matrix_saxpy.core [sample_assign] [sample_matrix_mapping] 2
      empty_stream).toOption.map (fun r => r.2.text) = some "for(unsigned int i = get_global_id(0) ; i < M ; i += get_global_size(0))\n\x7b\nfor(unsigned int j = get_global_id(1) ; j < N ; j += get_global_size(1))\n\x7b\nfloat C_private = C[i*N + j];\nfloat A_private = A[i + j*M];\n(C_private=A_private);\nC[i*N + j] = C_private;\n\x7d\n\x7d\n" :=
  rfl

/-- Witness of C23: the batch `C = A` over two matrices can be generated, the method
returns, and the kernel body is the two loop headers with their braces, two declarations,
the statement, the write-back line of `C` and the two closing braces. -/
theorem matrix_kernel_structure_witness :
    generable [sample_assign] [sample_matrix_mapping] 2 = true ∧
    ∃ out, matrix_saxpy.core [sample_assign] [sample_matrix_mapping] 2 empty_stream
          = Except.ok out ∧
      out.2.text = "for(unsigned int i = get_global_id(0) ; i < M ; i += get_global_size(0))\n\x7b\nfor(unsigned int j = get_global_id(1) ; j < N ; j += get_global_size(1))\n\x7b\nfloat C_private = C[i*N + j];\nfloat A_private = A[i + j*M];\n(C_private=A_private);\nC[i*N + j] = C_private;\n\x7d\n\x7d\n" ∧
      out.2.tab_count = empty_stream.tab_count ∧
      ∃ (decls : List (mapped_container × String)) (texts : List String)
        (wbs : List (mapped_container × String)),
        out.2.text = empty_stream.text
            ++ "for(unsigned int i = get_global_id(0) ; i < M ; i += get_global_size(0))"
            ++ "\n" ++ "\x7b" ++ "\n"
            ++ "for(unsigned int j = get_global_id(1) ; j < N ; j += get_global_size(1))"
            ++ "\n" ++ "\x7b" ++ "\n"
            ++ concat_lines (decls.map fun d => register_line d.1 d.2)
            ++ concat_lines (texts.map fun t => t ++ ";" ++ "\n")
            ++ concat_lines (wbs.map fun d => write_back_line d.1 d.2)
            ++ "\x7d" ++ "\n" ++ "\x7d" ++ "\n" ∧
          texts.length = 1 := by
  have hgen : generable [sample_assign] [sample_matrix_mapping] 2 = true := by decide
  obtain ⟨out, hout⟩ := (matrix_kernel_structure [sample_assign] [sample_matrix_mapping] 2
    empty_stream).1 hgen
  have htext := sample_matrix_core_text
  obtain ⟨decls, texts, wbs, h1, h2, _, _, h5, _⟩ :=
    (matrix_kernel_structure [sample_assign] [sample_matrix_mapping] 2 empty_stream).2
      out hout
  refine ⟨hgen, out, hout, ?_, h2, decls, texts, wbs, h1, h5⟩
  rw [hout] at htext
  simpa [Except.toOption] using htext

/-! ## The index expression of a matrix operand -/

theorem get_offset_render (p : mapped_container) :
    matrix_saxpy.get_offset p = (matrix_saxpy.offset_expr p.is_row_major).render := by
  unfold matrix_saxpy.get_offset matrix_saxpy.offset_expr
  cases p.is_row_major <;> rfl

theorem get_offset_access_name (c : mapped_container) (a : String) :
    matrix_saxpy.get_offset { c with access_name := a } = matrix_saxpy.get_offset c :=
  rfl

theorem offset_value (env : String → Nat) :
    (matrix_saxpy.offset_expr true).value env = (env "i" * env "N" + env "j") % 2 ^ 32 ∧
    (matrix_saxpy.offset_expr false).value env = (env "i" + env "j" * env "M") % 2 ^ 32 := by
  constructor
  · simp [matrix_saxpy.offset_expr, index_expr.value, Nat.add_mod, Nat.mul_mod]
  · simp [matrix_saxpy.offset_expr, index_expr.value, Nat.add_mod, Nat.mul_mod]

theorem matrix_cast_eq_some (c : mapped_container) (index : String)
    (h : matrix_saxpy.matrix_cast c = some index) :
    index = matrix_saxpy.get_offset c ∧ c.is_mapped_matrix = true := by
  unfold matrix_saxpy.matrix_cast at h
  by_cases hc : c.is_mapped_matrix = true
  · simp [hc] at h; exact ⟨h.symm, hc⟩
  · simp [hc] at h

/-- Counterexample to C21 as stated: in a row-major matrix with 65537 rows and 65537
columns, at row 65536 and column 0, the index expression `i*N + j` of the kernel has the
value 65536 in the `unsigned int` arithmetic of the kernel, not `i*C + j = 4295032832`. -/
theorem offset_overflow_counterexample :
    matrix_saxpy.get_offset (sample_matrix "A" true) = "i*N + j" ∧
      matrix_saxpy.get_offset (sample_matrix "A" true)
        = (matrix_saxpy.offset_expr true).render ∧
      65536 < 65537 ∧ 0 < 65537 ∧ 65537 < 2 ^ 32 ∧
      (matrix_saxpy.offset_expr true).value (sample_env 65537 65537 65536 0) = 65536 ∧
      (matrix_saxpy.offset_expr true).value (sample_env 65537 65537 65536 0)
        ≠ 65536 * 65537 + 0 := by
  refine ⟨rfl, rfl, by decide, by decide, by decide, ?_, ?_⟩
  · rw [(offset_value _).1]; decide
  · rw [(offset_value _).1]; decide

/-- C21, amended: `get_offset` returns the text of `i*N + j` for a row-major operand and
of `i + j*M` for a column-major one; in the kernel these have the values
`(i*N + j) mod 2^32` and `(i + j*M) mod 2^32`, and with `M` the row count, `N` the column
count, a row `i` and a column `j` of a matrix of at most `2^32` elements, the values
`i*C + j` and `i + j*R`; and in the kernel body that `matrix_saxpy::core` emits, the
declaration of every operand and the write-back line of every target are written with
the `get_offset` of that operand, which does not depend on its access name. -/
theorem matrix_access_pattern (statements_ : List statement)
    (mapping_ : List mapping_type) (fuel : Nat) (stream : kernel_generation_stream)
    (out : List mapping_type × kernel_generation_stream)
    (env : String → Nat) (rows columns : Nat)
    (hcore : matrix_saxpy.core statements_ mapping_ fuel stream = Except.ok out)
    (hM : env "M" = rows) (hN : env "N" = columns)
    (hi : env "i" < rows) (hj : env "j" < columns) (hsize : rows * columns ≤ 2 ^ 32) :
    (∀ p : mapped_container,
      matrix_saxpy.get_offset p = (matrix_saxpy.offset_expr p.is_row_major).render ∧
      (p.is_row_major = true → matrix_saxpy.get_offset p = "i*N + j") ∧
      (p.is_row_major = false → matrix_saxpy.get_offset p = "i + j*M")) ∧
    (matrix_saxpy.offset_expr true).value env = (env "i" * env "N" + env "j") % 2 ^ 32 ∧
    (matrix_saxpy.offset_expr false).value env = (env "i" + env "j" * env "M") % 2 ^ 32 ∧
    (matrix_saxpy.offset_expr true).value env = env "i" * columns + env "j" ∧
    (matrix_saxpy.offset_expr false).value env = env "i" + env "j" * rows ∧
    ∃ (decls : List (mapped_container × String)) (texts : List String)
      (wbs : List (mapped_container × String)),
      out.2.text = stream.text
          ++ "for(unsigned int i = get_global_id(0) ; i < M ; i += get_global_size(0))"
          ++ "\n" ++ "\x7b" ++ "\n"
          ++ "for(unsigned int j = get_global_id(1) ; j < N ; j += get_global_size(1))"
          ++ "\n" ++ "\x7b" ++ "\n"
          ++ concat_lines (decls.map fun d => register_line d.1 d.2)
          ++ concat_lines (texts.map fun t => t ++ ";" ++ "\n")
          ++ concat_lines (wbs.map fun d => write_back_line d.1 d.2)
          ++ "\x7d" ++ "\n" ++ "\x7d" ++ "\n" ∧
      (∀ d ∈ decls, d.2 = matrix_saxpy.get_offset d.1 ∧
        ∃ m ∈ mapping_, ∃ e ∈ m, e.2 = d.1 ∧ e.2.is_mapped_matrix = true) ∧
      (∀ d ∈ wbs, ∃ m ∈ mapping_, ∃ c,
        mapping_type.at m (0, node_type.LHS_LEAF_TYPE) = some c ∧
          c.is_mapped_matrix = true ∧
          d.1 = { c with access_name := c.name ++ "_private" } ∧
          d.2 = matrix_saxpy.get_offset c ∧
          matrix_saxpy.get_offset d.1 = matrix_saxpy.get_offset c) := by
  have hrow : env "i" * columns + env "j" < 2 ^ 32 := by
    have h1 : (env "i" + 1) * columns ≤ rows * columns := Nat.mul_le_mul_right _ hi
    have h2 : (env "i" + 1) * columns = env "i" * columns + columns := by ring
    omega
  have hcol : env "i" + env "j" * rows < 2 ^ 32 := by
    have h1 : (env "j" + 1) * rows ≤ columns * rows := Nat.mul_le_mul_right _ hj
    have h2 : (env "j" + 1) * rows = env "j" * rows + rows := by ring
    have h3 : columns * rows = rows * columns := Nat.mul_comm _ _
    omega
  refine ⟨fun p => ⟨get_offset_render p, ?_, ?_⟩, (offset_value env).1, (offset_value env).2,
    ?_, ?_, ?_⟩
  · intro h; simp [matrix_saxpy.get_offset, h]
  · intro h; simp [matrix_saxpy.get_offset, h]
  · rw [(offset_value env).1, hN]; exact Nat.mod_eq_of_lt hrow
  · rw [(offset_value env).2, hM]; exact Nat.mod_eq_of_lt hcol
  · obtain ⟨decls, texts, wbs, htext, _, hd, _, _, _, hw⟩ :=
      matrix_body_structure statements_ mapping_ fuel stream out hcore
    refine ⟨decls, texts, wbs, htext, ?_, ?_⟩
    · intro d hd'
      obtain ⟨m, hm, e, he, h1, h2⟩ := hd d hd'
      obtain ⟨h3, h4⟩ := matrix_cast_eq_some _ _ h2
      exact ⟨h1 ▸ h3, m, hm, e, he, h1, h4⟩
    · intro d hd'
      obtain ⟨m, hm, c, hat, hc, h1⟩ := hw d hd'
      obtain ⟨h3, h4⟩ := matrix_cast_eq_some _ _ hc
      have h5 : d.1 = { c with access_name := c.name ++ "_private" } := by
        rw [h1]; unfold fetched_operand; rw [hc]
      exact ⟨m, hm, c, hat, h4, h5, h3, by rw [h5]; rfl⟩

/-- Witness of C21: `C = A` with `A` column-major, `C` row-major and `M = N = 4`; the
kernel reads `A[i + j*M]` and `C[i*N + j]`, writes `C[i*N + j]`, and in the work item of
row 2 and column 3 the two indices are `2 + 3*4` and `2*4 + 3`. -/
theorem matrix_access_pattern_witness :
    ∃ out, matrix_saxpy.core [sample_assign] [sample_matrix_mapping] 2 empty_stream
          = Except.ok out ∧
      out.2.text = "for(unsigned int i = get_global_id(0) ; i < M ; i += get_global_size(0))\n\x7b\nfor(unsigned int j = get_global_id(1) ; j < N ; j += get_global_size(1))\n\x7b\nfloat C_private = C[i*N + j];\nfloat A_private = A[i + j*M];\n(C_private=A_private);\nC[i*N + j] = C_private;\n\x7d\n\x7d\n" ∧
      matrix_saxpy.get_offset (sample_matrix "A" false) = "i + j*M" ∧
      matrix_saxpy.get_offset (sample_matrix "C" true) = "i*N + j" ∧
      (matrix_saxpy.offset_expr false).value (sample_env 4 4 2 3) = 2 + 3 * 4 ∧
      (matrix_saxpy.offset_expr true).value (sample_env 4 4 2 3) = 2 * 4 + 3 := by
  have hcore : ∃ out, matrix_saxpy.core [sample_assign] [sample_matrix_mapping] 2
      empty_stream = Except.ok out := ⟨_, rfl⟩
  obtain ⟨out, hout⟩ := hcore
  have htext := sample_matrix_core_text
  obtain ⟨h1, _, _, h4, h5, _⟩ :=
    matrix_access_pattern [sample_assign] [sample_matrix_mapping] 2 empty_stream out
      (sample_env 4 4 2 3) 4 4 hout rfl rfl (by decide) (by decide) (by decide)
  refine ⟨out, hout, ?_, (h1 _).2.2 rfl, (h1 _).2.1 rfl, h5, h4⟩
  rw [hout] at htext
  simpa [Except.toOption] using htext

/-! ## The tables after a generation -/

theorem at_set : ∀ (m : mapping_type) (k key : index_info) (x : mapped_container),
    mapping_type.at (mapping_type.set m k x) key
      = if key = k then (mapping_type.at m k).map (fun _ => x) else mapping_type.at m key := by
  intro m
  induction m with
  | nil => intro k key x; simp [mapping_type.set, mapping_type.at]
  | cons e rest ih =>
    intro k key x
    by_cases hk : e.1 = k
    · by_cases hkey : key = k
      · subst hkey; simp [mapping_type.set, mapping_type.at, hk]
      · have hne : ¬ k = key := fun h => hkey h.symm
        simp [mapping_type.set, mapping_type.at, hk, hkey, hne]
    · by_cases hkey : key = k
      · subst hkey; simp [mapping_type.set, mapping_type.at, hk, ih]
      · by_cases he : e.1 = key <;> simp [mapping_type.set, mapping_type.at, hk, hkey, he, ih]

theorem body_tables (cast : mapped_container → Option String)
    (mapping_ : List mapping_type) (s0 s1 : kernel_generation_stream)
    (w : List mapping_type × Finset String × kernel_generation_stream)
    (hwb : write_back_pass cast (fetch_pass cast mapping_ ∅ s0).1
      (fetch_pass cast mapping_ ∅ s0).2.1 s1 = Except.ok w) :
    w.1 = mapping_.map fun m =>
      written_back cast (m.map fun e => (e.1, fetched_operand cast e.2)) := by
  rw [(write_back_pass_uniform cast _ _ _ w hwb).1, fetch_pass_mapping, List.map_map]
  rfl

theorem at_after_body (cast : mapped_container → Option String)
    (hcast : ∀ c, cast (fetched_operand cast c) = cast c)
    (m : mapping_type) (key : index_info) (c : mapped_container)
    (hat : mapping_type.at m key = some c) :
    ∃ c', mapping_type.at
        (written_back cast (m.map fun e => (e.1, fetched_operand cast e.2))) key = some c' ∧
      c'.name = c.name ∧
      ((cast c).isSome = true → key = (0, node_type.LHS_LEAF_TYPE) → c'.access_name = "") ∧
      ((cast c).isSome = true → key ≠ (0, node_type.LHS_LEAF_TYPE) →
        c'.access_name = c.name ++ "_private") ∧
      ((cast c).isSome = false → c' = c) := by
  have hfetched : mapping_type.at (m.map fun e => (e.1, fetched_operand cast e.2)) key
      = some (fetched_operand cast c) := by rw [at_map, hat]; rfl
  have hname : (fetched_operand cast c).name = c.name := by
    unfold fetched_operand; cases cast c <;> rfl
  have hkeep : (cast c).isSome = true →
      (fetched_operand cast c).access_name = c.name ++ "_private" := by
    intro h
    obtain ⟨index, hindex⟩ := Option.isSome_iff_exists.mp h
    unfold fetched_operand; rw [hindex]
  have hnone : (cast c).isSome = false → fetched_operand cast c = c := by
    intro h
    have : cast c = none := by simpa using h
    unfold fetched_operand; rw [this]
  by_cases hkey : key = (0, node_type.LHS_LEAF_TYPE)
  · subst hkey
    cases hc : cast c with
    | none =>
      refine ⟨c, ?_, rfl, by simp [hc], by simp, fun _ => rfl⟩
      have h2 : cast (fetched_operand cast c) = none := by rw [hcast, hc]
      simp only [written_back, hfetched, h2]
      rw [hnone (by simp [hc])]
    | some index =>
      have h2 : cast (fetched_operand cast c) = some index := by rw [hcast, hc]
      refine ⟨{ fetched_operand cast c with access_name := "" }, ?_, hname,
        fun _ _ => rfl, fun _ h => absurd rfl h, by simp⟩
      simp only [written_back, hfetched, h2]
      rw [at_set, if_pos rfl, hfetched]
      rfl
  · refine ⟨fetched_operand cast c, ?_, hname, fun _ h => absurd h hkey,
      fun h _ => hkeep h, hnone⟩
    cases h0 : mapping_type.at (m.map fun e => (e.1, fetched_operand cast e.2))
        (0, node_type.LHS_LEAF_TYPE) with
    | none => simp only [written_back, h0]; exact hfetched
    | some c0 =>
      cases hc0 : cast c0 with
      | none => simp only [written_back, h0, hc0]; exact hfetched
      | some index =>
        simp only [written_back, h0, hc0]
        rw [at_set, if_neg hkey, hfetched]

theorem tables_after_body (cast : mapped_container → Option String)
    (hcast : ∀ c, cast (fetched_operand cast c) = cast c)
    (mapping_ : List mapping_type) (s0 s1 : kernel_generation_stream)
    (w : List mapping_type × Finset String × kernel_generation_stream)
    (hwb : write_back_pass cast (fetch_pass cast mapping_ ∅ s0).1
      (fetch_pass cast mapping_ ∅ s0).2.1 s1 = Except.ok w) :
    w.1 = (mapping_.map fun m =>
        written_back cast (m.map fun e => (e.1, fetched_operand cast e.2))) ∧
      ∀ (i : Nat) (m : mapping_type) (key : index_info) (c : mapped_container),
        mapping_[i]? = some m → mapping_type.at m key = some c →
        ∃ m' c', w.1[i]? = some m' ∧ mapping_type.at m' key = some c' ∧
          c'.name = c.name ∧
          ((cast c).isSome = true → key = (0, node_type.LHS_LEAF_TYPE) →
            c'.access_name = "") ∧
          ((cast c).isSome = true → key ≠ (0, node_type.LHS_LEAF_TYPE) →
            c'.access_name = c.name ++ "_private") ∧
          ((cast c).isSome = false → c' = c) := by
  have htab := body_tables cast mapping_ s0 s1 w hwb
  refine ⟨htab, fun i m key c hi hat => ?_⟩
  obtain ⟨c', h1, h2⟩ := at_after_body cast hcast m key c hat
  exact ⟨_, c', by rw [htab, List.getElem?_map, hi]; rfl, h1, h2⟩

/-- Counterexample to C25 as stated: after `vector_saxpy::core` returns for the batch
`y = x`, the handle of `x` at `(0, RHS_NODE_TYPE)` and the handle of `y` at
`(0, LHS_NODE_TYPE)` have the access names `x_private` and `y_private`, not the empty
access name they had before the call; only the handle at `(0, LHS_LEAF_TYPE)` has an empty
access name. -/
theorem access_name_leak_counterexample :
    ∃ out, vector_saxpy.core [sample_assign] [sample_assign_mapping "y" "x"] 2 empty_stream
        = Except.ok out ∧
      (sample_assign_mapping "y" "x").map (fun e => (e.1, e.2.name, e.2.access_name))
        = [((0, node_type.LHS_NODE_TYPE), "y", ""), ((0, node_type.RHS_NODE_TYPE), "x", ""),
           ((0, node_type.LHS_LEAF_TYPE), "y", "")] ∧
      out.1.map (fun m => m.map fun e => (e.1, e.2.name, e.2.access_name))
        = [[((0, node_type.LHS_NODE_TYPE), "y", "y_private"),
            ((0, node_type.RHS_NODE_TYPE), "x", "x_private"),
            ((0, node_type.LHS_LEAF_TYPE), "y", "")]] ∧
      ∃ m ∈ out.1, ∃ e ∈ m, e.2.is_mapped_handle = true ∧ e.2.access_name ≠ "" := by
  refine ⟨_, rfl, rfl, rfl, ?_⟩
  exact ⟨_, List.mem_cons_self _ _, _, List.mem_cons_of_mem _ (List.mem_cons_self _ _), rfl,
    by decide⟩

/-- C25, amended: after `vector_saxpy::core` (or `matrix_saxpy::core`) returns, every
table of the batch is the table it was given with the access name of every mapped handle
(mapped matrix) set to `<name>_private` and then the access name of the handle at
`(0, LHS_LEAF_TYPE)` cleared: a handle under the key `(0, LHS_LEAF_TYPE)` has an empty
access name, a handle under any other key has the access name `<name>_private`, and an
operand that is no handle is as before. -/
theorem access_names_after_core (statements_ : List statement)
    (mapping_ : List mapping_type) (fuel : Nat) (stream : kernel_generation_stream)
    (out : List mapping_type × kernel_generation_stream) :
    (vector_saxpy.core statements_ mapping_ fuel stream = Except.ok out →
      out.1 = (mapping_.map fun m => written_back vector_saxpy.handle_cast
          (m.map fun e => (e.1, fetched_operand vector_saxpy.handle_cast e.2))) ∧
      ∀ (i : Nat) (m : mapping_type) (key : index_info) (c : mapped_container),
        mapping_[i]? = some m → mapping_type.at m key = some c →
        ∃ m' c', out.1[i]? = some m' ∧ mapping_type.at m' key = some c' ∧
          c'.name = c.name ∧
          (c.is_mapped_handle = true → key = (0, node_type.LHS_LEAF_TYPE) →
            c'.access_name = "") ∧
          (c.is_mapped_handle = true → key ≠ (0, node_type.LHS_LEAF_TYPE) →
            c'.access_name = c.name ++ "_private") ∧
          (c.is_mapped_handle = false → c' = c)) ∧
    (matrix_saxpy.core statements_ mapping_ fuel stream = Except.ok out →
      out.1 = (mapping_.map fun m => written_back matrix_saxpy.matrix_cast
          (m.map fun e => (e.1, fetched_operand matrix_saxpy.matrix_cast e.2))) ∧
      ∀ (i : Nat) (m : mapping_type) (key : index_info) (c : mapped_container),
        mapping_[i]? = some m → mapping_type.at m key = some c →
        ∃ m' c', out.1[i]? = some m' ∧ mapping_type.at m' key = some c' ∧
          c'.name = c.name ∧
          (c.is_mapped_matrix = true → key = (0, node_type.LHS_LEAF_TYPE) →
            c'.access_name = "") ∧
          (c.is_mapped_matrix = true → key ≠ (0, node_type.LHS_LEAF_TYPE) →
            c'.access_name = c.name ++ "_private") ∧
          (c.is_mapped_matrix = false → c' = c)) := by
  constructor
  · intro hcore
    obtain ⟨s1, w, _, hwb, rfl⟩ := vector_core_ok _ _ _ _ _ hcore
    obtain ⟨htab, hall⟩ := tables_after_body vector_saxpy.handle_cast
      handle_cast_fetched_operand mapping_ _ s1 w hwb
    refine ⟨htab, fun i m key c hi hat => ?_⟩
    obtain ⟨m', c', h1, h2, h3, h4, h5, h6⟩ := hall i m key c hi hat
    refine ⟨m', c', h1, h2, h3, fun h => h4 ?_, fun h => h5 ?_, fun h => h6 ?_⟩ <;>
      simp [vector_saxpy.handle_cast, h]
  · intro hcore
    obtain ⟨s1, w, _, hwb, rfl⟩ := matrix_core_ok _ _ _ _ _ hcore
    obtain ⟨htab, hall⟩ := tables_after_body matrix_saxpy.matrix_cast
      matrix_cast_fetched_operand mapping_ _ s1 w hwb
    refine ⟨htab, fun i m key c hi hat => ?_⟩
    obtain ⟨m', c', h1, h2, h3, h4, h5, h6⟩ := hall i m key c hi hat
    refine ⟨m', c', h1, h2, h3, fun h => h4 ?_, fun h => h5 ?_, fun h => h6 ?_⟩ <;>
      simp [matrix_saxpy.matrix_cast, h]

/-- Witness of C25: after the generation of `y = x` the handle of `x` under
`(0, RHS_NODE_TYPE)` has the access name `x_private` and the handle of `y` under
`(0, LHS_LEAF_TYPE)` has the empty access name. -/
theorem access_names_after_core_witness :
    ∃ out, vector_saxpy.core [sample_assign] [sample_assign_mapping "y" "x"] 2 empty_stream
        = Except.ok out ∧
      (∃ m' c', out.1[0]? = some m' ∧
        mapping_type.at m' (0, node_type.RHS_NODE_TYPE) = some c' ∧
        c'.access_name = "x" ++ "_private") ∧
      (∃ m' c', out.1[0]? = some m' ∧
        mapping_type.at m' (0, node_type.LHS_LEAF_TYPE) = some c' ∧
        c'.access_name = "") := by
  have hcore : ∃ out, vector_saxpy.core [sample_assign] [sample_assign_mapping "y" "x"] 2
      empty_stream = Except.ok out := ⟨_, rfl⟩
  obtain ⟨out, hout⟩ := hcore
  have hall := ((access_names_after_core [sample_assign] [sample_assign_mapping "y" "x"] 2
    empty_stream out).1 hout).2
  refine ⟨out, hout, ?_, ?_⟩
  · obtain ⟨m', c', h1, h2, _, _, h5, _⟩ := hall 0 (sample_assign_mapping "y" "x")
      (0, node_type.RHS_NODE_TYPE) (sample_vector "x") rfl rfl
    exact ⟨m', c', h1, h2, h5 rfl (by decide)⟩
  · obtain ⟨m', c', h1, h2, _, h4, _, _⟩ := hall 0 (sample_assign_mapping "y" "x")
      (0, node_type.LHS_LEAF_TYPE) (sample_vector "y") rfl rfl
    exact ⟨m', c', h1, h2, h4 rfl rfl⟩

/-! ## Two generations from tables in the same state -/

theorem emit_statements_unique (fuel1 fuel2 : Nat) (mapping_ : List mapping_type) :
    ∀ (statements_ : List statement) (i : Nat) (sa sa' sb sb' : kernel_generation_stream),
      emit_statements fuel1 mapping_ statements_ i sa = Except.ok sa' →
      emit_statements fuel2 mapping_ statements_ i sb = Except.ok sb' →
      ∃ t, sa' = sa.put t ∧ sb' = sb.put t := by
  intro statements_
  induction statements_ with
  | nil =>
    intro i sa sa' sb sb' ha hb
    simp only [emit_statements, Except.ok.injEq] at ha hb
    exact ⟨"", by rw [put_empty, ha], by rw [put_empty, hb]⟩
  | cons it rest ih =>
    intro i sa sa' sb sb' ha hb
    simp only [emit_statements] at ha hb
    cases hm : mapping_[i]? with
    | none => simp [hm] at ha
    | some m =>
      simp only [hm] at ha hb
      obtain ⟨a1, ha1, harest⟩ := (detail.except_bind_eq_ok _ _ _).mp ha
      obtain ⟨b1, hb1, hbrest⟩ := (detail.except_bind_eq_ok _ _ _).mp hb
      obtain ⟨t, rfl, ht⟩ := emission_uniform "" m it.array true fuel1
        (0, node_type.PARENT_TYPE) sa a1 ha1
      have hb1' := (ht fuel2 sb b1).2 hb1
      subst hb1'
      obtain ⟨t2, h1, h2⟩ := ih (i + 1) _ sa' _ sb' harest hbrest
      refine ⟨t ++ ";" ++ "\n" ++ t2, ?_, ?_⟩
      · rw [h1]
        simp [kernel_generation_stream.put, kernel_generation_stream.endl,
          String.append_assoc]
      · rw [h2]
        simp [kernel_generation_stream.put, kernel_generation_stream.endl,
          String.append_assoc]

theorem body_unique (cast : mapped_container → Option String)
    (statements_ : List statement) (mapping_ : List mapping_type) (fuel1 fuel2 : Nat)
    (sa sa1 sb sb1 : kernel_generation_stream)
    (wa wb : List mapping_type × Finset String × kernel_generation_stream)
    (hemit_a : emit_statements fuel1 (fetch_pass cast mapping_ ∅ sa).1 statements_ 0
      (fetch_pass cast mapping_ ∅ sa).2.2 = Except.ok sa1)
    (hwb_a : write_back_pass cast (fetch_pass cast mapping_ ∅ sa).1
      (fetch_pass cast mapping_ ∅ sa).2.1 sa1 = Except.ok wa)
    (hemit_b : emit_statements fuel2 (fetch_pass cast mapping_ ∅ sb).1 statements_ 0
      (fetch_pass cast mapping_ ∅ sb).2.2 = Except.ok sb1)
    (hwb_b : write_back_pass cast (fetch_pass cast mapping_ ∅ sb).1
      (fetch_pass cast mapping_ ∅ sb).2.1 sb1 = Except.ok wb) :
    wa.1 = wb.1 ∧ ∃ t, wa.2.2 = sa.put t ∧ wb.2.2 = sb.put t := by
  refine ⟨by rw [body_tables cast mapping_ sa sa1 wa hwb_a,
    body_tables cast mapping_ sb sb1 wb hwb_b], ?_⟩
  obtain ⟨t1, fetched2, hfetch⟩ := fetch_pass_uniform cast mapping_ ∅
  have hfa1 : (fetch_pass cast mapping_ ∅ sa).2.1 = fetched2 := by rw [hfetch]
  have hfa2 : (fetch_pass cast mapping_ ∅ sa).2.2 = sa.put t1 := by rw [hfetch]
  have hfb1 : (fetch_pass cast mapping_ ∅ sb).2.1 = fetched2 := by rw [hfetch]
  have hfb2 : (fetch_pass cast mapping_ ∅ sb).2.2 = sb.put t1 := by rw [hfetch]
  have htab : (fetch_pass cast mapping_ ∅ sb).1 = (fetch_pass cast mapping_ ∅ sa).1 := by
    rw [fetch_pass_mapping, fetch_pass_mapping]
  rw [htab] at hemit_b hwb_b
  rw [hfa2] at hemit_a
  rw [hfb2] at hemit_b
  rw [hfa1] at hwb_a
  rw [hfb1] at hwb_b
  obtain ⟨t2, rfl, rfl⟩ := emit_statements_unique fuel1 fuel2 _ statements_ 0 _ sa1 _ sb1
    hemit_a hemit_b
  obtain ⟨_, t3, h3, hall⟩ := write_back_pass_uniform cast _ _ _ wa hwb_a
  have hb := hall ((sb.put t1).put t2)
  rw [hwb_b] at hb
  have hb2 : wb.2.2 = ((sb.put t1).put t2).put t3 := by
    rw [Except.ok.inj hb]
  exact ⟨t1 ++ t2 ++ t3, by rw [h3, put_put, put_put, String.append_assoc],
    by rw [hb2, put_put, put_put, String.append_assoc]⟩

theorem sample_second_generation :
    ∃ out1 out2,
      vector_saxpy.core [sample_assign] [sample_assign_mapping "y" "x"] 2 empty_stream
        = Except.ok out1 ∧
      vector_saxpy.core [sample_assign] out1.1 2 empty_stream = Except.ok out2 ∧
      out1.2.text = "for(unsigned int i = get_global_id(0) ; i < N ; i += get_global_size(0))\n\x7b\nfloat y_private = y[i];\nfloat x_private = x[i];\n(y_private=x_private);\ny[i] = y_private;\n\x7d\n" ∧
      out2.2.text = "for(unsigned int i = get_global_id(0) ; i < N ; i += get_global_size(0))\n\x7b\nfloat y_private = y[i];\nfloat x_private = x_private;\n(y_private=x_private);\ny[i] = y_private;\n\x7d\n" ∧
      out1.2.text.length = 166 ∧ out2.2.text.length = 171 :=
  ⟨_, _, rfl, rfl, rfl, rfl, rfl, rfl⟩

/-- Counterexample to C24 as stated: for the batch `y = x`, `vector_saxpy::core` invoked
a second time on the same batch and on the mapping tables as the first generation left
them emits `float x_private = x_private;` where the first generation emitted
`float x_private = x[i];`: the two kernel sources differ. -/
theorem second_generation_counterexample :
    ∃ out1 out2,
      vector_saxpy.core [sample_assign] [sample_assign_mapping "y" "x"] 2 empty_stream
        = Except.ok out1 ∧
      vector_saxpy.core [sample_assign] out1.1 2 empty_stream = Except.ok out2 ∧
      out1.2.text = "for(unsigned int i = get_global_id(0) ; i < N ; i += get_global_size(0))\n\x7b\nfloat y_private = y[i];\nfloat x_private = x[i];\n(y_private=x_private);\ny[i] = y_private;\n\x7d\n" ∧
      out2.2.text = "for(unsigned int i = get_global_id(0) ; i < N ; i += get_global_size(0))\n\x7b\nfloat y_private = y[i];\nfloat x_private = x_private;\n(y_private=x_private);\ny[i] = y_private;\n\x7d\n" ∧
      out1.2.text ≠ out2.2.text := by
  obtain ⟨out1, out2, h1, h2, h3, h4, h5, h6⟩ := sample_second_generation
  refine ⟨out1, out2, h1, h2, h3, h4, fun h => ?_⟩
  rw [h] at h5
  omega

/-- C24, amended: two generations of the kernel body from the same Statement Batch and
from mapping tables in the same state append the same text, whatever the buffers they
append to and the recursion depths they are given, and leave the tables in the same
state; for `vector_saxpy::core` and for `matrix_saxpy::core`. -/
theorem generation_deterministic (statements_ : List statement)
    (mapping_ : List mapping_type) (fuel1 fuel2 : Nat)
    (stream1 stream2 : kernel_generation_stream)
    (out1 out2 : List mapping_type × kernel_generation_stream) :
    (vector_saxpy.core statements_ mapping_ fuel1 stream1 = Except.ok out1 →
      vector_saxpy.core statements_ mapping_ fuel2 stream2 = Except.ok out2 →
      out1.1 = out2.1 ∧
        ∃ source, out1.2.text = stream1.text ++ source ∧
          out2.2.text = stream2.text ++ source) ∧
    (matrix_saxpy.core statements_ mapping_ fuel1 stream1 = Except.ok out1 →
      matrix_saxpy.core statements_ mapping_ fuel2 stream2 = Except.ok out2 →
      out1.1 = out2.1 ∧
        ∃ source, out1.2.text = stream1.text ++ source ∧
          out2.2.text = stream2.text ++ source) := by
  constructor
  · intro h1 h2
    obtain ⟨sa1, wa, hea, hwa, rfl⟩ := vector_core_ok _ _ _ _ _ h1
    obtain ⟨sb1, wb, heb, hwb, rfl⟩ := vector_core_ok _ _ _ _ _ h2
    obtain ⟨htab, t, hta, htb⟩ := body_unique vector_saxpy.handle_cast statements_ mapping_
      fuel1 fuel2 _ sa1 _ sb1 wa wb hea hwa heb hwb
    refine ⟨htab, "for(unsigned int i = get_global_id(0) ; i < N ; i += get_global_size(0))"
      ++ "\n" ++ "\x7b" ++ "\n" ++ t ++ "\x7d" ++ "\n", ?_, ?_⟩
    · simp only [hta, vector_saxpy.body_stream, kernel_generation_stream.put,
        kernel_generation_stream.endl, kernel_generation_stream.inc_tab,
        kernel_generation_stream.dec_tab, String.append_assoc]
    · simp only [htb, vector_saxpy.body_stream, kernel_generation_stream.put,
        kernel_generation_stream.endl, kernel_generation_stream.inc_tab,
        kernel_generation_stream.dec_tab, String.append_assoc]
  · intro h1 h2
    obtain ⟨sa1, wa, hea, hwa, rfl⟩ := matrix_core_ok _ _ _ _ _ h1
    obtain ⟨sb1, wb, heb, hwb, rfl⟩ := matrix_core_ok _ _ _ _ _ h2
    obtain ⟨htab, t, hta, htb⟩ := body_unique matrix_saxpy.matrix_cast statements_ mapping_
      fuel1 fuel2 _ sa1 _ sb1 wa wb hea hwa heb hwb
    refine ⟨htab, "for(unsigned int i = get_global_id(0) ; i < M ; i += get_global_size(0))"
      ++ "\n" ++ "\x7b" ++ "\n"
      ++ "for(unsigned int j = get_global_id(1) ; j < N ; j += get_global_size(1))"
      ++ "\n" ++ "\x7b" ++ "\n" ++ t ++ "\x7d" ++ "\n" ++ "\x7d" ++ "\n", ?_, ?_⟩
    · simp only [hta, matrix_saxpy.body_stream, kernel_generation_stream.put,
        kernel_generation_stream.endl, kernel_generation_stream.inc_tab,
        kernel_generation_stream.dec_tab, String.append_assoc]
    · simp only [htb, matrix_saxpy.body_stream, kernel_generation_stream.put,
        kernel_generation_stream.endl, kernel_generation_stream.inc_tab,
        kernel_generation_stream.dec_tab, String.append_assoc]

/-- Witness of C24: two generations of `y = x` from the fresh tables, one into the empty
buffer with depth 2 and one into a buffer that holds `// kernel` with depth 5, append
the same text. -/
theorem generation_deterministic_witness :
    ∃ out1 out2,
      vector_saxpy.core [sample_assign] [sample_assign_mapping "y" "x"] 2 empty_stream
        = Except.ok out1 ∧
      vector_saxpy.core [sample_assign] [sample_assign_mapping "y" "x"] 5
        ⟨"// kernel", 0⟩ = Except.ok out2 ∧
      out1.1 = out2.1 ∧
      ∃ source, out1.2.text = empty_stream.text ++ source ∧
        out2.2.text = "// kernel" ++ source := by
  have hcore1 : ∃ out, vector_saxpy.core [sample_assign] [sample_assign_mapping "y" "x"] 2
      empty_stream = Except.ok out := ⟨_, rfl⟩
  have hcore2 : ∃ out, vector_saxpy.core [sample_assign] [sample_assign_mapping "y" "x"] 5
      ⟨"// kernel", 0⟩ = Except.ok out := ⟨_, rfl⟩
  obtain ⟨out1, h1⟩ := hcore1
  obtain ⟨out2, h2⟩ := hcore2
  exact ⟨out1, out2, h1, h2,
    (generation_deterministic [sample_assign] [sample_assign_mapping "y" "x"] 2 5
      empty_stream ⟨"// kernel", 0⟩ out1 out2).1 h1 h2⟩

/-! ## Grouping events are nested -/

namespace detail

theorem nesting_depth_append : ∀ (xs ys : List traversal_event) (d : Nat),
    nesting_depth d (xs ++ ys) = (nesting_depth d xs).bind fun d' => nesting_depth d' ys := by
  intro xs
  induction xs with
  | nil => intro ys d; simp [nesting_depth]
  | cons x xs ih =>
    intro ys d
    cases x with
    | on_leaf k node => simp only [List.cons_append, nesting_depth]; exact ih _ _
    | on_operator f t => simp only [List.cons_append, nesting_depth]; exact ih _ _
    | before_expansion => simp only [List.cons_append, nesting_depth]; exact ih _ _
    | after_expansion =>
      by_cases hd : d = 0
      · simp [nesting_depth, hd]
      · simp only [List.cons_append, nesting_depth, hd, if_false]; exact ih _ _

theorem nesting_depth_shift : ∀ (xs : List traversal_event) (d d' k : Nat),
    nesting_depth d xs = some d' → nesting_depth (d + k) xs = some (d' + k) := by
  intro xs
  induction xs with
  | nil => intro d d' k h; simp only [nesting_depth, Option.some.injEq] at h ⊢; omega
  | cons x xs ih =>
    intro d d' k h
    cases x with
    | on_leaf key node => simp only [nesting_depth] at h ⊢; exact ih _ _ _ h
    | on_operator f t => simp only [nesting_depth] at h ⊢; exact ih _ _ _ h
    | before_expansion =>
      simp only [nesting_depth] at h ⊢
      have := ih _ _ k h
      rwa [show d + 1 + k = d + k + 1 by omega] at this
    | after_expansion =>
      by_cases hd : d = 0
      · simp [nesting_depth, hd] at h
      · simp only [nesting_depth, hd, if_false] at h
        have hdk : ¬ d + k = 0 := by omega
        simp only [nesting_depth, hdk, if_false]
        have := ih _ _ k h
        rwa [show d - 1 + k = d + k - 1 by omega] at this

theorem nesting_depth_group (xs : List traversal_event) (d : Nat)
    (h : nesting_depth 0 xs = some 0) :
    nesting_depth d ([traversal_event.before_expansion] ++ xs
      ++ [traversal_event.after_expansion]) = some d := by
  have h1 := nesting_depth_shift xs 0 0 (d + 1) h
  simp only [Nat.zero_add] at h1
  rw [List.append_assoc, nesting_depth_append]
  simp only [nesting_depth, Option.some_bind]
  rw [nesting_depth_append, h1]
  simp [nesting_depth]

theorem nesting_depth_same (xs : List traversal_event) (d : Nat)
    (h : nesting_depth 0 xs = some 0) : nesting_depth d xs = some d := by
  have h1 := nesting_depth_shift xs 0 0 d h
  simpa using h1

theorem nesting_depth_counts : ∀ (xs : List traversal_event) (d d' : Nat),
    nesting_depth d xs = some d' →
    (∀ n, (xs.take n).count traversal_event.after_expansion
        ≤ d + (xs.take n).count traversal_event.before_expansion) ∧
      d' + xs.count traversal_event.after_expansion
        = d + xs.count traversal_event.before_expansion := by
  intro xs
  induction xs with
  | nil =>
    intro d d' h
    simp only [nesting_depth, Option.some.injEq] at h
    simp [h]
  | cons x xs ih =>
    intro d d' h
    cases x with
    | on_leaf key node =>
      simp only [nesting_depth] at h
      obtain ⟨h1, h2⟩ := ih d d' h
      refine ⟨fun n => ?_, by simpa using h2⟩
      cases n with
      | zero => simp
      | succ n => simpa using h1 n
    | on_operator f t =>
      simp only [nesting_depth] at h
      obtain ⟨h1, h2⟩ := ih d d' h
      refine ⟨fun n => ?_, by simpa using h2⟩
      cases n with
      | zero => simp
      | succ n => simpa using h1 n
    | before_expansion =>
      simp only [nesting_depth] at h
      obtain ⟨h1, h2⟩ := ih (d + 1) d' h
      refine ⟨fun n => ?_, by simp; omega⟩
      cases n with
      | zero => simp
      | succ n => have := h1 n; simp; omega
    | after_expansion =>
      by_cases hd : d = 0
      · simp [nesting_depth, hd] at h
      · simp only [nesting_depth, hd, if_false] at h
        obtain ⟨h1, h2⟩ := ih (d - 1) d' h
        refine ⟨fun n => ?_, by simp; omega⟩
        cases n with
        | zero => simp
        | succ n => have := h1 n; simp; omega

theorem traverse_events_nested (array : List statement_node) (deep : Bool) :
    ∀ (fuel : Nat) (key : index_info) (evs : List traversal_event),
      traverse_events array deep fuel key = Except.ok evs → nesting_depth 0 evs = some 0 := by
  intro fuel
  induction fuel with
  | zero => intro key evs h; exact absurd h (traverse_events_zero _ _ _ _)
  | succ n ih =>
    intro key evs h
    obtain ⟨element, _, hcases⟩ := traverse_events_inv array deep n key evs h
    rcases hcases with ⟨_, rfl⟩ | ⟨_, _, l, hl, rfl⟩ | ⟨_, _, _, ⟨_, rfl⟩ | ⟨_, r, hr, rfl⟩⟩ |
      ⟨_, _, _, ⟨_, rfl⟩ | ⟨_, l, r, hl, hr, rfl⟩⟩ | ⟨_, _, _, _, _, l, r, hl, hr, rfl⟩ |
      ⟨_, _, _, rfl⟩
    · rfl
    · have := nesting_depth_group l 0 (ih _ _ hl)
      simpa [nesting_depth] using this
    · rfl
    · simpa [nesting_depth] using ih _ _ hr
    · rfl
    · have hmid : nesting_depth 0 (l ++ [traversal_event.on_operator element.op_family_
          element.op_type_] ++ r) = some 0 := by
        rw [List.append_assoc, nesting_depth_append, ih _ _ hl]
        simpa [nesting_depth] using ih _ _ hr
      have := nesting_depth_group _ 0 hmid
      simpa [nesting_depth, List.append_assoc] using this
    · have hmid : nesting_depth 0 (l ++ [traversal_event.on_operator element.op_family_
          element.op_type_] ++ r) = some 0 := by
        rw [List.append_assoc, nesting_depth_append, ih _ _ hl]
        simpa [nesting_depth] using ih _ _ hr
      have := nesting_depth_group _ 0 hmid
      simpa [nesting_depth, List.append_assoc] using this
    · rfl

end detail

theorem generate_symbol_no_parenthesis (type : operation_node_type) (symbol : String)
    (h : detail.generate type = some symbol) :
    count_char '(' symbol = 0 ∧ count_char ')' symbol = 0 := by
  unfold detail.generate at h
  split at h
  · cases h; exact ⟨by decide, by decide⟩
  · cases h; exact ⟨by decide, by decide⟩
  · cases h; exact ⟨by decide, by decide⟩
  · cases h; exact ⟨by decide, by decide⟩
  · cases h

theorem emission_replay_parentheses (index_string_ : String) (mapping_ : mapping_type)
    (array : List statement_node)
    (hleaf : ∀ key c, mapping_type.at mapping_ key = some c →
      count_char '(' (c.generate index_string_) = count_char ')' (c.generate index_string_)) :
    ∀ (evs : List detail.traversal_event) (s s' : kernel_generation_stream),
      detail.replay_events (detail.expression_generation_traversal index_string_ mapping_)
        array evs s = Except.ok s' →
      ∃ t, s' = s.put t ∧
        count_char '(' t + evs.count detail.traversal_event.after_expansion
          = count_char ')' t + evs.count detail.traversal_event.before_expansion := by
  intro evs
  induction evs with
  | nil =>
    intro s s' h
    rw [replay_nil_ok] at h
    exact ⟨"", by rw [h, put_empty], by decide⟩
  | cons ev evs ih =>
    intro s s' h
    obtain ⟨a, ha, hrest⟩ := (replay_cons_ok _ _ _ _ _ _).mp h
    obtain ⟨t, rfl, ht⟩ := ih a s' hrest
    cases ev with
    | on_leaf key node =>
      obtain ⟨c, hc, rfl⟩ := (emission_leaf_ok _ _ _ _ _ _ _).mp ha
      refine ⟨c.generate index_string_ ++ t, put_put _ _ _, ?_⟩
      have := hleaf key c hc
      simp [count_char_append] at ht ⊢
      omega
    | on_operator family type =>
      obtain ⟨symbol, hsym, rfl⟩ := (emission_op_ok _ _ _ _ _ _ _).mp ha
      refine ⟨symbol ++ t, put_put _ _ _, ?_⟩
      obtain ⟨h1, h2⟩ := generate_symbol_no_parenthesis type symbol hsym
      simp [count_char_append] at ht ⊢
      omega
    | before_expansion =>
      rw [emission_before_ok] at ha
      subst ha
      refine ⟨"(" ++ t, put_put _ _ _, ?_⟩
      have e1 : count_char '(' "(" = 1 := by decide
      have e2 : count_char ')' "(" = 0 := by decide
      simp [count_char_append, e1, e2] at ht ⊢
      omega
    | after_expansion =>
      rw [emission_after_ok] at ha
      subst ha
      refine ⟨")" ++ t, put_put _ _ _, ?_⟩
      have e1 : count_char '(' ")" = 0 := by decide
      have e2 : count_char ')' ")" = 1 := by decide
      simp [count_char_append, e1, e2] at ht ⊢
      omega

/-- C31: for every graph, deep flag and key on which `traverse` returns, in the sequence
of hook invocations every initial part has at least as many `before_expansion` as
`after_expansion` events and the whole sequence has equally many; and whenever the
code-emission visitor returns from the traversal, with operand texts that hold equally
many `(` and `)`, the text it has appended holds equally many `(` and `)`. -/
theorem balanced_grouping (array : List statement_node) (deep : Bool) (key : index_info)
    (evs : List detail.traversal_event) (h : detail.Traverses array deep key evs) :
    (∀ n, (evs.take n).count detail.traversal_event.after_expansion
        ≤ (evs.take n).count detail.traversal_event.before_expansion) ∧
    evs.count detail.traversal_event.after_expansion
      = evs.count detail.traversal_event.before_expansion ∧
    detail.nesting_depth 0 evs = some 0 ∧
    ∀ (index_string_ : String) (mapping_ : mapping_type) (fuel : Nat)
      (s s' : kernel_generation_stream),
      (∀ k c, mapping_type.at mapping_ k = some c →
        count_char '(' (c.generate index_string_)
          = count_char ')' (c.generate index_string_)) →
      detail.traverse array (detail.expression_generation_traversal index_string_ mapping_)
        deep fuel key s = Except.ok s' →
      ∃ t, s' = s.put t ∧ count_char '(' t = count_char ')' t := by
  obtain ⟨fuel0, h0⟩ := h
  have hnest := detail.traverse_events_nested array deep fuel0 key evs h0
  obtain ⟨h1, h2⟩ := detail.nesting_depth_counts evs 0 0 hnest
  refine ⟨fun n => by simpa using h1 n, by simpa using h2, hnest, ?_⟩
  intro index_string_ mapping_ fuel s s' hleaf htr
  obtain ⟨evs', hevs', hrep⟩ := detail.traverse_events_of_ok _ _ _ _ _ _ _ htr
  have heq := detail.traverse_events_unique array deep key fuel fuel0 evs' evs hevs' h0
  subst heq
  obtain ⟨t, ht, hcount⟩ := emission_replay_parentheses index_string_ mapping_ array hleaf
    evs' s s' hrep
  refine ⟨t, ht, ?_⟩
  simp only [Nat.zero_add] at h2
  omega

/-- Witness of C31: the traversal of `a = b + c` makes two `before_expansion` and two
`after_expansion` invocations, nested, and the emitted text
`(a[i]=(b[i]+c[i]))` holds two `(` and two `)`. -/
theorem balanced_grouping_witness :
    detail.Traverses sample_sum_assign.array true (0, node_type.PARENT_TYPE)
      [detail.traversal_event.before_expansion,
       detail.traversal_event.on_leaf (0, node_type.LHS_NODE_TYPE)
         ⟨operation_node_type_family.OPERATION_BINARY_TYPE_FAMILY,
          operation_node_type.OPERATION_BINARY_ASSIGN_TYPE,
          statement_node_type_family.TERMINAL_TYPE_FAMILY 0, 0,
          statement_node_type_family.COMPOSITE_OPERATION_FAMILY, 1⟩,
       detail.traversal_event.on_operator
         operation_node_type_family.OPERATION_BINARY_TYPE_FAMILY
         operation_node_type.OPERATION_BINARY_ASSIGN_TYPE,
       detail.traversal_event.before_expansion,
       detail.traversal_event.on_leaf (1, node_type.LHS_NODE_TYPE)
         ⟨operation_node_type_family.OPERATION_BINARY_TYPE_FAMILY,
          operation_node_type.OPERATION_BINARY_ADD_TYPE,
          statement_node_type_family.TERMINAL_TYPE_FAMILY 0, 0,
          statement_node_type_family.TERMINAL_TYPE_FAMILY 0, 0⟩,
       detail.traversal_event.on_operator
         operation_node_type_family.OPERATION_BINARY_TYPE_FAMILY
         operation_node_type.OPERATION_BINARY_ADD_TYPE,
       detail.traversal_event.on_leaf (1, node_type.RHS_NODE_TYPE)
         ⟨operation_node_type_family.OPERATION_BINARY_TYPE_FAMILY,
          operation_node_type.OPERATION_BINARY_ADD_TYPE,
          statement_node_type_family.TERMINAL_TYPE_FAMILY 0, 0,
          statement_node_type_family.TERMINAL_TYPE_FAMILY 0, 0⟩,
       detail.traversal_event.after_expansion,
       detail.traversal_event.after_expansion] ∧
    ∃ t, (kernel_generation_stream.mk "(a[i]=(b[i]+c[i]))" 0)
        = empty_stream.put t ∧ count_char '(' t = count_char ')' t := by
  have htr : detail.Traverses sample_sum_assign.array true (0, node_type.PARENT_TYPE)
      [detail.traversal_event.before_expansion,
       detail.traversal_event.on_leaf (0, node_type.LHS_NODE_TYPE)
         ⟨operation_node_type_family.OPERATION_BINARY_TYPE_FAMILY,
          operation_node_type.OPERATION_BINARY_ASSIGN_TYPE,
          statement_node_type_family.TERMINAL_TYPE_FAMILY 0, 0,
          statement_node_type_family.COMPOSITE_OPERATION_FAMILY, 1⟩,
       detail.traversal_event.on_operator
         operation_node_type_family.OPERATION_BINARY_TYPE_FAMILY
         operation_node_type.OPERATION_BINARY_ASSIGN_TYPE,
       detail.traversal_event.before_expansion,
       detail.traversal_event.on_leaf (1, node_type.LHS_NODE_TYPE)
         ⟨operation_node_type_family.OPERATION_BINARY_TYPE_FAMILY,
          operation_node_type.OPERATION_BINARY_ADD_TYPE,
          statement_node_type_family.TERMINAL_TYPE_FAMILY 0, 0,
          statement_node_type_family.TERMINAL_TYPE_FAMILY 0, 0⟩,
       detail.traversal_event.on_operator
         operation_node_type_family.OPERATION_BINARY_TYPE_FAMILY
         operation_node_type.OPERATION_BINARY_ADD_TYPE,
       detail.traversal_event.on_leaf (1, node_type.RHS_NODE_TYPE)
         ⟨operation_node_type_family.OPERATION_BINARY_TYPE_FAMILY,
          operation_node_type.OPERATION_BINARY_ADD_TYPE,
          statement_node_type_family.TERMINAL_TYPE_FAMILY 0, 0,
          statement_node_type_family.TERMINAL_TYPE_FAMILY 0, 0⟩,
       detail.traversal_event.after_expansion,
       detail.traversal_event.after_expansion] := ⟨3, rfl⟩
  have hrun : detail.traverse sample_sum_assign.array
      (detail.expression_generation_traversal "i"
        (binary_assign_mapping (sample_vector "a") (sample_vector "b") (sample_vector "c")))
      true 3 (0, node_type.PARENT_TYPE) empty_stream
        = Except.ok ⟨"(a[i]=(b[i]+c[i]))", 0⟩ := rfl
  refine ⟨htr, (balanced_grouping _ _ _ _ htr).2.2.2 "i"
    (binary_assign_mapping (sample_vector "a") (sample_vector "b") (sample_vector "c"))
    3 empty_stream _ ?_ hrun⟩
  intro k c hc
  have hmem := at_mem _ _ _ hc
  simp only [binary_assign_mapping, List.mem_cons, Prod.mk.injEq, List.mem_nil_iff,
    or_false] at hmem
  rcases hmem with ⟨_, rfl⟩ | ⟨_, rfl⟩ | ⟨_, rfl⟩ | ⟨_, rfl⟩ <;> decide

/-! ## The keys passed to `on_leaf` -/

namespace detail

theorem get_new_key_role (type_family : statement_node_type_family)
    (current_index next_index : Nat) (tag : node_type) :
    (get_new_key type_family current_index next_index tag).2 = node_type.PARENT_TYPE ∨
      (get_new_key type_family current_index next_index tag).2 = tag := by
  unfold get_new_key
  split_ifs
  · exact Or.inl rfl
  · exact Or.inr rfl

set_option maxHeartbeats 4000000 in
theorem recorded_leaf_keys (array : List statement_node) (deep : Bool) :
    ∀ (fuel : Nat) (key : index_info) (k : index_info) (node : statement_node),
      traversal_event.on_leaf k node ∈ recorded_events (traverse_events array deep fuel key) →
      (k = key ∧ key.2 ≠ node_type.PARENT_TYPE) ∨
      (k.2 = node_type.PARENT_TYPE ∧
        node.op_family_ = operation_node_type_family.OPERATION_BINARY_TYPE_FAMILY ∧
        (node.op_type_ = operation_node_type.OPERATION_BINARY_ACCESS ∨
          node.op_type_ = operation_node_type.OPERATION_BINARY_PROD_TYPE ∨
          node.op_type_ = operation_node_type.OPERATION_BINARY_INNER_PROD_TYPE)) ∨
      k.2 = node_type.LHS_NODE_TYPE ∨ k.2 = node_type.RHS_NODE_TYPE := by
  intro fuel
  induction fuel with
  | zero =>
    intro key k node h
    simp [traverse_events, traverse, recorded_events] at h
  | succ n ih =>
    intro key k node h
    unfold traverse_events at h
    rw [traverse] at h
    cases hel : array[key.1]? with
    | none => simp [hel, recorded_events] at h
    | some element =>
      have hl : ∀ k node, traversal_event.on_leaf k node ∈ recorded_events
          (traverse_events array deep n (get_new_key element.lhs_type_family_ key.1
            element.lhs_node_index_ node_type.LHS_NODE_TYPE)) →
          (k.2 = node_type.PARENT_TYPE ∧
            node.op_family_ = operation_node_type_family.OPERATION_BINARY_TYPE_FAMILY ∧
            (node.op_type_ = operation_node_type.OPERATION_BINARY_ACCESS ∨
              node.op_type_ = operation_node_type.OPERATION_BINARY_PROD_TYPE ∨
              node.op_type_ = operation_node_type.OPERATION_BINARY_INNER_PROD_TYPE)) ∨
          k.2 = node_type.LHS_NODE_TYPE ∨ k.2 = node_type.RHS_NODE_TYPE := by
        intro k node hk
        rcases ih _ k node hk with ⟨rfl, hne⟩ | h2
        · rcases get_new_key_role element.lhs_type_family_ key.1 element.lhs_node_index_
            node_type.LHS_NODE_TYPE with h3 | h3
          · exact absurd h3 hne
          · exact Or.inr (Or.inl h3)
        · exact h2
      have hr : ∀ k node, traversal_event.on_leaf k node ∈ recorded_events
          (traverse_events array deep n (get_new_key element.rhs_type_family_ key.1
            element.rhs_node_index_ node_type.RHS_NODE_TYPE)) →
          (k.2 = node_type.PARENT_TYPE ∧
            node.op_family_ = operation_node_type_family.OPERATION_BINARY_TYPE_FAMILY ∧
            (node.op_type_ = operation_node_type.OPERATION_BINARY_ACCESS ∨
              node.op_type_ = operation_node_type.OPERATION_BINARY_PROD_TYPE ∨
              node.op_type_ = operation_node_type.OPERATION_BINARY_INNER_PROD_TYPE)) ∨
          k.2 = node_type.LHS_NODE_TYPE ∨ k.2 = node_type.RHS_NODE_TYPE := by
        intro k node hk
        rcases ih _ k node hk with ⟨rfl, hne⟩ | h2
        · rcases get_new_key_role element.rhs_type_family_ key.1 element.rhs_node_index_
            node_type.RHS_NODE_TYPE with h3 | h3
          · exact absurd h3 hne
          · exact Or.inr (Or.inr h3)
        · exact h2
      simp only [hel, recorder_on_leaf, recorder_on_op, recorder_before, recorder_after,
        except_ok_bind, except_pure, List.nil_append, traverse_recorder_append] at h
      by_cases hrole : key.2 = node_type.PARENT_TYPE
      · right
        cases h1 : traverse_events array deep n (get_new_key element.lhs_type_family_ key.1
          element.lhs_node_index_ node_type.LHS_NODE_TYPE) <;>
        cases h2 : traverse_events array deep n (get_new_key element.rhs_type_family_ key.1
          element.rhs_node_index_ node_type.RHS_NODE_TYPE) <;>
        simp only [h1, h2, recorded_events] at hl hr h <;>
        split_ifs at h <;>
        simp [shift_events, recorded_events, except_ok_bind, except_error_bind, except_pure]
          at h <;>
        aesop
      · left
        simp [hrole, recorded_events] at h
        exact ⟨h.1, hrole⟩

end detail

/-- C32: for every graph, both values of the deep flag and every recursion depth, every
key that `traverse`, started at a key with the role `PARENT_TYPE` (the root key
`(0, PARENT_TYPE)` in particular), passes to `on_leaf`, whether the traversal returns or
fails, has the role `PARENT_TYPE` (and then the node is an element-access or a reducing
node), `LHS_NODE_TYPE` or `RHS_NODE_TYPE`; it never has the role `LHS_LEAF_TYPE`, so the
key `(0, LHS_LEAF_TYPE)` of the write-back pass is not among them. -/
theorem traversal_leaf_keys (array : List statement_node) (deep : Bool) (fuel : Nat)
    (key k : index_info) (node : statement_node)
    (hkey : key.2 = node_type.PARENT_TYPE)
    (h : detail.traversal_event.on_leaf k node
      ∈ detail.recorded_events (detail.traverse_events array deep fuel key)) :
    ((k.2 = node_type.PARENT_TYPE ∧
        node.op_family_ = operation_node_type_family.OPERATION_BINARY_TYPE_FAMILY ∧
        (node.op_type_ = operation_node_type.OPERATION_BINARY_ACCESS ∨
          node.op_type_ = operation_node_type.OPERATION_BINARY_PROD_TYPE ∨
          node.op_type_ = operation_node_type.OPERATION_BINARY_INNER_PROD_TYPE)) ∨
      k.2 = node_type.LHS_NODE_TYPE ∨ k.2 = node_type.RHS_NODE_TYPE) ∧
    k.2 ≠ node_type.LHS_LEAF_TYPE ∧ k ≠ (0, node_type.LHS_LEAF_TYPE) := by
  have hq : (k.2 = node_type.PARENT_TYPE ∧
        node.op_family_ = operation_node_type_family.OPERATION_BINARY_TYPE_FAMILY ∧
        (node.op_type_ = operation_node_type.OPERATION_BINARY_ACCESS ∨
          node.op_type_ = operation_node_type.OPERATION_BINARY_PROD_TYPE ∨
          node.op_type_ = operation_node_type.OPERATION_BINARY_INNER_PROD_TYPE)) ∨
      k.2 = node_type.LHS_NODE_TYPE ∨ k.2 = node_type.RHS_NODE_TYPE := by
    rcases detail.recorded_leaf_keys array deep fuel key k node h with ⟨_, hne⟩ | h2
    · exact absurd hkey hne
    · exact h2
  have hne : k.2 ≠ node_type.LHS_LEAF_TYPE := by
    rcases hq with ⟨h1, _⟩ | h1 | h1 <;> rw [h1] <;> decide
  exact ⟨hq, hne, fun hk => hne (by rw [hk])⟩

/-- Witness of C32: the deep traversal of `y = A * x` from the root passes the key
`(1, PARENT_TYPE)` of the product node to `on_leaf`; its role is not `LHS_LEAF_TYPE`. -/
theorem traversal_leaf_keys_witness :
    detail.traversal_event.on_leaf (1, node_type.PARENT_TYPE)
        ⟨operation_node_type_family.OPERATION_BINARY_TYPE_FAMILY,
          operation_node_type.OPERATION_BINARY_PROD_TYPE,
          statement_node_type_family.TERMINAL_TYPE_FAMILY 0, 0,
          statement_node_type_family.TERMINAL_TYPE_FAMILY 0, 0⟩
      ∈ detail.recorded_events (detail.traverse_events sample_prod_assign.array true 3
          (0, node_type.PARENT_TYPE)) ∧
    ((1, node_type.PARENT_TYPE) : index_info) ≠ (0, node_type.LHS_LEAF_TYPE) := by
  have hmem : detail.traversal_event.on_leaf (1, node_type.PARENT_TYPE)
        ⟨operation_node_type_family.OPERATION_BINARY_TYPE_FAMILY,
          operation_node_type.OPERATION_BINARY_PROD_TYPE,
          statement_node_type_family.TERMINAL_TYPE_FAMILY 0, 0,
          statement_node_type_family.TERMINAL_TYPE_FAMILY 0, 0⟩
      ∈ detail.recorded_events (detail.traverse_events sample_prod_assign.array true 3
          (0, node_type.PARENT_TYPE)) := by decide
  exact ⟨hmem, (traversal_leaf_keys sample_prod_assign.array true 3
    (0, node_type.PARENT_TYPE) (1, node_type.PARENT_TYPE) _ rfl hmem).2.2⟩

/-! ## The deep flag on graphs without element-access and reducing nodes -/

namespace detail

theorem traverse_deep_irrelevant {σ : Type} (array : List statement_node)
    (fun_ : TraversalFunctor σ)
    (hgraph : ∀ node ∈ array,
      node.op_type_ ≠ operation_node_type.OPERATION_BINARY_ACCESS ∧
      node.op_type_ ≠ operation_node_type.OPERATION_BINARY_PROD_TYPE ∧
      node.op_type_ ≠ operation_node_type.OPERATION_BINARY_INNER_PROD_TYPE) :
    ∀ (fuel : Nat) (key : index_info) (s : σ),
      traverse array fun_ true fuel key s = traverse array fun_ false fuel key s := by
  intro fuel
  induction fuel with
  | zero => intro key s; rfl
  | succ n ih =>
    intro key s
    rw [traverse, traverse]
    cases hel : array[key.1]? with
    | none => rfl
    | some element =>
      obtain ⟨h1, h2, h3⟩ := hgraph element (List.getElem?_mem hel)
      have hih : traverse array fun_ true n = traverse array fun_ false n :=
        funext fun k => funext fun s => ih k s
      simp only [h1, h2, h3, hih, if_false, decide_False, Bool.or_self, Bool.not_false,
        Bool.false_and, Bool.or_false, Bool.true_or, if_true]

end detail

/-- C33: for every graph in which no node has the operator type element access,
matrix-vector product or inner product, `traverse` does the same with `deep = true` as
with `deep = false`: for every visitor, key, recursion depth and state the two calls have
the same outcome, and the recorded sequences of hook invocations are the same. -/
theorem deep_flag_irrelevant (array : List statement_node)
    (hgraph : ∀ node ∈ array,
      node.op_type_ ≠ operation_node_type.OPERATION_BINARY_ACCESS ∧
      node.op_type_ ≠ operation_node_type.OPERATION_BINARY_PROD_TYPE ∧
      node.op_type_ ≠ operation_node_type.OPERATION_BINARY_INNER_PROD_TYPE) :
    (∀ (fuel : Nat) (key : index_info),
      detail.traverse_events array true fuel key
        = detail.traverse_events array false fuel key) ∧
    (∀ (key : index_info) (evs : List detail.traversal_event),
      detail.Traverses array true key evs ↔ detail.Traverses array false key evs) ∧
    ∀ (σ : Type) (fun_ : detail.TraversalFunctor σ) (fuel : Nat) (key : index_info) (s : σ),
      detail.traverse array fun_ true fuel key s
        = detail.traverse array fun_ false fuel key s := by
  have h1 : ∀ (fuel : Nat) (key : index_info),
      detail.traverse_events array true fuel key
        = detail.traverse_events array false fuel key :=
    fun fuel key => detail.traverse_deep_irrelevant array detail.event_recorder hgraph fuel key []
  refine ⟨h1, fun key evs => ?_, fun σ fun_ fuel key s =>
    detail.traverse_deep_irrelevant array fun_ hgraph fuel key s⟩
  unfold detail.Traverses
  simp only [h1]

/-- Witness of C33: the graph of `a = b + c` has no element-access or reducing node, and
its traversal from the root records the same events with either value of the flag. -/
theorem deep_flag_irrelevant_witness :
    detail.traverse_events sample_sum_assign.array true 3 (0, node_type.PARENT_TYPE)
      = detail.traverse_events sample_sum_assign.array false 3 (0, node_type.PARENT_TYPE) :=
  (deep_flag_irrelevant sample_sum_assign.array (by decide)).1 3 (0, node_type.PARENT_TYPE)

/-! ## More on `write_back` -/

/-- C34: applied to a mapped handle `c` whose name is not in the fetched set,
`write_back` appends nothing to the stream and leaves the fetched set as it is, and
still resets the access name of `c` to the empty string, whatever it was. -/
theorem write_back_of_unfetched (c : mapped_container) (index : String)
    (fetched : Finset String) (stream : kernel_generation_stream)
    (hnot : c.name ∉ fetched) :
    write_back c index fetched stream = ({ c with access_name := "" }, fetched, stream) := by
  simp [write_back_eq, hnot]

/-- Witness of C34: the vector `y`, with the access name `y_private` but not in the
fetched set, is not written back; its access name is reset. -/
theorem write_back_of_unfetched_witness :
    (fetch (sample_vector "y") "i" ∅ empty_stream).1.access_name = "y_private" ∧
      (write_back (fetch (sample_vector "y") "i" ∅ empty_stream).1 "i" {"x"}
        ⟨"float x_private = x[i];\n", 1⟩).2.2 = ⟨"float x_private = x[i];\n", 1⟩ ∧
      (write_back (fetch (sample_vector "y") "i" ∅ empty_stream).1 "i" {"x"}
        ⟨"float x_private = x[i];\n", 1⟩).2.1 = {"x"} ∧
      (write_back (fetch (sample_vector "y") "i" ∅ empty_stream).1 "i" {"x"}
        ⟨"float x_private = x[i];\n", 1⟩).1.access_name = "" := by
  have h := write_back_of_unfetched (fetch (sample_vector "y") "i" ∅ empty_stream).1 "i"
    {"x"} ⟨"float x_private = x[i];\n", 1⟩ (by decide)
  rw [h]
  exact ⟨by decide, rfl, rfl, rfl⟩

/-- C35: starting from a handle `c` with an empty access name and a fetched set that
does not hold its name, `fetch` followed by `write_back` on the resulting handle with the
same index gives back the handle `c` (its access name is empty again) and the fetched set
as it was, and appends exactly the register declaration
`<scalartype> <name>_private = <memory access of c at index>;` followed by the write-back
line `<memory access of c at index> = <name>_private;`: the left-hand side of the second
is the expression the first is initialised from. -/
theorem fetch_write_back_round_trip (c : mapped_container) (index : String)
    (fetched : Finset String) (stream : kernel_generation_stream)
    (hempty : c.access_name = "") (hnot : c.name ∉ fetched) :
    (write_back (fetch c index fetched stream).1 index (fetch c index fetched stream).2.1
        (fetch c index fetched stream).2.2).1 = c ∧
    (write_back (fetch c index fetched stream).1 index (fetch c index fetched stream).2.1
        (fetch c index fetched stream).2.2).2.1 = fetched ∧
    (write_back (fetch c index fetched stream).1 index (fetch c index fetched stream).2.1
        (fetch c index fetched stream).2.2).2.2
      = (stream.put (c.scalartype ++ " " ++ (c.name ++ "_private") ++ " = "
            ++ c.memory_access index ++ ";" ++ "\n")).put
          (c.memory_access index ++ " = " ++ (c.name ++ "_private") ++ ";" ++ "\n") ∧
    (fetch c index fetched stream).2.2
      = stream.put (c.scalartype ++ " " ++ (c.name ++ "_private") ++ " = "
            ++ c.memory_access index ++ ";" ++ "\n") := by
  have hgen : c.generate index = c.memory_access index := by
    simp [mapped_container.generate, hempty]
  have hc : ({ c with access_name := "" } : mapped_container) = c := by
    cases c
    simp only at hempty
    subst hempty
    rfl
  refine ⟨?_, ?_, ?_, ?_⟩
  · simp only [fetch_eq, write_back_eq]
    exact hc
  · simp [fetch_eq, write_back_eq, hnot]
  · simp [-String.reduceAppend, fetch_eq, write_back_eq, hnot, register_line,
      write_back_line, hgen]
  · simp [-String.reduceAppend, fetch_eq, hnot, register_line, hgen]

/-- Witness of C35: for the vector `x`, `fetch` then `write_back` append
`float x_private = x[i];` and `x[i] = x_private;` and give back the handle and the empty
fetched set. -/
theorem fetch_write_back_round_trip_witness :
    (write_back (fetch (sample_vector "x") "i" ∅ empty_stream).1 "i"
        (fetch (sample_vector "x") "i" ∅ empty_stream).2.1
        (fetch (sample_vector "x") "i" ∅ empty_stream).2.2).2.2
      = ⟨"float x_private = x[i];\nx[i] = x_private;\n", 0⟩ ∧
    (write_back (fetch (sample_vector "x") "i" ∅ empty_stream).1 "i"
        (fetch (sample_vector "x") "i" ∅ empty_stream).2.1
        (fetch (sample_vector "x") "i" ∅ empty_stream).2.2).2.1 = ∅ ∧
    (write_back (fetch (sample_vector "x") "i" ∅ empty_stream).1 "i"
        (fetch (sample_vector "x") "i" ∅ empty_stream).2.1
        (fetch (sample_vector "x") "i" ∅ empty_stream).2.2).1.access_name = "" := by
  obtain ⟨h1, h2, h3, _⟩ := fetch_write_back_round_trip (sample_vector "x") "i" ∅
    empty_stream rfl (by decide)
  refine ⟨?_, h2, ?_⟩
  · rw [h3]; rfl
  · rw [h1]; rfl

/-! ## The profile and the kernel body -/

/-- C36: the result of `vector_saxpy::core`, and of `matrix_saxpy::core`, does not
depend on the profile of the template: two templates with the same statements and the
same mapping tables, whatever their profiles (vectorization, group sizes, numbers of
groups, decomposition flag), have the same outcome on every stream, in particular the
same emitted text; replacing the profile of a template changes nothing. -/
theorem core_profile_independent :
    (∀ (t1 t2 : vector_saxpy) (fuel : Nat) (stream : kernel_generation_stream),
      t1.statements_ = t2.statements_ → t1.mapping_ = t2.mapping_ →
      t1.core_of fuel stream = t2.core_of fuel stream) ∧
    (∀ (t : vector_saxpy) (p : vector_saxpy.profile) (fuel : Nat)
      (stream : kernel_generation_stream),
      vector_saxpy.core_of { t with profile_ := p } fuel stream = t.core_of fuel stream) ∧
    (∀ (t1 t2 : matrix_saxpy) (fuel : Nat) (stream : kernel_generation_stream),
      t1.statements_ = t2.statements_ → t1.mapping_ = t2.mapping_ →
      t1.core_of fuel stream = t2.core_of fuel stream) ∧
    (∀ (t : matrix_saxpy) (p : matrix_saxpy.profile) (fuel : Nat)
      (stream : kernel_generation_stream),
      matrix_saxpy.core_of { t with profile_ := p } fuel stream = t.core_of fuel stream) := by
  refine ⟨fun t1 t2 fuel stream h1 h2 => ?_, fun _ _ _ _ => rfl,
    fun t1 t2 fuel stream h1 h2 => ?_, fun _ _ _ _ => rfl⟩
  · simp only [vector_saxpy.core_of, h1, h2]
  · simp only [matrix_saxpy.core_of, h1, h2]

/-- Witness of C36: two vector templates over `y = x` with the profiles
`(1, 128, 128, true)` and `(4, 64, 32, false)` have the same outcome, with the kernel
body of `y = x`. -/
theorem core_profile_independent_witness :
    vector_saxpy.core_of ⟨[sample_assign], [sample_assign_mapping "y" "x"],
        ⟨1, 128, 128, true⟩⟩ 2 empty_stream
      = vector_saxpy.core_of ⟨[sample_assign], [sample_assign_mapping "y" "x"],
        ⟨4, 64, 32, false⟩⟩ 2 empty_stream ∧
    (vector_saxpy.core_of ⟨[sample_assign], [sample_assign_mapping "y" "x"],
        ⟨4, 64, 32, false⟩⟩ 2 empty_stream).toOption.map (fun r => r.2.text)
      = some "for(unsigned int i = get_global_id(0) ; i < N ; i += get_global_size(0))\n\x7b\nfloat y_private = y[i];\nfloat x_private = x[i];\n(y_private=x_private);\ny[i] = y_private;\n\x7d\n" :=
  ⟨core_profile_independent.1 _ _ 2 empty_stream rfl rfl, rfl⟩

/-! ## Distinct elements have distinct offsets -/

theorem sample_env_values (rows columns i j : Nat) :
    sample_env rows columns i j "M" = rows ∧ sample_env rows columns i j "N" = columns ∧
      sample_env rows columns i j "i" = i ∧ sample_env rows columns i j "j" = j :=
  ⟨rfl, rfl, rfl, rfl⟩

theorem linear_offset_injective (n a b a2 b2 : Nat) (hb : b < n) (hb2 : b2 < n)
    (h : a * n + b = a2 * n + b2) : a = a2 ∧ b = b2 := by
  have hn : 0 < n := by omega
  have h1 : (a * n + b) / n = a := by
    rw [Nat.add_comm, Nat.add_mul_div_right _ _ hn, Nat.div_eq_of_lt hb, Nat.zero_add]
  have h2 : (a2 * n + b2) / n = a2 := by
    rw [Nat.add_comm, Nat.add_mul_div_right _ _ hn, Nat.div_eq_of_lt hb2, Nat.zero_add]
  have ha : a = a2 := by rw [← h1, ← h2, h]
  subst ha
  exact ⟨rfl, by omega⟩

theorem linear_offset_lt (m n a b : Nat) (ha : a < m) (hb : b < n) : a * n + b < m * n := by
  have h1 : (a + 1) * n ≤ m * n := Nat.mul_le_mul_right _ ha
  have h2 : (a + 1) * n = a * n + n := by ring
  omega

/-- Counterexample to C37 as stated: in a row-major matrix with `M = N = 65537` the
distinct in-bounds pairs `(65536, 0)` and `(0, 65536)` have the same value 65536 of the
index expression `i*N + j` in the `unsigned int` arithmetic of the kernel. -/
theorem offset_collision_counterexample :
    65536 < 65537 ∧ 0 < 65537 ∧ ((65536, 0) : Nat × Nat) ≠ (0, 65536) ∧
      (matrix_saxpy.offset_expr true).value (sample_env 65537 65537 65536 0) = 65536 ∧
      (matrix_saxpy.offset_expr true).value (sample_env 65537 65537 0 65536) = 65536 := by
  refine ⟨by decide, by decide, by decide, ?_, ?_⟩
  · rw [(offset_value _).1]; decide
  · rw [(offset_value _).1]; decide

/-- C37, amended: for all `M`, `N` with `M*N ≤ 2^32` and all `i < M`, `j < N`, the values
in the kernel of both index expressions of `get_offset` (row-major `i*N + j` and
column-major `i + j*M`) are below `M*N`, and two in-bounds pairs with the same value are
the same pair. -/
theorem offsets_collision_free (rows columns i j i2 j2 : Nat)
    (hsize : rows * columns ≤ 2 ^ 32) (hi : i < rows) (hj : j < columns)
    (hi2 : i2 < rows) (hj2 : j2 < columns) :
    (matrix_saxpy.offset_expr true).value (sample_env rows columns i j) < rows * columns ∧
    (matrix_saxpy.offset_expr false).value (sample_env rows columns i j) < rows * columns ∧
    ((matrix_saxpy.offset_expr true).value (sample_env rows columns i j)
        = (matrix_saxpy.offset_expr true).value (sample_env rows columns i2 j2) →
      i = i2 ∧ j = j2) ∧
    ((matrix_saxpy.offset_expr false).value (sample_env rows columns i j)
        = (matrix_saxpy.offset_expr false).value (sample_env rows columns i2 j2) →
      i = i2 ∧ j = j2) := by
  have hrow : ∀ a b, a < rows → b < columns →
      (matrix_saxpy.offset_expr true).value (sample_env rows columns a b)
        = a * columns + b := by
    intro a b ha hb
    rw [(offset_value _).1]
    simp only [sample_env_values]
    exact Nat.mod_eq_of_lt (lt_of_lt_of_le (linear_offset_lt rows columns a b ha hb) hsize)
  have hcol : ∀ a b, a < rows → b < columns →
      (matrix_saxpy.offset_expr false).value (sample_env rows columns a b)
        = b * rows + a := by
    intro a b ha hb
    rw [(offset_value _).2]
    simp only [sample_env_values]
    rw [Nat.add_comm]
    refine Nat.mod_eq_of_lt (lt_of_lt_of_le (linear_offset_lt columns rows b a hb ha) ?_)
    rw [Nat.mul_comm]; exact hsize
  rw [hrow i j hi hj, hrow i2 j2 hi2 hj2, hcol i j hi hj, hcol i2 j2 hi2 hj2]
  refine ⟨linear_offset_lt rows columns i j hi hj, ?_,
    fun h => linear_offset_injective columns i j i2 j2 hj hj2 h, fun h => ?_⟩
  · have := linear_offset_lt columns rows j i hj hi
    rwa [Nat.mul_comm columns rows] at this
  · exact (linear_offset_injective rows j i j2 i2 hi hi2 h).symm

/-- Witness of C37: in a matrix with 4 rows and 4 columns the element of row 2 and
column 3 has the row-major offset 11 and the column-major offset 14, both below 16, and
differing from the offsets of the element of row 3 and column 2. -/
theorem offsets_collision_free_witness :
    ((matrix_saxpy.offset_expr true).value (sample_env 4 4 2 3) = 11 ∧
      (matrix_saxpy.offset_expr false).value (sample_env 4 4 2 3) = 14) ∧
    (matrix_saxpy.offset_expr true).value (sample_env 4 4 2 3) < 4 * 4 ∧
    (matrix_saxpy.offset_expr false).value (sample_env 4 4 2 3) < 4 * 4 ∧
    ((matrix_saxpy.offset_expr true).value (sample_env 4 4 2 3)
        = (matrix_saxpy.offset_expr true).value (sample_env 4 4 3 2) → 2 = 3 ∧ 3 = 2) ∧
    ((matrix_saxpy.offset_expr false).value (sample_env 4 4 2 3)
        = (matrix_saxpy.offset_expr false).value (sample_env 4 4 3 2) → 2 = 3 ∧ 3 = 2) :=
  ⟨⟨by decide, by decide⟩,
    offsets_collision_free 4 4 2 3 3 2 (by decide) (by decide) (by decide) (by decide)
      (by decide)⟩

/-! ## The exact buffer after an emission, returned or failed -/

theorem emission_hook_text (index_string_ : String) (mapping_ : mapping_type)
    (array : List statement_node) (ev : detail.traversal_event)
    (s : kernel_generation_stream) :
    (∀ t, event_text index_string_ mapping_ ev = some t →
      detail.dispatch_event (detail.expression_generation_traversal index_string_ mapping_)
        array ev s = Except.ok (s.put t)) ∧
    (event_text index_string_ mapping_ ev = none →
      ∃ e, detail.dispatch_event
        (detail.expression_generation_traversal index_string_ mapping_) array ev s
          = Except.error (e, s)) := by
  cases ev with
  | on_leaf key node =>
    simp only [event_text, detail.dispatch_event, detail.expression_generation_traversal]
    cases mapping_type.at mapping_ key with
    | none => simp
    | some c => simp
  | on_operator family type =>
    simp only [event_text, detail.dispatch_event, detail.expression_generation_traversal]
    cases detail.generate type with
    | none => simp
    | some symbol => simp
  | before_expansion =>
    simp [event_text, detail.dispatch_event, detail.expression_generation_traversal]
  | after_expansion =>
    simp [event_text, detail.dispatch_event, detail.expression_generation_traversal]

theorem emission_replay_final (index_string_ : String) (mapping_ : mapping_type)
    (array : List statement_node) :
    ∀ (evs : List detail.traversal_event) (s : kernel_generation_stream),
      final_stream id (detail.replay_events
          (detail.expression_generation_traversal index_string_ mapping_) array evs s)
        = s.put (emitted_before_failure index_string_ mapping_ evs) := by
  intro evs
  induction evs with
  | nil => intro s; simp [detail.replay_events, final_stream, emitted_before_failure, put_empty]
  | cons ev evs ih =>
    intro s
    obtain ⟨hok, herr⟩ := emission_hook_text index_string_ mapping_ array ev s
    cases ht : event_text index_string_ mapping_ ev with
    | none =>
      obtain ⟨e, he⟩ := herr ht
      rw [replay_cons_of_error _ _ _ _ _ _ he]
      simp [final_stream, emitted_before_failure, ht, put_empty]
    | some t =>
      rw [replay_cons_of_ok _ _ _ _ _ _ (hok t ht), ih]
      simp [emitted_before_failure, ht, put_put]

theorem emission_final (index_string_ : String) (mapping_ : mapping_type)
    (array : List statement_node) (deep : Bool) (fuel : Nat) (key : index_info)
    (s : kernel_generation_stream) :
    final_stream id (detail.traverse array
        (detail.expression_generation_traversal index_string_ mapping_) deep fuel key s)
      = s.put (emitted_before_failure index_string_ mapping_
          (detail.recorded_events (detail.traverse_events array deep fuel key))) := by
  rw [detail.traverse_eq_replay_result, ← emission_replay_final index_string_ mapping_ array]
  cases hr : detail.traverse_events array deep fuel key with
  | ok evs => rfl
  | error p =>
    simp only [detail.replay_result, detail.recorded_events]
    cases hq : detail.replay_events
        (detail.expression_generation_traversal index_string_ mapping_) array p.2 s with
    | error q => rfl
    | ok a => rfl

namespace detail

set_option maxHeartbeats 4000000 in
theorem traverse_events_error_kind (array : List statement_node) (deep : Bool) :
    ∀ (fuel : Nat) (key : index_info) (p : gen_error × List traversal_event),
      traverse_events array deep fuel key = Except.error p →
      p.1 = gen_error.fuel_exhausted ∨ p.1 = gen_error.bad_index := by
  intro fuel
  induction fuel with
  | zero =>
    intro key p h
    simp only [traverse_events, traverse, Except.error.injEq] at h
    subst h
    exact Or.inl rfl
  | succ n ih =>
    intro key p h
    unfold traverse_events at h
    rw [traverse] at h
    cases hel : array[key.1]? with
    | none =>
      simp only [hel, Except.error.injEq] at h
      subst h
      exact Or.inr rfl
    | some element =>
      simp only [hel, recorder_on_leaf, recorder_on_op, recorder_before, recorder_after,
        except_ok_bind, except_pure, List.nil_append, traverse_recorder_append] at h
      have hl := ih (get_new_key element.lhs_type_family_ key.1 element.lhs_node_index_
        node_type.LHS_NODE_TYPE)
      have hr := ih (get_new_key element.rhs_type_family_ key.1 element.rhs_node_index_
        node_type.RHS_NODE_TYPE)
      cases h1 : traverse_events array deep n (get_new_key element.lhs_type_family_ key.1
        element.lhs_node_index_ node_type.LHS_NODE_TYPE) <;>
      cases h2 : traverse_events array deep n (get_new_key element.rhs_type_family_ key.1
        element.rhs_node_index_ node_type.RHS_NODE_TYPE) <;>
      simp only [h1, h2] at hl hr h <;>
      split_ifs at h <;>
      simp [shift_events, except_ok_bind, except_error_bind, except_pure] at h <;>
      first
        | (have hl2 := hl _ rfl; rw [← h]; exact hl2)
        | (have hr2 := hr _ rfl; rw [← h]; exact hr2)

end detail

theorem emission_replay_failure_point (index_string_ : String) (mapping_ : mapping_type)
    (array : List statement_node) :
    ∀ (evs : List detail.traversal_event) (s sf : kernel_generation_stream),
      detail.replay_events (detail.expression_generation_traversal index_string_ mapping_)
        array evs s = Except.error (gen_error.not_implemented, sf) →
      ∃ pre family type rest,
        evs = pre ++ detail.traversal_event.on_operator family type :: rest ∧
        detail.generate type = none ∧
        (∀ ev ∈ pre, (event_text index_string_ mapping_ ev).isSome = true) ∧
        sf = s.put (emitted_before_failure index_string_ mapping_ pre) := by
  intro evs
  induction evs with
  | nil => intro s sf h; simp [detail.replay_events] at h
  | cons ev evs ih =>
    intro s sf h
    obtain ⟨hok, herr⟩ := emission_hook_text index_string_ mapping_ array ev s
    cases ht : event_text index_string_ mapping_ ev with
    | some t =>
      rw [replay_cons_of_ok _ _ _ _ _ _ (hok t ht)] at h
      obtain ⟨pre, family, type, rest, hevs, hgen, hpre, hsf⟩ := ih _ _ h
      refine ⟨ev :: pre, family, type, rest, by rw [hevs]; rfl, hgen, ?_, ?_⟩
      · intro x hx
        rcases List.mem_cons.mp hx with rfl | hx
        · rw [ht]; rfl
        · exact hpre x hx
      · rw [hsf, put_put]
        simp [emitted_before_failure, ht]
    | none =>
      cases ev with
      | on_leaf key node =>
        simp only [event_text, Option.map_eq_none'] at ht
        simp [detail.replay_events, detail.dispatch_event,
          detail.expression_generation_traversal, ht, detail.except_error_bind] at h
      | on_operator family type =>
        simp only [event_text] at ht
        refine ⟨[], family, type, evs, rfl, ht, by simp, ?_⟩
        simp [detail.replay_events, detail.dispatch_event,
          detail.expression_generation_traversal, ht, detail.except_error_bind] at h
        simp [emitted_before_failure, put_empty, h]
      | before_expansion => simp [event_text] at ht
      | after_expansion => simp [event_text] at ht

/-- C18 as amended: whenever emission of a statement fails, for whatever reason, the
buffer holds exactly what it held before the emission call started followed by the texts
that the hooks appended for the events before the failing one, in order, so nothing is
rolled back and the tab counter is unchanged; when it fails on an unsupported operator,
the events are some events whose hooks all appended their text, then the `on_operator`
of an operator without symbol, which appends nothing itself, and the buffer holds the
earlier content followed by the texts of the events before that operator. -/
theorem failed_emission_keeps_earlier_text (index_string_ : String) (mapping_ : mapping_type)
    (array : List statement_node) (deep : Bool) (fuel : Nat) (key : index_info)
    (str_ sf : kernel_generation_stream) (e : gen_error)
    (hfail : detail.traverse array
      (detail.expression_generation_traversal index_string_ mapping_) deep fuel key str_
        = Except.error (e, sf)) :
    sf = str_.put (emitted_before_failure index_string_ mapping_
        (detail.recorded_events (detail.traverse_events array deep fuel key))) ∧
    sf.text = str_.text ++ emitted_before_failure index_string_ mapping_
        (detail.recorded_events (detail.traverse_events array deep fuel key)) ∧
    sf.tab_count = str_.tab_count ∧
    (e = gen_error.not_implemented →
      ∃ pre family type rest,
        detail.recorded_events (detail.traverse_events array deep fuel key)
          = pre ++ detail.traversal_event.on_operator family type :: rest ∧
        detail.generate type = none ∧
        (∀ ev ∈ pre, (event_text index_string_ mapping_ ev).isSome = true) ∧
        sf = str_.put (emitted_before_failure index_string_ mapping_ pre)) ∧
    ∀ (family : operation_node_type_family) (type : operation_node_type)
      (s : kernel_generation_stream),
      detail.generate type = none →
        (detail.expression_generation_traversal index_string_ mapping_).call_on_op family
          type s = Except.error (gen_error.not_implemented, s) := by
  have hfinal := emission_final index_string_ mapping_ array deep fuel key str_
  rw [hfail] at hfinal
  simp only [final_stream] at hfinal
  refine ⟨hfinal, by rw [hfinal]; rfl, by rw [hfinal]; rfl, ?_, ?_⟩
  · intro he
    subst he
    rw [detail.traverse_eq_replay_result] at hfail
    cases hr : detail.traverse_events array deep fuel key with
    | ok evs =>
      rw [hr] at hfail
      exact emission_replay_failure_point index_string_ mapping_ array evs str_ sf hfail
    | error p =>
      rw [hr] at hfail
      simp only [detail.replay_result] at hfail
      cases hq : detail.replay_events
          (detail.expression_generation_traversal index_string_ mapping_) array p.2 str_ with
      | error q =>
        rw [hq, detail.except_error_bind] at hfail
        cases hfail
        exact emission_replay_failure_point index_string_ mapping_ array p.2 str_ sf hq
      | ok a =>
        rw [hq, detail.except_ok_bind] at hfail
        have hkind := detail.traverse_events_error_kind array deep fuel key p hr
        simp only [Except.error.injEq, Prod.mk.injEq] at hfail
        rw [hfail.1] at hkind
        rcases hkind with h | h <;> cases h
  · intro family type s hg
    simp [detail.expression_generation_traversal, hg]

/-- Witness of C18 as amended: the failed emission of `y = x - z` into the buffer
`// kernel` leaves `// kernel(y[i]=(x[i]`: the earlier content and the texts of the four
events before the operator without symbol. -/
theorem failed_emission_keeps_earlier_text_witness :
    detail.traverse sample_unsupported_assign.array
        (detail.expression_generation_traversal "i"
          (binary_assign_mapping (sample_vector "y") (sample_vector "x") (sample_vector "z")))
        true 3 (0, node_type.PARENT_TYPE) ⟨"// kernel", 0⟩
      = Except.error (gen_error.not_implemented, ⟨"// kernel(y[i]=(x[i]", 0⟩) ∧
    emitted_before_failure "i"
        (binary_assign_mapping (sample_vector "y") (sample_vector "x") (sample_vector "z"))
        (detail.recorded_events (detail.traverse_events sample_unsupported_assign.array true 3
          (0, node_type.PARENT_TYPE))) = "(y[i]=(x[i]" ∧
    (kernel_generation_stream.mk "// kernel(y[i]=(x[i]" 0)
      = (kernel_generation_stream.mk "// kernel" 0).put
          (emitted_before_failure "i"
            (binary_assign_mapping (sample_vector "y") (sample_vector "x")
              (sample_vector "z"))
            (detail.recorded_events (detail.traverse_events sample_unsupported_assign.array
              true 3 (0, node_type.PARENT_TYPE)))) :=
  ⟨rfl, rfl, (failed_emission_keeps_earlier_text "i"
    (binary_assign_mapping (sample_vector "y") (sample_vector "x") (sample_vector "z"))
    sample_unsupported_assign.array true 3 (0, node_type.PARENT_TYPE) ⟨"// kernel", 0⟩
    ⟨"// kernel(y[i]=(x[i]", 0⟩ gen_error.not_implemented rfl).1⟩

/-! ## References to handles in the statements that `vector_saxpy::core` emits -/

theorem fetched_operand_reference (c : mapped_container) (index : String) :
    (fetched_operand vector_saxpy.handle_cast c).generate index
      = register_reference c index := by
  unfold register_reference
  by_cases hh : c.is_mapped_handle = true
  · rw [if_pos hh]; exact fetched_operand_generate c index hh
  · rw [if_neg hh]
    simp [fetched_operand, vector_saxpy.handle_cast, hh]

theorem emission_replay_statement_text (index_string_ : String) (m : mapping_type)
    (array : List statement_node) :
    ∀ (evs : List detail.traversal_event) (s s' : kernel_generation_stream),
      detail.replay_events
        (detail.expression_generation_traversal index_string_
          (m.map fun e => (e.1, fetched_operand vector_saxpy.handle_cast e.2)))
        array evs s = Except.ok s' →
      ∃ t, statement_text index_string_ m evs = some t ∧ s' = s.put t := by
  intro evs
  induction evs with
  | nil =>
    intro s s' h
    rw [replay_nil_ok] at h
    exact ⟨"", rfl, by rw [h, put_empty]⟩
  | cons ev evs ih =>
    intro s s' h
    obtain ⟨a, ha, hrest⟩ := (replay_cons_ok _ _ _ _ _ _).mp h
    obtain ⟨t, ht, rfl⟩ := ih a s' hrest
    cases ev with
    | on_leaf key node =>
      obtain ⟨c', hc', rfl⟩ := (emission_leaf_ok _ _ _ _ _ _ _).mp ha
      rw [at_map] at hc'
      cases hc : mapping_type.at m key with
      | none => simp [hc] at hc'
      | some c =>
        simp only [hc, Option.map_some', Option.some.injEq] at hc'
        subst hc'
        refine ⟨register_reference c index_string_ ++ t, ?_, ?_⟩
        · simp [statement_text, hc, ht]
        · rw [put_put, fetched_operand_reference]
    | on_operator family type =>
      obtain ⟨symbol, hsym, rfl⟩ := (emission_op_ok _ _ _ _ _ _ _).mp ha
      exact ⟨symbol ++ t, by simp [statement_text, hsym, ht], put_put _ _ _⟩
    | before_expansion =>
      rw [emission_before_ok] at ha
      subst ha
      exact ⟨"(" ++ t, by simp [statement_text, ht], put_put _ _ _⟩
    | after_expansion =>
      rw [emission_after_ok] at ha
      subst ha
      exact ⟨")" ++ t, by simp [statement_text, ht], put_put _ _ _⟩

theorem put_text_injective (t1 t2 : String)
    (h : empty_stream.put t1 = empty_stream.put t2) : t1 = t2 := by
  have := congrArg kernel_generation_stream.text h
  simpa [kernel_generation_stream.put, empty_stream] using this

/-- C5: for every batch that can be generated `vector_saxpy::core` returns, and whenever
it returns, its output is the loop header, the register declarations, one text per
statement of the batch with its terminator, the write-back lines and the closing brace,
where the text of statement `j` is the text of the events of its traversal with the table
`j` of the batch in which every reference to a mapped handle `c`, at whatever Position
Key, is the register name `<c.name>_private`, and never the memory access of `c`. -/
theorem emitted_references_are_registers (statements_ : List statement)
    (mapping_ : List mapping_type) (fuel : Nat) (stream : kernel_generation_stream) :
    (generable statements_ mapping_ fuel = true →
      ∃ out, vector_saxpy.core statements_ mapping_ fuel stream = Except.ok out) ∧
    (∀ out, vector_saxpy.core statements_ mapping_ fuel stream = Except.ok out →
      ∃ (decls : List (mapped_container × String)) (texts : List String)
        (wbs : List (mapped_container × String)),
        out.2.text = stream.text
            ++ "for(unsigned int i = get_global_id(0) ; i < N ; i += get_global_size(0))"
            ++ "\n" ++ "\x7b" ++ "\n"
            ++ concat_lines (decls.map fun d => register_line d.1 d.2)
            ++ concat_lines (texts.map fun t => t ++ ";" ++ "\n")
            ++ concat_lines (wbs.map fun d => write_back_line d.1 d.2)
            ++ "\x7d" ++ "\n" ∧
        texts.length = statements_.length ∧
        ∀ (j : Nat) (it : statement) (t : String),
          statements_[j]? = some it → texts[j]? = some t →
          ∃ m evs, mapping_[j]? = some m ∧
            detail.traverse_events it.array true fuel (0, node_type.PARENT_TYPE)
              = Except.ok evs ∧
            statement_text "" m evs = some t) ∧
    (∀ (index : String) (m : mapping_type) (key : index_info) (node : statement_node)
      (c : mapped_container),
      mapping_type.at m key = some c → c.is_mapped_handle = true →
      statement_text index m [detail.traversal_event.on_leaf key node]
        = some (c.name ++ "_private")) := by
  refine ⟨vector_core_returns statements_ mapping_ fuel stream, fun out hcore => ?_, ?_⟩
  · obtain ⟨decls, texts, wbs, htext, _, _, _, hlen, ht, _⟩ :=
      vector_body_structure statements_ mapping_ fuel stream out hcore
    refine ⟨decls, texts, wbs, htext, hlen, fun j it t hj htj => ?_⟩
    obtain ⟨m, hm, htr⟩ := ht j it t hj htj
    obtain ⟨evs, hevs, hrep⟩ := detail.traverse_events_of_ok _ _ _ _ _ _ _ (htr empty_stream)
    obtain ⟨t2, ht2, heq⟩ := emission_replay_statement_text "" m it.array evs _ _ hrep
    exact ⟨m, evs, hm, hevs, by rw [ht2, put_text_injective t t2 heq]⟩
  · intro index m key node c hat hh
    simp [statement_text, hat, register_reference, hh]

/-- Witness of C5: in the batch `y = x`, `z = x` both statements refer to `x` as
`x_private`: the output holds `(y_private=x_private);` and `(z_private=x_private);`, and
the text of the second statement is the text of its events with the register names. -/
theorem emitted_references_are_registers_witness :
    ∃ out, vector_saxpy.core [sample_assign, sample_assign]
        [sample_assign_mapping "y" "x", sample_assign_mapping "z" "x"] 2 empty_stream
          = Except.ok out ∧
      out.2.text = "for(unsigned int i = get_global_id(0) ; i < N ; i += get_global_size(0))\n\x7b\nfloat y_private = y[i];\nfloat x_private = x[i];\nfloat z_private = z[i];\n(y_private=x_private);\n(z_private=x_private);\ny[i] = y_private;\nz[i] = z_private;\n\x7d\n" ∧
      (∃ evs, detail.traverse_events sample_assign.array true 2 (0, node_type.PARENT_TYPE)
          = Except.ok evs ∧
        statement_text "" (sample_assign_mapping "z" "x") evs
          = some "(z_private=x_private)") ∧
      ∃ texts : List String, texts.length = 2 ∧
        ∀ t, texts[1]? = some t →
          ∃ m evs, [sample_assign_mapping "y" "x", sample_assign_mapping "z" "x"][1]? = some m ∧
            detail.traverse_events sample_assign.array true 2 (0, node_type.PARENT_TYPE)
              = Except.ok evs ∧
            statement_text "" m evs = some t := by
  have hgen : generable [sample_assign, sample_assign]
      [sample_assign_mapping "y" "x", sample_assign_mapping "z" "x"] 2 = true := by decide
  obtain ⟨out, hout⟩ := (emitted_references_are_registers [sample_assign, sample_assign]
    [sample_assign_mapping "y" "x", sample_assign_mapping "z" "x"] 2 empty_stream).1 hgen
  have htext := sample_vector_core_text
  obtain ⟨decls, texts, wbs, _, hlen, hall⟩ :=
    (emitted_references_are_registers [sample_assign, sample_assign]
      [sample_assign_mapping "y" "x", sample_assign_mapping "z" "x"] 2 empty_stream).2.1
        out hout
  refine ⟨out, hout, ?_, ⟨_, rfl, rfl⟩, texts, hlen, fun t ht => hall 1 sample_assign t rfl ht⟩
  rw [hout] at htext
  simpa [Except.toOption] using htext

end generator

namespace linalg
namespace cuda

/-! ## Dense matrix-matrix products -/

theorem assert_ok (ndebug condition : Bool) (message : String)
    (h : ndebug = true ∨ condition = true) : assert ndebug condition message = Except.ok () := by
  unfold assert
  rcases h with h | h <;> simp [h]

theorem assert_cases (ndebug condition : Bool) (message : String) :
    assert ndebug condition message = Except.ok () ∨
      assert ndebug condition message = Except.error (failure.assertion message) := by
  unfold assert
  by_cases h : (ndebug || condition) = true
  · left; simp [h]
  · right; simp [h]

theorem detail.prod_throws {ScalarType : Type} (A B C : dense_matrix)
    (alpha beta : ScalarType) (fast_kernel_name slow_kernel_name : String) :
    detail.prod A B C alpha beta fast_kernel_name slow_kernel_name
      = Except.error (failure.thrown "not implemented yet") := by
  unfold detail.prod
  split_ifs <;> rfl

theorem asserted_call {α : Type} (ndebug : Bool) (c1 c2 c3 c4 : Bool)
    (m1 m2 m3 m4 : String) (body : Except failure α)
    (hbody : body = Except.error (failure.thrown "not implemented yet")) :
    ((assert ndebug c1 m1 >>= fun _ => assert ndebug c2 m2 >>= fun _ =>
        assert ndebug c3 m3 >>= fun _ => assert ndebug c4 m4 >>= fun _ => body)
          = Except.error (failure.thrown "not implemented yet") ∨
      ∃ message, (assert ndebug c1 m1 >>= fun _ => assert ndebug c2 m2 >>= fun _ =>
        assert ndebug c3 m3 >>= fun _ => assert ndebug c4 m4 >>= fun _ => body)
          = Except.error (failure.assertion message)) ∧
    ((ndebug = true ∨ (c1 = true ∧ c2 = true ∧ c3 = true ∧ c4 = true)) →
      (assert ndebug c1 m1 >>= fun _ => assert ndebug c2 m2 >>= fun _ =>
        assert ndebug c3 m3 >>= fun _ => assert ndebug c4 m4 >>= fun _ => body)
          = Except.error (failure.thrown "not implemented yet")) := by
  subst hbody
  constructor
  · rcases assert_cases ndebug c1 m1 with h1 | h1 <;>
    rcases assert_cases ndebug c2 m2 with h2 | h2 <;>
    rcases assert_cases ndebug c3 m3 with h3 | h3 <;>
    rcases assert_cases ndebug c4 m4 with h4 | h4 <;>
    simp [h1, h2, h3, h4, bind, Except.bind]
  · intro h
    have e1 : assert ndebug c1 m1 = Except.ok () := assert_ok _ _ _ (by tauto)
    have e2 : assert ndebug c2 m2 = Except.ok () := assert_ok _ _ _ (by tauto)
    have e3 : assert ndebug c3 m3 = Except.ok () := assert_ok _ _ _ (by tauto)
    have e4 : assert ndebug c4 m4 = Except.ok () := assert_ok _ _ _ (by tauto)
    simp [e1, e2, e3, e4, bind, Except.bind]

theorem prod_impl_cases {ScalarType : Type} (ndebug : Bool) (A B : matrix_argument)
    (C : dense_matrix) (alpha beta : ScalarType) :
    prod_impl ndebug A B C alpha beta = Except.error (failure.thrown "not implemented yet") ∨
      ∃ message, prod_impl ndebug A B C alpha beta
        = Except.error (failure.assertion message) := by
  cases A <;> cases B <;>
    exact (asserted_call ndebug _ _ _ _ _ _ _ _ _ (detail.prod_throws _ _ _ _ _ _ _)).1

theorem asserted_call_debug {α : Type} (c1 c2 c3 c4 : Bool) (m1 m2 m3 m4 : String)
    (body : Except failure α)
    (hbody : body = Except.error (failure.thrown "not implemented yet")) :
    ((assert false c1 m1 >>= fun _ => assert false c2 m2 >>= fun _ =>
        assert false c3 m3 >>= fun _ => assert false c4 m4 >>= fun _ => body)
          = Except.error (failure.thrown "not implemented yet")
      ↔ c1 = true ∧ c2 = true ∧ c3 = true ∧ c4 = true) := by
  subst hbody
  cases c1 <;> cases c2 <;> cases c3 <;> cases c4 <;>
    simp [assert, bind, Except.bind]

/-- Counterexample to C38 as stated: with the assertions compiled in, `prod_impl` for
`A*B` with `A` of size 4 by 5 and `B` of size 6 by 7 stops at the assertion
`size2(A) == size1(B)`; it does not fail with `"not implemented yet"`. -/
theorem prod_impl_assertion_counterexample :
    prod_impl false (matrix_argument.matrix ⟨4, 5, 1⟩) (matrix_argument.matrix ⟨6, 7, 2⟩)
        ⟨4, 7, 3⟩ (1 : Int) (0 : Int)
      = Except.error
          (failure.assertion "Size mismatch in C = prod(A, B): size2(A) != size1(B)") ∧
    prod_impl false (matrix_argument.matrix ⟨4, 5, 1⟩) (matrix_argument.matrix ⟨6, 7, 2⟩)
        ⟨4, 7, 3⟩ (1 : Int) (0 : Int)
      ≠ Except.error (failure.thrown "not implemented yet") := by
  have h : prod_impl false (matrix_argument.matrix ⟨4, 5, 1⟩)
      (matrix_argument.matrix ⟨6, 7, 2⟩) ⟨4, 7, 3⟩ (1 : Int) (0 : Int)
      = Except.error
          (failure.assertion "Size mismatch in C = prod(A, B): size2(A) != size1(B)") := rfl
  refine ⟨h, ?_⟩
  rw [h]
  intro hne
  cases hne

/-- C38, amended: `detail::prod_slow_kernel`, `detail::prod_fast_kernel` and
`detail::prod` fail with `"not implemented yet"` for all matrix sizes, scalars and kernel
names, whichever branch of the size dispatch is taken; so none of the four `prod_impl`
overloads (`A*B`, `trans(A)*B`, `A*trans(B)`, `trans(A)*trans(B)`) ever returns: it
fails with `"not implemented yet"` or stops at one of its assertions; with the
assertions compiled out it fails with `"not implemented yet"` for all matrices, and with
the assertions compiled in it fails with `"not implemented yet"` exactly when the sizes
and handles are as the assertions of the overload require. -/
theorem prod_never_completes {ScalarType : Type} (A B C : dense_matrix)
    (alpha beta : ScalarType) :
    (∀ kernel_name : String,
      detail.prod_slow_kernel A B C alpha beta kernel_name
        = Except.error (failure.thrown "not implemented yet") ∧
      detail.prod_fast_kernel A B C alpha beta kernel_name
        = Except.error (failure.thrown "not implemented yet")) ∧
    (∀ fast_kernel_name slow_kernel_name : String,
      detail.prod A B C alpha beta fast_kernel_name slow_kernel_name
        = Except.error (failure.thrown "not implemented yet")) ∧
    (∀ (ndebug : Bool) (X Y : matrix_argument),
      (∀ result : dense_matrix, prod_impl ndebug X Y C alpha beta ≠ Except.ok result) ∧
      (prod_impl ndebug X Y C alpha beta
          = Except.error (failure.thrown "not implemented yet") ∨
        ∃ message, prod_impl ndebug X Y C alpha beta
          = Except.error (failure.assertion message))) ∧
    (∀ X Y : matrix_argument,
      prod_impl true X Y C alpha beta
        = Except.error (failure.thrown "not implemented yet")) ∧
    (prod_impl false (matrix_argument.matrix A) (matrix_argument.matrix B) C alpha beta
        = Except.error (failure.thrown "not implemented yet") ↔
      A.size1 = C.size1 ∧ A.size2 = B.size1 ∧ B.size2 = C.size2 ∧
        C.handle ≠ A.handle ∧ C.handle ≠ B.handle) ∧
    (prod_impl false (matrix_argument.trans A) (matrix_argument.matrix B) C alpha beta
        = Except.error (failure.thrown "not implemented yet") ↔
      A.size2 = C.size1 ∧ A.size1 = B.size1 ∧ B.size2 = C.size2 ∧
        C.handle ≠ A.handle ∧ C.handle ≠ B.handle) ∧
    (prod_impl false (matrix_argument.matrix A) (matrix_argument.trans B) C alpha beta
        = Except.error (failure.thrown "not implemented yet") ↔
      A.size1 = C.size1 ∧ A.size2 = B.size2 ∧ B.size1 = C.size2 ∧
        C.handle ≠ A.handle ∧ C.handle ≠ B.handle) ∧
    (prod_impl false (matrix_argument.trans A) (matrix_argument.trans B) C alpha beta
        = Except.error (failure.thrown "not implemented yet") ↔
      A.size2 = C.size1 ∧ A.size1 = B.size2 ∧ B.size1 = C.size2 ∧
        C.handle ≠ A.handle ∧ C.handle ≠ B.handle) := by
  refine ⟨fun _ => ⟨rfl, rfl⟩, fun _ _ => detail.prod_throws _ _ _ _ _ _ _, ?_, ?_, ?_, ?_, ?_,
    ?_⟩
  · intro ndebug X Y
    refine ⟨fun result h => ?_, prod_impl_cases ndebug X Y C alpha beta⟩
    rcases prod_impl_cases ndebug X Y C alpha beta with h1 | ⟨message, h1⟩ <;>
      rw [h1] at h <;> cases h
  · intro X Y
    cases X <;> cases Y <;>
      exact (asserted_call true _ _ _ _ _ _ _ _ _ (detail.prod_throws _ _ _ _ _ _ _)).2
        (Or.inl rfl)
  · refine (asserted_call_debug _ _ _ _ _ _ _ _ _ (detail.prod_throws _ _ _ _ _ _ _)).trans ?_
    simp [and_assoc]
  · refine (asserted_call_debug _ _ _ _ _ _ _ _ _ (detail.prod_throws _ _ _ _ _ _ _)).trans ?_
    simp [and_assoc]
  · refine (asserted_call_debug _ _ _ _ _ _ _ _ _ (detail.prod_throws _ _ _ _ _ _ _)).trans ?_
    simp [and_assoc]
  · refine (asserted_call_debug _ _ _ _ _ _ _ _ _ (detail.prod_throws _ _ _ _ _ _ _)).trans ?_
    simp [and_assoc]

/-- Witness of C38 as amended: the product of two 128 by 128 matrices (the branch of the
fast kernel), with the assertions compiled in and all of them passing, fails with
`"not implemented yet"`; so does `detail::prod` on 3 by 3 matrices (the slow kernel). -/
theorem prod_never_completes_witness :
    prod_impl false (matrix_argument.matrix ⟨128, 128, 1⟩) (matrix_argument.matrix ⟨128, 128, 2⟩)
        ⟨128, 128, 3⟩ (1 : Int) (0 : Int)
      = Except.error (failure.thrown "not implemented yet") ∧
    detail.prod ⟨3, 3, 1⟩ ⟨3, 3, 2⟩ ⟨3, 3, 3⟩ (1 : Int) (0 : Int) "prod16_AA" "prod_AA"
      = Except.error (failure.thrown "not implemented yet") :=
  ⟨(prod_never_completes ⟨128, 128, 1⟩ ⟨128, 128, 2⟩ ⟨128, 128, 3⟩ (1 : Int) (0 : Int)).2.2.2.2.1.mpr
      ⟨rfl, rfl, rfl, by decide, by decide⟩,
    (prod_never_completes ⟨3, 3, 1⟩ ⟨3, 3, 2⟩ ⟨3, 3, 3⟩ (1 : Int) (0 : Int)).2.1 _ _⟩

/-! ## The option words of the scalar arguments -/

theorem option_word_eq (len : Nat) (reciprocal flip_sign : Bool) :
    ((((if len > 1 then (len <<< 2) % 2 ^ 64 else 0)
      + (if reciprocal then 2 else 0)) % 2 ^ 64
      + (if flip_sign then 1 else 0)) % 2 ^ 64) % 2 ^ 32
      = option_word_spec len reciprocal flip_sign := by
  unfold option_word_spec
  simp only [Nat.shiftLeft_eq]
  split_ifs <;> omega

theorem option_word_value (len : Nat) (reciprocal flip_sign : Bool) (hlen : len < 2 ^ 30) :
    option_word_spec len reciprocal flip_sign
      = 4 * (if len > 1 then len else 0) + 2 * (if reciprocal then 1 else 0)
        + (if flip_sign then 1 else 0) := by
  unfold option_word_spec
  simp only [Nat.shiftLeft_eq]
  split_ifs <;> omega

theorem option_word_decode (len : Nat) (reciprocal flip_sign : Bool) (hlen : len < 2 ^ 30) :
    (option_word_spec len reciprocal flip_sign).testBit 0 = flip_sign ∧
    (option_word_spec len reciprocal flip_sign).testBit 1 = reciprocal ∧
    option_word_spec len reciprocal flip_sign >>> 2 = (if len > 1 then len else 0) := by
  have hx := option_word_value len reciprocal flip_sign hlen
  generalize option_word_spec len reciprocal flip_sign = x at hx
  generalize (if len > 1 then len else 0) = l at hx
  have h0 : x / 2 ^ 0 % 2 = (if flip_sign then 1 else 0) := by
    simp only [pow_zero, Nat.div_one]
    split_ifs at hx ⊢ <;> omega
  have h1 : x / 2 ^ 1 % 2 = (if reciprocal then 1 else 0) := by
    simp only [pow_one]
    split_ifs at hx ⊢ <;> omega
  have h2 : x / 2 ^ 2 = l := by
    have : (2 : Nat) ^ 2 = 4 := by decide
    rw [this]
    split_ifs at hx <;> omega
  refine ⟨?_, ?_, ?_⟩
  · rw [Nat.testBit_to_div_mod, h0]; cases flip_sign <;> simp
  · rw [Nat.testBit_to_div_mod, h1]; cases reciprocal <;> simp
  · rw [Nat.shiftRight_eq_div_pow, h2]

/-- C39: in `am`, `ambm`, `ambm_m` and `scaled_rank_1_update` every option word is
`((len > 1 ? len << 2 : 0) + (reciprocal ? 2 : 0) + (flip_sign ? 1 : 0)) mod 2^32`; for
every `len < 2^30` bit 0 of the word is `flip_sign`, bit 1 is `reciprocal`, and the word
shifted right by 2 is `len` when `len > 1` and 0 otherwise; so two triples with lengths
below `2^30` and the same word have the same two flags and the same length, up to the
identification of the lengths 0 and 1, which do have the same word. -/
theorem option_word_encoding (row_major : Bool) (len_alpha len_beta : Nat)
    (reciprocal_alpha flip_sign_alpha reciprocal_beta flip_sign_beta : Bool) :
    (am row_major len_alpha reciprocal_alpha flip_sign_alpha).options
      = [option_word_spec len_alpha reciprocal_alpha flip_sign_alpha] ∧
    (ambm row_major len_alpha reciprocal_alpha flip_sign_alpha len_beta reciprocal_beta
        flip_sign_beta).options
      = [option_word_spec len_alpha reciprocal_alpha flip_sign_alpha,
         option_word_spec len_beta reciprocal_beta flip_sign_beta] ∧
    (ambm_m row_major len_alpha reciprocal_alpha flip_sign_alpha len_beta reciprocal_beta
        flip_sign_beta).options
      = [option_word_spec len_alpha reciprocal_alpha flip_sign_alpha,
         option_word_spec len_beta reciprocal_beta flip_sign_beta] ∧
    (scaled_rank_1_update row_major len_alpha reciprocal_alpha flip_sign_alpha).options
      = [option_word_spec len_alpha reciprocal_alpha flip_sign_alpha] ∧
    (len_alpha < 2 ^ 30 →
      (option_word_spec len_alpha reciprocal_alpha flip_sign_alpha).testBit 0
        = flip_sign_alpha ∧
      (option_word_spec len_alpha reciprocal_alpha flip_sign_alpha).testBit 1
        = reciprocal_alpha ∧
      option_word_spec len_alpha reciprocal_alpha flip_sign_alpha >>> 2
        = (if len_alpha > 1 then len_alpha else 0)) ∧
    (len_alpha < 2 ^ 30 → len_beta < 2 ^ 30 →
      option_word_spec len_alpha reciprocal_alpha flip_sign_alpha
        = option_word_spec len_beta reciprocal_beta flip_sign_beta →
      reciprocal_alpha = reciprocal_beta ∧ flip_sign_alpha = flip_sign_beta ∧
        (len_alpha = len_beta ∨ (len_alpha ≤ 1 ∧ len_beta ≤ 1))) ∧
    option_word_spec 0 reciprocal_alpha flip_sign_alpha
      = option_word_spec 1 reciprocal_alpha flip_sign_alpha := by
  refine ⟨?_, ?_, ?_, ?_, fun h => option_word_decode _ _ _ h, ?_, rfl⟩
  · unfold am
    cases row_major <;> simp only [option_word_eq] <;> rfl
  · unfold ambm
    cases row_major <;> simp only [option_word_eq] <;> rfl
  · unfold ambm_m
    cases row_major <;> simp only [option_word_eq] <;> rfl
  · unfold scaled_rank_1_update
    cases row_major <;> simp only [option_word_eq] <;> rfl
  · intro ha hb h
    obtain ⟨a0, a1, a2⟩ := option_word_decode len_alpha reciprocal_alpha flip_sign_alpha ha
    obtain ⟨b0, b1, b2⟩ := option_word_decode len_beta reciprocal_beta flip_sign_beta hb
    rw [h] at a0 a1 a2
    refine ⟨by rw [← a1, b1], by rw [← a0, b0], ?_⟩
    rw [b2] at a2
    split_ifs at a2 <;> omega

/-- Witness of C39: `am` with `len = 5`, the reciprocal flag set and the sign flag clear
passes the option word 22; its bit 0 is clear, its bit 1 is set, and `22 >> 2 = 5`. -/
theorem option_word_encoding_witness :
    (am true 5 true false).options = [22] ∧
    (22 : Nat).testBit 0 = false ∧ (22 : Nat).testBit 1 = true ∧ (22 : Nat) >>> 2 = 5 := by
  have h := option_word_encoding true 5 5 true false true false
  refine ⟨?_, ?_⟩
  · rw [h.1]; rfl
  · exact h.2.2.2.2.1 (by decide)

end cuda
end linalg

end viennacl
